import Mathlib

/-! # Category hierarchy of the product service

A shallow embedding of `product-service/src/controllers/categoryController.js`
and of the hooks of `product-service/src/models/category.js`.

Modelling decisions:

* The `categories` table is a list of rows in insertion order. `findByPk`,
  `findAll`, `count`, the row update issued by `instance.update` and
  `destroy` are list operations on it.
* Category ids are UUID primary keys. The value of a uuid is a natural number
  (`CategoryId`); the table and the rows read from it hold values. An id that
  arrives in a request (URL, query string, body) is a text (`RequestId`): a
  spelling of a uuid value, or text that is not UUID syntax. The database
  reads every spelling of a uuid as the same value and throws on any other
  text; the `===` tests of the controller compare texts.
* A Sequelize instance is a `Category` value held next to the table: an
  `instance.update(values)` first sets the values on the instance, runs the
  `beforeValidate` hook and the validators, and then writes to the row the
  fields that `values` names, and no other.
* `slugify` is an external library and is a parameter of the model.
* The `while` loop of `isDescendant` and the recursion of
  `updateDescendantPaths` need not terminate on a table whose parent links
  contain a cycle; both take a fuel argument and answer `none` when it runs out.
* Of the request body only the fields that reach the hierarchy, the slug and
  the listing are kept (`id`, `name`, `slug`, `parentId`, `path`, `level`,
  `isActive`, `displayOrder`), with `path` a string and `level` an integer when
  present.
* The database rejects an insert whose primary key or slug is already stored
  and a row write that sets the slug to one stored in another row; the
  handlers turn every thrown error into a `ServerError` reply.
-/

namespace CategoryHierarchy

/-- Primary key of a category row: the value of a UUID. -/
abbrev CategoryId := Nat

/-- A category id as a request carries it: a text. Text that is UUID syntax
names the uuid value `id` in one of its spellings (letter case, braces,
hyphens); spelling `0` is the lower-case text the database returns for the
value. Any other text is `malformed`. -/
inductive RequestId
  | uuid (id : CategoryId) (spelling : Nat)
  | malformed (text : String)
deriving DecidableEq, Repr

/-- The text the database returns for a uuid value. -/
def RequestId.stored (id : CategoryId) : RequestId :=
  .uuid id 0

/-- A numeral in the examples is an id written as the database returns it. -/
instance (n : Nat) : OfNat RequestId n :=
  ⟨RequestId.stored n⟩

/-- The uuid value the database reads from a text; `none` for text on which it throws. -/
def RequestId.value : RequestId → Option CategoryId
  | .uuid id _ => some id
  | .malformed _ => none

/-- A row of the `categories` table, also used for an in-memory instance. -/
structure Category where
  id : CategoryId
  name : String
  slug : String
  parentId : Option CategoryId
  path : Option String
  level : Int
  isActive : Bool
  displayOrder : Int
deriving DecidableEq, Repr

/-- A row of the `products` table; only the foreign key to its category matters here. -/
structure Product where
  id : Nat
  categoryId : Option CategoryId
deriving DecidableEq, Repr

/-- The request body `req.body` of a create or update request. `none` is an
absent (`undefined`) field; for `parentId`, `some none` is an explicit `null`. -/
structure CategoryData where
  id : Option RequestId := none
  name : Option String := none
  slug : Option String := none
  parentId : Option (Option RequestId) := none
  path : Option String := none
  level : Option Int := none
  isActive : Option Bool := none
  displayOrder : Option Int := none
deriving DecidableEq, Repr

/-- The `type` argument of `ApiError`. -/
inductive ErrorType
  | ValidationError
  | NotFoundError
  | ServerError
deriving DecidableEq, Repr

/-- An `ApiError` handed to `next`: its message and its type. -/
structure ApiError where
  message : String
  type : ErrorType
deriving DecidableEq, Repr

/-- The cache key scheme: `categories:all`, `category:<id>`, `category:slug:<slug>`.
The id in a key is the text of the request that built the key. -/
inductive CacheKey
  | categoriesAll
  | category (id : RequestId)
  | categorySlug (slug : String)
deriving DecidableEq, Repr

/-- JSON documents sent to the client and kept in the cache. -/
inductive Payload
  | category (c : Category)
  | categoryDetail (c : Category) (subcategories : List Category) (parent : Option Category)
  | categories (cs : List Category)
  | message (text : String)
deriving DecidableEq, Repr

/-- The string stored under a cache key: the empty string written by an
invalidation, or a serialised document. -/
inductive CacheValue
  | empty
  | json (doc : Payload)
deriving DecidableEq, Repr

/-- One cache entry: key, value and the `EX` expiry in seconds. -/
structure CacheEntry where
  key : CacheKey
  value : CacheValue
  ttl : Nat
deriving DecidableEq, Repr

/-- The durable tables and the cache. -/
structure State where
  categories : List Category
  products : List Product
  cache : List CacheEntry
deriving DecidableEq, Repr

/-- What the handler hands back: `res.status(code).json(body)` or `next(error)`. -/
inductive Response
  | json (status : Nat) (body : Payload)
  | error (e : ApiError)
deriving DecidableEq, Repr

/-- The response of a handler together with the state it leaves. -/
structure Reply where
  response : Response
  state : State
deriving DecidableEq, Repr

/-- The state before any request. -/
def State.initial : State := ⟨[], [], []⟩

/-- A reply is a success when the handler answered with `res.json`. -/
def Response.isSuccess : Response → Bool
  | .json _ _ => true
  | .error _ => false

/-! ## Table and cache primitives -/

/-- The row `Category.findByPk` returns for a uuid value. On the text of a
request the handlers first read the value: see `RequestId.value`. -/
def findByPk (cats : List Category) (id : CategoryId) : Option Category :=
  cats.find? (fun c => c.id == id)

/-- The rows `Category.findAll({ where: { parentId } })`. -/
def findAllByParent (cats : List Category) (parentId : CategoryId) : List Category :=
  cats.filter (fun c => c.parentId == some parentId)

/-- The count `Category.count({ where: { parentId } })`. -/
def countByParent (cats : List Category) (parentId : CategoryId) : Nat :=
  (findAllByParent cats parentId).length

/-- The count `Product.count({ where: { categoryId } })`. -/
def countProducts (products : List Product) (categoryId : CategoryId) : Nat :=
  (products.filter (fun p => p.categoryId == some categoryId)).length

/-- The row write `UPDATE categories SET ... WHERE id = id`: `f` changes the written columns. -/
def updateRow (cats : List Category) (id : CategoryId) (f : Category → Category) : List Category :=
  cats.map (fun c => if c.id == id then f c else c)

/-- The row removal `DELETE FROM categories WHERE id = id` of `instance.destroy()`. -/
def destroy (cats : List Category) (id : CategoryId) : List Category :=
  cats.filter (fun c => c.id != id)

/-- The cache read `getAsync(key)`. -/
def getAsync (cache : List CacheEntry) (key : CacheKey) : Option CacheValue :=
  (cache.find? (fun e => e.key == key)).map (fun e => e.value)

/-- The cache write `setAsync(key, value, 'EX', ttl)`. -/
def setAsync (cache : List CacheEntry) (key : CacheKey) (value : CacheValue) (ttl : Nat) :
    List CacheEntry :=
  ⟨key, value, ttl⟩ :: cache.filter (fun e => e.key != key)

/-- A template literal prints a `null` value as the text `null`. -/
def template (v : Option String) : String :=
  match v with
  | some s => s
  | none => "null"

/-! ## The model hooks and validators of `models/category.js` -/

/-- Hook `beforeValidate`: a truthy (non-empty) name sets the slug. -/
def beforeValidate (slugify : String → String) (category : Category) : Category :=
  if category.name ≠ "" then { category with slug := slugify category.name } else category

/-- The validators of `name`: `len: [2, 50]` (`notEmpty` is not modelled
separately: it only excludes further names made of white space). -/
def nameValid (name : String) : Bool :=
  decide (2 ≤ name.length) && decide (name.length ≤ 50)

/-- The unique index on `slug`: no other row may hold the slug. -/
def slugTaken (cats : List Category) (self : CategoryId) (slug : String) : Bool :=
  cats.any (fun c => c.id != self && c.slug == slug)

/-- The `id` of the body is absent or UUID syntax. -/
def idSyntax (categoryData : CategoryData) : Bool :=
  match categoryData.id with
  | some (.malformed _) => false
  | _ => true

/-- The `parentId` of the body is absent, `null` or UUID syntax. -/
def parentIdSyntax (categoryData : CategoryData) : Bool :=
  match categoryData.parentId with
  | some (some (.malformed _)) => false
  | _ => true

/-- The instance built by `Category.create(categoryData)` before it is saved:
body values, then column defaults (`UUIDV4` for the id, `1` for the level,
`true` for `isActive`, `0` for `displayOrder`). -/
def build (uuid : CategoryId) (categoryData : CategoryData) : Category :=
  { id := (categoryData.id.bind RequestId.value).getD uuid
    name := categoryData.name.getD ""
    slug := categoryData.slug.getD ""
    parentId := categoryData.parentId.join.bind RequestId.value
    path := categoryData.path
    level := categoryData.level.getD 1
    isActive := categoryData.isActive.getD true
    displayOrder := categoryData.displayOrder.getD 0 }

/-- Hook `afterCreate`: the path and level of the row just inserted. Returns
the table and the instance after the hook. -/
def afterCreate (cats : List Category) (category : Category) : List Category × Category :=
  match category.parentId with
  | none =>
    -- Root category
    let category1 := { category with path := some ("/" ++ category.slug), level := 1 }
    (updateRow cats category.id (fun r => { r with path := category1.path, level := category1.level }),
      category1)
  | some parentId =>
    -- Child category - find parent and build path
    match findByPk cats parentId with
    | some parent =>
      let category1 :=
        { category with
          path := some (template parent.path ++ "/" ++ category.slug)
          level := parent.level + 1 }
      (updateRow cats category.id
          (fun r => { r with path := category1.path, level := category1.level }),
        category1)
    | none => (cats, category)

/-- The call `Category.create(categoryData)`: build, `beforeValidate`, validate,
insert (rejected on an `id` or `parentId` that is not UUID syntax, by the
primary key or by the unique slug index), `afterCreate`. `none` is a thrown
error. -/
def Category.create (slugify : String → String) (uuid : CategoryId) (cats : List Category)
    (categoryData : CategoryData) : Option (List Category × Category) :=
  let category := beforeValidate slugify (build uuid categoryData)
  if !nameValid category.name then none
  else if !idSyntax categoryData || !parentIdSyntax categoryData then none
  else if (findByPk cats category.id).isSome then none
  else if slugTaken cats category.id category.slug then none
  else some (afterCreate (cats ++ [category]) category)

/-- The values `instance.update(updateData)` sets on the instance: every
defined field of the body except the primary key, which is never reassigned. -/
def setValues (category : Category) (updateData : CategoryData) : Category :=
  { category with
    name := updateData.name.getD category.name
    slug := updateData.slug.getD category.slug
    parentId := match updateData.parentId with
      | some v => v.bind RequestId.value
      | none => category.parentId
    path := match updateData.path with
      | some v => some v
      | none => category.path
    level := updateData.level.getD category.level
    isActive := updateData.isActive.getD category.isActive
    displayOrder := updateData.displayOrder.getD category.displayOrder }

/-- The text `category.parentId` holds on the instance once
`instance.update(updateData)` has set the values: the text of the body when the
body carries the field, the text read from the table otherwise. -/
def parentIdText (category : Category) (updateData : CategoryData) : Option RequestId :=
  match updateData.parentId with
  | some v => v
  | none => category.parentId.map RequestId.stored

/-- The `SET` list of the `UPDATE` issued by `instance.update(updateData)`: the
fields the body names, each with the value the instance `category1` holds for
it after the hook; the other columns of the row stay. A slug the hook changed
on the instance is written only when the body names `slug`. -/
def writeFields (updateData : CategoryData) (category1 row : Category) : Category :=
  { row with
    name := if updateData.name.isSome then category1.name else row.name
    slug := if updateData.slug.isSome then category1.slug else row.slug
    parentId := if updateData.parentId.isSome then category1.parentId else row.parentId
    path := if updateData.path.isSome then category1.path else row.path
    level := if updateData.level.isSome then category1.level else row.level
    isActive := if updateData.isActive.isSome then category1.isActive else row.isActive
    displayOrder :=
      if updateData.displayOrder.isSome then category1.displayOrder else row.displayOrder }

/-- The call `category.update(updateData)` of the controller: set the values,
`beforeValidate`, validate a supplied name, write the fields of the body to the
row (rejected on a `parentId` that is not UUID syntax, and by the unique slug
index when the body names `slug`). `none` is a thrown error; otherwise the
table and the instance. -/
def Category.update (slugify : String → String) (cats : List Category) (category : Category)
    (updateData : CategoryData) : Option (List Category × Category) :=
  let category1 := beforeValidate slugify (setValues category updateData)
  if updateData.name.isSome && !nameValid category1.name then none
  else if !parentIdSyntax updateData then none
  else if updateData.slug.isSome && slugTaken cats category.id category1.slug then none
  else some (updateRow cats category.id (writeFields updateData category1), category1)

/-- The call `instance.update({ path, level })` used for recomputed paths:
only these two columns of the row are written. -/
def updatePathLevel (cats : List Category) (category : Category) (path : String) (level : Int) :
    List Category × Category :=
  (updateRow cats category.id (fun r => { r with path := some path, level := level }),
    { category with path := some path, level := level })

/-! ## The helpers of `categoryController.js` -/

/-- The `while` loop of `isDescendant`, one unit of fuel per evaluation of the
loop condition; `none` when the fuel runs out before the loop ends. The test
`currentCategory.parentId === ancestorId` compares the text read from the
table with the text handed over. -/
def isDescendantLoop (cats : List Category) (ancestorId : RequestId) :
    Nat → Option Category → Option Bool
  | 0, _ => none
  | fuel + 1, current =>
    match current with
    | none => some false
    | some c =>
      match c.parentId with
      | none => some false
      | some parentId =>
        if RequestId.stored parentId = ancestorId then some true
        else isDescendantLoop cats ancestorId fuel (findByPk cats parentId)

/-- Helper `isDescendant(categoryId, ancestorId)`. Its first argument only
reaches `findByPk` and is given by its uuid value: `updateCategory` hands over
a text that `findByPk` has accepted on the line before. -/
def isDescendant (fuel : Nat) (cats : List Category) (categoryId : CategoryId)
    (ancestorId : RequestId) : Option Bool :=
  isDescendantLoop cats ancestorId fuel (findByPk cats categoryId)

/-- Helper `updateDescendantPaths(category)`: every direct child found by
`findAll` gets its path and level from `category`, then its own children are
visited. One unit of fuel per nested call. -/
def updateDescendantPaths : Nat → List Category → Category → Option (List Category)
  | 0, _, _ => none
  | fuel + 1, cats, category =>
    (findAllByParent cats category.id).foldlM
      (fun cats1 child =>
        let r := updatePathLevel cats1 child (template category.path ++ "/" ++ child.slug)
          (category.level + 1)
        updateDescendantPaths fuel r.1 r.2)
      cats

/-! ## The handlers -/

/-- The reply `next(new ApiError(message, type))`. -/
def fail (s : State) (message : String) (type : ErrorType) : Reply :=
  ⟨.error ⟨message, type⟩, s⟩

/-- Handler `createCategory`; `uuid` is the value `UUIDV4` would generate. -/
def createCategory (slugify : String → String) (uuid : CategoryId) (s : State)
    (categoryData : CategoryData) : Reply :=
  -- If parentId is provided, check if parent exists
  let verdict : Option ApiError :=
    match categoryData.parentId.join with
    | none => none
    | some (.malformed text) =>
      -- the empty text is falsy and skips the check; on other text `findByPk` throws
      if text = "" then none else some ⟨"Failed to create category", .ServerError⟩
    | some (.uuid parentKey _) =>
      if (findByPk s.categories parentKey).isNone then
        some ⟨"Parent category not found", .ValidationError⟩
      else none
  match verdict with
  | some e => ⟨.error e, s⟩
  | none =>
    -- Create category
    match Category.create slugify uuid s.categories categoryData with
    | none => fail s "Failed to create category" .ServerError
    | some (cats, category) =>
      -- Invalidate cache
      let cache := setAsync s.cache .categoriesAll .empty 1
      ⟨.json 201 (.category category), { s with categories := cats, cache := cache }⟩

/-- The three cache writes that end `updateCategory` and `deleteCategory`; `id`
is the text of the URL. -/
def invalidateCategory (cache : List CacheEntry) (id : RequestId) (slug : String) :
    List CacheEntry :=
  let cache1 := setAsync cache (.category id) .empty 1
  let cache2 := setAsync cache1 (.categorySlug slug) .empty 1
  setAsync cache2 .categoriesAll .empty 1

/-- The part of `updateCategory` under the comment "Update path if parentId
changed", run after `category.update(updateData)` gave the table `cats` and the
updated `category`, whose `parentId` attribute holds the text `parentIdNow`.
The outer `Option` is `none` when the fuel runs out, the inner result is the
table and the category, or the table at the point of a thrown error. -/
def recomputePaths (fuel : Nat) (cats : List Category) (category : Category)
    (parentIdNow : Option RequestId) (updateData : CategoryData) :
    Option (Except (List Category) (List Category × Category)) :=
  match updateData.parentId with
  | none => some (.ok (cats, category))
  | some newParent =>
    if newParent ≠ parentIdNow then
      match newParent with
      | none =>
        -- Now a root category
        let r := updatePathLevel cats category ("/" ++ category.slug) 1
        (updateDescendantPaths fuel r.1 r.2).map (fun cats2 => .ok (cats2, r.2))
      | some (.malformed text) =>
        if text = "" then
          -- Now a root category
          let r := updatePathLevel cats category ("/" ++ category.slug) 1
          (updateDescendantPaths fuel r.1 r.2).map (fun cats2 => .ok (cats2, r.2))
        else some (.error cats)
      | some (.uuid parentKey _) =>
        -- Child category - find parent and build path
        match findByPk cats parentKey with
        | none => some (.error cats)
        | some parent =>
          let r := updatePathLevel cats category (template parent.path ++ "/" ++ category.slug)
            (parent.level + 1)
          (updateDescendantPaths fuel r.1 r.2).map (fun cats2 => .ok (cats2, r.2))
    else some (.ok (cats, category))

/-- Handler `updateCategory`; `id` is the text of the URL. `none` when the fuel
runs out. -/
def updateCategory (slugify : String → String) (fuel : Nat) (s : State) (id : RequestId)
    (updateData : CategoryData) : Option Reply :=
  -- Find category
  match id with
  | .malformed _ => some (fail s "Failed to update category" .ServerError)
  | .uuid key _ =>
    match findByPk s.categories key with
    | none => some (fail s "Category not found" .NotFoundError)
    | some category =>
      -- Prevent circular references
      if updateData.parentId = some (some id) then
        some (fail s "A category cannot be its own parent" .ValidationError)
      else
        -- If parentId is provided, check if parent exists
        let verdict : Option (Option ApiError) :=
          match updateData.parentId.join with
          | none => some none
          | some (.malformed text) =>
            -- the empty text is falsy and skips the check; on other text `findByPk` throws
            if text = "" then some none
            else some (some ⟨"Failed to update category", .ServerError⟩)
          | some (.uuid parentKey _) =>
            match findByPk s.categories parentKey with
            | none => some (some ⟨"Parent category not found", .ValidationError⟩)
            | some _ =>
              -- Check that the new parent is not a descendant of this category
              (isDescendant fuel s.categories parentKey id).map (fun d =>
                if d then
                  some ⟨"Circular reference detected in category hierarchy", .ValidationError⟩
                else none)
        match verdict with
        | none => none
        | some (some e) => some ⟨.error e, s⟩
        | some none =>
          -- Update category
          match Category.update slugify s.categories category updateData with
          | none => some (fail s "Failed to update category" .ServerError)
          | some (cats1, category1) =>
            -- Update path if parentId changed
            match recomputePaths fuel cats1 category1 (parentIdText category updateData)
                updateData with
            | none => none
            | some (.error cats2) =>
              some (fail { s with categories := cats2 } "Failed to update category" .ServerError)
            | some (.ok (cats2, category2)) =>
              -- Invalidate cache
              let cache := invalidateCategory s.cache id category2.slug
              some ⟨.json 200 (.category category2), { s with categories := cats2, cache := cache }⟩

/-- Handler `deleteCategory`; `id` is the text of the URL. -/
def deleteCategory (s : State) (id : RequestId) : Reply :=
  -- Find category
  match id with
  | .malformed _ => fail s "Failed to delete category" .ServerError
  | .uuid key _ =>
    match findByPk s.categories key with
    | none => fail s "Category not found" .NotFoundError
    | some category =>
      -- Check if category has subcategories
      if countByParent s.categories key > 0 then
        fail s "Cannot delete category with subcategories" .ValidationError
      -- Check if category has products
      else if countProducts s.products key > 0 then
        fail s "Cannot delete category with products" .ValidationError
      else
        -- Delete category
        let cache := invalidateCategory s.cache id category.slug
        ⟨.json 200 (.message "Category deleted successfully"),
          { s with categories := destroy s.categories key, cache := cache }⟩

/-! ## Vocabulary of the properties -/

/-- The parent link of `id`: the `parentId` of the row `id` resolves to. -/
def parentOf (cats : List Category) (id : CategoryId) : Option CategoryId :=
  (findByPk cats id).bind (fun c => c.parentId)

/-- The id reached from `id` by following `n` parent links. -/
def ancestorAt (cats : List Category) : Nat → CategoryId → Option CategoryId
  | 0, id => some id
  | n + 1, id => (parentOf cats id).bind (ancestorAt cats n)

/-- Category `a` is a strict ancestor of `c`: at least one parent link leads from `c` to `a`. -/
def IsAncestor (cats : List Category) (a c : CategoryId) : Prop :=
  ∃ n, ancestorAt cats (n + 1) c = some a

/-- No category in the table is its own ancestor. -/
def Acyclic (cats : List Category) : Prop :=
  ∀ c ∈ cats, ¬ IsAncestor cats c.id c.id

/-- The `parentId` of row `c` is absent or names a row of the table. -/
def parentResolves (cats : List Category) (c : Category) : Bool :=
  match c.parentId with
  | none => true
  | some p => (findByPk cats p).isSome

/-- Every `parentId` is absent or names a row of the table. -/
def RefIntegrity (cats : List Category) : Prop :=
  ∀ c ∈ cats, parentResolves cats c = true

/-- Row `c` has the path of a root when it has no parent, and the path built
from its parent row when `parentId` names one. -/
def pathOk (cats : List Category) (c : Category) : Bool :=
  match c.parentId with
  | none => c.path == some ("/" ++ c.slug)
  | some p =>
    match findByPk cats p with
    | some parent => c.path == some (template parent.path ++ "/" ++ c.slug)
    | none => true

/-- Row `c` has level 1 when it has no parent, and one more than its parent
row when `parentId` names one. -/
def levelOk (cats : List Category) (c : Category) : Bool :=
  match c.parentId with
  | none => c.level == 1
  | some p =>
    match findByPk cats p with
    | some parent => c.level == parent.level + 1
    | none => true

/-- Every row has a materialised path consistent with its parent. -/
def PathConsistent (cats : List Category) : Prop :=
  ∀ c ∈ cats, pathOk cats c = true

/-- Every row has a level consistent with its parent. -/
def LevelConsistent (cats : List Category) : Prop :=
  ∀ c ∈ cats, levelOk cats c = true

/-- The states reached from the initial state by create, update and delete
requests that each complete without error. -/
inductive Reachable (slugify : String → String) : State → Prop
  | initial : Reachable slugify State.initial
  | create {s : State} (uuid : CategoryId) (data : CategoryData) :
      Reachable slugify s →
      (createCategory slugify uuid s data).response.isSuccess = true →
      Reachable slugify (createCategory slugify uuid s data).state
  | update {s : State} (fuel : Nat) (id : RequestId) (data : CategoryData) (r : Reply) :
      Reachable slugify s →
      updateCategory slugify fuel s id data = some r →
      r.response.isSuccess = true →
      Reachable slugify r.state
  | delete {s : State} (id : RequestId) :
      Reachable slugify s →
      (deleteCategory s id).response.isSuccess = true →
      Reachable slugify (deleteCategory s id).state

/-! ## Concrete tables used in the examples -/

/-- A stand-in for `slugify` on names made of ASCII letters: lower-casing. -/
def lowerAscii (name : String) : String :=
  ⟨name.data.map Char.toLower⟩

/-- Root "Components" created in the empty store. -/
def storeComponents : State :=
  (createCategory lowerAscii 1 State.initial { name := some "Components" }).state

/-- Then "Storage" created under "Components". -/
def storeStorage : State :=
  (createCategory lowerAscii 2 storeComponents
    { name := some "Storage", parentId := some (some 1) }).state

/-- Then "SSD" created under "Storage". -/
def storeSSD : State :=
  (createCategory lowerAscii 3 storeStorage { name := some "SSD", parentId := some (some 2) }).state

/-- Then a second root "Peripherals". -/
def storePeripherals : State :=
  (createCategory lowerAscii 4 storeSSD { name := some "Peripherals" }).state

/-- Then "Keyboards" created under "Peripherals". -/
def storeKeyboards : State :=
  (createCategory lowerAscii 5 storePeripherals
    { name := some "Keyboards", parentId := some (some 4) }).state

/-- The request `updateCategory(2, { parentId: null })`: "Storage", which has
the child "SSD", is made a root. -/
def storageMovedToRoot : Option Reply :=
  updateCategory lowerAscii 4 storeSSD 2 { parentId := some none }

/-- The rows read back after that request. -/
def rowsAfterMoveToRoot : List Category :=
  [⟨1, "Components", "components", none, some "/components", 1, true, 0⟩,
   ⟨2, "Storage", "storage", none, some "/components/storage", 2, true, 0⟩,
   ⟨3, "SSD", "ssd", some 2, some "/components/storage/ssd", 3, true, 0⟩]

/-- The request `updateCategory(2, { parentId: 5 })`: "Storage" is moved from
"Components" to "Keyboards". -/
def storageMovedUnderKeyboards : Option Reply :=
  updateCategory lowerAscii 6 storeKeyboards 2 { parentId := some (some 5) }

/-- The readers test `if (cachedData && ...)`: an absent key and the empty
string are falsy, a stored document is a hit. -/
def isCacheHit (cachedData : Option CacheValue) : Bool :=
  match cachedData with
  | some (.json _) => true
  | some .empty => false
  | none => false

/-- A corrupted table: rows 1 and 2 name each other as parent. -/
def storeCyclic : State :=
  ⟨[⟨1, "Components", "components", some 2, some "/components", 1, true, 0⟩,
    ⟨2, "Storage", "storage", some 1, some "/components/storage", 2, true, 0⟩], [], []⟩

/-- The tables of `storeSSD` with a warm cache: documents stored for one hour
under the keys of "Storage" and of "SSD". -/
def storeWarm : State :=
  { storeSSD with
    cache :=
      [⟨.category 2,
          .json (.category ⟨2, "Storage", "storage", some 1, some "/components/storage", 2,
            true, 0⟩), 3600⟩,
        ⟨.category 3,
          .json (.category ⟨3, "SSD", "ssd", some 2, some "/components/storage/ssd", 3,
            true, 0⟩), 3600⟩,
        ⟨.categorySlug "ssd",
          .json (.category ⟨3, "SSD", "ssd", some 2, some "/components/storage/ssd", 3,
            true, 0⟩), 3600⟩] }

/-! ## The read handlers -/

/-- The `parentId` query parameter of `getAllCategories`: absent, the word
`root`, or any other text. -/
inductive ParentFilter
  | any
  | root
  | under (parentId : RequestId)
deriving DecidableEq, Repr

/-- The query string of `getAllCategories`. The flag `includeProducts` is left
out: it only adds the products of each category to the document. -/
structure ListQuery where
  includeInactive : Bool := false
  parentId : ParentFilter := .any
deriving DecidableEq, Repr

/-- The `where` clause built from the query: `isActive = true` unless inactive
categories are asked for, `parentId IS NULL` for `root`, `parentId = id` for an
id; the empty text is falsy and adds no clause. -/
def matchesFilters (q : ListQuery) (c : Category) : Bool :=
  (q.includeInactive || c.isActive) &&
    (match q.parentId with
     | .any => true
     | .root => c.parentId == none
     | .under (.uuid parentKey _) => c.parentId == some parentKey
     | .under (.malformed _) => true)

/-- The `order` clause: `level`, then `displayOrder`, then `name`, ascending
(the collation of `name` is the ordering of strings). -/
def listingLe (a b : Category) : Bool :=
  decide (a.level < b.level) ||
    (a.level == b.level &&
      (decide (a.displayOrder < b.displayOrder) ||
        (a.displayOrder == b.displayOrder && decide (a.name ≤ b.name))))

/-- The query `Category.findAll({ where: filters, order })`; `none` is the
error the database throws on a `parentId` that is not UUID syntax. -/
def findAllFiltered (cats : List Category) (q : ListQuery) : Option (List Category) :=
  match q.parentId with
  | .under (.malformed text) =>
    if text = "" then some ((cats.filter (matchesFilters q)).insertionSort
      (fun a b => listingLe a b = true))
    else none
  | _ => some ((cats.filter (matchesFilters q)).insertionSort (fun a b => listingLe a b = true))

/-- Handler `getAllCategories`; `production` is the test
`process.env.NODE_ENV === 'production'`. -/
def getAllCategories (production : Bool) (s : State) (q : ListQuery) : Reply :=
  -- Try to get from cache first
  let cachedData := getAsync s.cache .categoriesAll
  match cachedData, isCacheHit cachedData && production with
  | some (.json doc), true => ⟨.json 200 doc, s⟩
  | _, _ =>
    match findAllFiltered s.categories q with
    | none => fail s "Failed to fetch categories" .ServerError
    | some categories =>
      -- Cache the result
      let cache :=
        if production then setAsync s.cache .categoriesAll (.json (.categories categories)) 3600
        else s.cache
      ⟨.json 200 (.categories categories), { s with cache := cache }⟩

/-- The document of one category with its included `subcategories` (active
rows naming it as parent) and `parent`. -/
def categoryDocument (cats : List Category) (category : Category) : Payload :=
  .categoryDetail category
    ((findAllByParent cats category.id).filter (fun c => c.isActive))
    (category.parentId.bind (findByPk cats))

/-- Handler `getCategoryById`; `id` is the text of the URL. -/
def getCategoryById (production : Bool) (s : State) (id : RequestId) : Reply :=
  -- Try to get from cache first
  let cachedData := getAsync s.cache (.category id)
  match cachedData, isCacheHit cachedData && production with
  | some (.json doc), true => ⟨.json 200 doc, s⟩
  | _, _ =>
    match id with
    | .malformed _ => fail s "Failed to fetch category" .ServerError
    | .uuid key _ =>
      match findByPk s.categories key with
      | none => fail s "Category not found" .NotFoundError
      | some category =>
        -- Cache the result
        let cache :=
          if production then
            setAsync s.cache (.category id) (.json (categoryDocument s.categories category)) 3600
          else s.cache
        ⟨.json 200 (categoryDocument s.categories category), { s with cache := cache }⟩

/-- The lookup `Category.findOne({ where: { slug } })`. -/
def findBySlug (cats : List Category) (slug : String) : Option Category :=
  cats.find? (fun c => c.slug == slug)

/-- Handler `getCategoryBySlug`. -/
def getCategoryBySlug (production : Bool) (s : State) (slug : String) : Reply :=
  -- Try to get from cache first
  let cachedData := getAsync s.cache (.categorySlug slug)
  match cachedData, isCacheHit cachedData && production with
  | some (.json doc), true => ⟨.json 200 doc, s⟩
  | _, _ =>
    match findBySlug s.categories slug with
    | none => fail s "Category not found" .NotFoundError
    | some category =>
      -- Cache the result
      let cache :=
        if production then
          setAsync s.cache (.categorySlug slug)
            (.json (categoryDocument s.categories category)) 3600
        else s.cache
      ⟨.json 200 (categoryDocument s.categories category), { s with cache := cache }⟩

/-- The state after an unfiltered `getAllCategories` in production on the
tables of `storeSSD`: the listing of all three categories is cached. -/
def storeListed : State :=
  (getAllCategories true storeSSD { }).state

/-! ## The two halves of `updateCategory` -/

/-- The reads that open `updateCategory`, up to the descendant check: the
category loaded by `findByPk`, or the error handed to `next`. `none` when the
fuel of the walk runs out. -/
def updateGuard (fuel : Nat) (cats : List Category) (id : RequestId)
    (updateData : CategoryData) : Option (Except ApiError Category) :=
  -- Find category
  match id with
  | .malformed _ => some (.error ⟨"Failed to update category", .ServerError⟩)
  | .uuid key _ =>
    match findByPk cats key with
    | none => some (.error ⟨"Category not found", .NotFoundError⟩)
    | some category =>
      -- Prevent circular references
      if updateData.parentId = some (some id) then
        some (.error ⟨"A category cannot be its own parent", .ValidationError⟩)
      else
        -- If parentId is provided, check if parent exists
        match updateData.parentId.join with
        | none => some (.ok category)
        | some (.malformed text) =>
          if text = "" then some (.ok category)
          else some (.error ⟨"Failed to update category", .ServerError⟩)
        | some (.uuid parentKey _) =>
          match findByPk cats parentKey with
          | none => some (.error ⟨"Parent category not found", .ValidationError⟩)
          | some _ =>
            -- Check that the new parent is not a descendant of this category
            (isDescendant fuel cats parentKey id).map (fun d =>
              if d then
                .error ⟨"Circular reference detected in category hierarchy", .ValidationError⟩
              else .ok category)

/-- The writes that close `updateCategory`, from `category.update(updateData)`
on, run on the state `s` with the `category` loaded by the guard. -/
def updateCommit (slugify : String → String) (fuel : Nat) (s : State) (id : RequestId)
    (category : Category) (updateData : CategoryData) : Option Reply :=
  -- Update category
  match Category.update slugify s.categories category updateData with
  | none => some (fail s "Failed to update category" .ServerError)
  | some (cats1, category1) =>
    -- Update path if parentId changed
    match recomputePaths fuel cats1 category1 (parentIdText category updateData) updateData with
    | none => none
    | some (.error cats2) =>
      some (fail { s with categories := cats2 } "Failed to update category" .ServerError)
    | some (.ok (cats2, category2)) =>
      -- Invalidate cache
      let cache := invalidateCategory s.cache id category2.slug
      some ⟨.json 200 (.category category2), { s with categories := cats2, cache := cache }⟩

/-- What a call does once its guard has answered: hand the error to `next`
or commit on the state found at that time. -/
def afterGuard (slugify : String → String) (fuel : Nat) (s : State) (id : RequestId)
    (updateData : CategoryData) (verdict : Except ApiError Category) : Option Reply :=
  match verdict with
  | .error e => some ⟨.error e, s⟩
  | .ok category => updateCommit slugify fuel s id category updateData

/-- Two `updateCategory` calls, the second started when the first has answered. -/
def updateSerial (slugify : String → String) (fuel : Nat) (s : State)
    (id1 : RequestId) (data1 : CategoryData) (id2 : RequestId) (data2 : CategoryData) :
    Option State :=
  (updateCategory slugify fuel s id1 data1).bind (fun r1 =>
    (updateCategory slugify fuel r1.state id2 data2).map (fun r2 => r2.state))

/-- Two `updateCategory` calls interleaved so that both guards read the
initial state before either call commits; the first call commits first. -/
def updateGuardsFirst (slugify : String → String) (fuel : Nat) (s : State)
    (id1 : RequestId) (data1 : CategoryData) (id2 : RequestId) (data2 : CategoryData) :
    Option State :=
  (updateGuard fuel s.categories id1 data1).bind (fun verdict1 =>
    (updateGuard fuel s.categories id2 data2).bind (fun verdict2 =>
      (afterGuard slugify fuel s id1 data1 verdict1).bind (fun r1 =>
        (afterGuard slugify fuel r1.state id2 data2 verdict2).map (fun r2 => r2.state))))

/-- Two roots "Components" (id 1) and "Storage" (id 2). -/
def storeTwoRoots : State :=
  (createCategory lowerAscii 2
    (createCategory lowerAscii 1 State.initial { name := some "Components" }).state
    { name := some "Storage" }).state

/-- The body of a request names its parent as the table returns ids: the
field is absent, `null`, or a uuid in the stored spelling. -/
def storedSpelling (updateData : CategoryData) : Prop :=
  ∀ p, updateData.parentId = some (some p) → ∃ key, p = RequestId.stored key

/-! ## Cache writes that may fail -/

/-- A cache write that may be rejected. The cache client of the product
service is not part of the sources; whether `setAsync` throws on a key is the
parameter `throws`. -/
def setAsyncOrThrow (throws : CacheKey → Bool) (cache : List CacheEntry) (key : CacheKey)
    (value : CacheValue) (ttl : Nat) : Option (List CacheEntry) :=
  if throws key then none else some (setAsync cache key value ttl)

/-- The three cache writes that end `updateCategory` and `deleteCategory`, each
of which may throw: the cache reached, or the cache at the point of the throw. -/
def invalidateCategoryOrThrow (throws : CacheKey → Bool) (cache : List CacheEntry)
    (id : RequestId) (slug : String) : Except (List CacheEntry) (List CacheEntry) :=
  match setAsyncOrThrow throws cache (.category id) .empty 1 with
  | none => .error cache
  | some cache1 =>
    match setAsyncOrThrow throws cache1 (.categorySlug slug) .empty 1 with
    | none => .error cache1
    | some cache2 =>
      match setAsyncOrThrow throws cache2 .categoriesAll .empty 1 with
      | none => .error cache2
      | some cache3 => .ok cache3

/-- Handler `createCategory` with cache writes that may throw inside its `try`. -/
def createCategoryOrThrow (throws : CacheKey → Bool) (slugify : String → String)
    (uuid : CategoryId) (s : State) (categoryData : CategoryData) : Reply :=
  -- If parentId is provided, check if parent exists
  let verdict : Option ApiError :=
    match categoryData.parentId.join with
    | none => none
    | some (.malformed text) =>
      if text = "" then none else some ⟨"Failed to create category", .ServerError⟩
    | some (.uuid parentKey _) =>
      if (findByPk s.categories parentKey).isNone then
        some ⟨"Parent category not found", .ValidationError⟩
      else none
  match verdict with
  | some e => ⟨.error e, s⟩
  | none =>
    -- Create category
    match Category.create slugify uuid s.categories categoryData with
    | none => fail s "Failed to create category" .ServerError
    | some (cats, category) =>
      -- Invalidate cache
      match setAsyncOrThrow throws s.cache .categoriesAll .empty 1 with
      | none => fail { s with categories := cats } "Failed to create category" .ServerError
      | some cache =>
        ⟨.json 201 (.category category), { s with categories := cats, cache := cache }⟩

/-- The writes that close `updateCategory`, with cache writes that may throw
inside its `try`. -/
def updateCommitOrThrow (throws : CacheKey → Bool) (slugify : String → String) (fuel : Nat)
    (s : State) (id : RequestId) (category : Category) (updateData : CategoryData) :
    Option Reply :=
  -- Update category
  match Category.update slugify s.categories category updateData with
  | none => some (fail s "Failed to update category" .ServerError)
  | some (cats1, category1) =>
    -- Update path if parentId changed
    match recomputePaths fuel cats1 category1 (parentIdText category updateData) updateData with
    | none => none
    | some (.error cats2) =>
      some (fail { s with categories := cats2 } "Failed to update category" .ServerError)
    | some (.ok (cats2, category2)) =>
      -- Invalidate cache
      match invalidateCategoryOrThrow throws s.cache id category2.slug with
      | .error cache =>
        some (fail { s with categories := cats2, cache := cache }
          "Failed to update category" .ServerError)
      | .ok cache =>
        some ⟨.json 200 (.category category2), { s with categories := cats2, cache := cache }⟩

/-- Handler `updateCategory` with cache writes that may throw inside its `try`. -/
def updateCategoryOrThrow (throws : CacheKey → Bool) (slugify : String → String) (fuel : Nat)
    (s : State) (id : RequestId) (updateData : CategoryData) : Option Reply :=
  match updateGuard fuel s.categories id updateData with
  | none => none
  | some (.error e) => some ⟨.error e, s⟩
  | some (.ok category) => updateCommitOrThrow throws slugify fuel s id category updateData

/-- Handler `deleteCategory` with cache writes that may throw inside its `try`. -/
def deleteCategoryOrThrow (throws : CacheKey → Bool) (s : State) (id : RequestId) : Reply :=
  -- Find category
  match id with
  | .malformed _ => fail s "Failed to delete category" .ServerError
  | .uuid key _ =>
    match findByPk s.categories key with
    | none => fail s "Category not found" .NotFoundError
    | some category =>
      -- Check if category has subcategories
      if countByParent s.categories key > 0 then
        fail s "Cannot delete category with subcategories" .ValidationError
      -- Check if category has products
      else if countProducts s.products key > 0 then
        fail s "Cannot delete category with products" .ValidationError
      else
        -- Delete category, then invalidate cache
        match invalidateCategoryOrThrow throws s.cache id category.slug with
        | .error cache =>
          fail { s with categories := destroy s.categories key, cache := cache }
            "Failed to delete category" .ServerError
        | .ok cache =>
          ⟨.json 200 (.message "Category deleted successfully"),
            { s with categories := destroy s.categories key, cache := cache }⟩

/-! ## The cascade over descendants -/

/-- Helper `updateDescendantPaths(category)` with a log of the ids whose row
`child.update` has written, in the order of the writes. -/
def updateDescendantPathsLog :
    Nat → List Category → Category → Option (List Category × List CategoryId)
  | 0, _, _ => none
  | fuel + 1, cats, category =>
    (findAllByParent cats category.id).foldlM
      (fun (acc : List Category × List CategoryId) child =>
        let r := updatePathLevel acc.1 child (template category.path ++ "/" ++ child.slug)
          (category.level + 1)
        (updateDescendantPathsLog fuel r.1 r.2).map
          (fun sub => (sub.1, acc.2 ++ child.id :: sub.2)))
      (cats, [])

/-- Helper `updateDescendantPaths(category)` when `child.update` may throw:
`throws id` tells whether the write of row `id` is rejected. The inner result
is the table reached, or the table at the point of the throw; the function has
no `try`, so a throw ends the loop and every enclosing call. -/
def updateDescendantPathsOrThrow (throws : CategoryId → Bool) :
    Nat → List Category → Category → Option (Except (List Category) (List Category))
  | 0, _, _ => none
  | fuel + 1, cats, category =>
    (findAllByParent cats category.id).foldlM
      (fun (acc : Except (List Category) (List Category)) child =>
        match acc with
        | .error cats1 => some (.error cats1)
        | .ok cats1 =>
          if throws child.id then some (.error cats1)
          else
            let r := updatePathLevel cats1 child (template category.path ++ "/" ++ child.slug)
              (category.level + 1)
            updateDescendantPathsOrThrow throws fuel r.1 r.2)
      (.ok cats)

/-- A row without its materialised fields. -/
def erasePathLevel (c : Category) : Category :=
  { c with path := none, level := 0 }

/-- Two tables hold the same rows in the same order up to `path` and `level`. -/
def SameShape (cats1 cats : List Category) : Prop :=
  cats1.map erasePathLevel = cats.map erasePathLevel

/-- Row `row` carries the path and level materialised from `parent`. -/
def MaterialisedFrom (parent row : Category) : Prop :=
  row.path = some (template parent.path ++ "/" ++ row.slug) ∧ row.level = parent.level + 1

/-- Root "Components" renamed on the instance to path `/parts`, with the two
children "Storage" and "Memory" still carrying paths under `/components`. -/
def storeFan : List Category :=
  [⟨1, "Components", "components", none, some "/parts", 1, true, 0⟩,
   ⟨2, "Storage", "storage", some 1, some "/components/storage", 2, true, 0⟩,
   ⟨3, "Memory", "memory", some 1, some "/components/memory", 2, true, 0⟩,
   ⟨4, "SSD", "ssd", some 2, some "/components/storage/ssd", 3, true, 0⟩]

/-- Category `j` lies in the subtree of `a`, `a` itself included: some number
of parent links leads from `j` to `a`. -/
def Reach (cats : List Category) (a j : CategoryId) : Prop :=
  ∃ n, ancestorAt cats n j = some a

/-- Category `j` lies in the subtree of one of the `roots`. -/
def InSubtrees (cats : List Category) (roots : List CategoryId) (j : CategoryId) : Prop :=
  ∃ a ∈ roots, Reach cats a j

/-- What a cascade from the instance `c` has done to the ids selected by
`touched` when it left table `table` and log `log`, started on `cats`: rows keep
their shape, rows outside `touched` are as before, rows inside carry the path
and level materialised from their parent (the instance `c` for its children,
the row of the parent in `table` otherwise), and the log holds exactly the ids
in `touched`, each once. -/
structure CascadeOn (touched : CategoryId → Prop) (cats : List Category) (c : Category)
    (table : List Category) (log : List CategoryId) : Prop where
  shape : SameShape table cats
  frame : ∀ j, ¬ touched j → findByPk table j = findByPk cats j
  good : ∀ j row, findByPk table j = some row → touched j →
    ∃ parent,
      row.parentId.bind (fun p => if p = c.id then some c else findByPk table p) = some parent ∧
      MaterialisedFrom parent row
  logNodup : log.Nodup
  logMem : ∀ j, j ∈ log ↔ touched j


/-- The table handed to the cascade once "Storage" (id 2) has been made a root
with path `/storage`: its child "SSD" and the child "NVMe" of "SSD" still carry
the paths of before. Every category has at most one child. -/
def storeChain : List Category :=
  [⟨1, "Components", "components", none, some "/components", 1, true, 0⟩,
   ⟨2, "Storage", "storage", none, some "/storage", 1, true, 0⟩,
   ⟨3, "SSD", "ssd", some 2, some "/components/storage/ssd", 3, true, 0⟩,
   ⟨4, "NVMe", "nvme", some 3, some "/components/storage/ssd/nvme", 4, true, 0⟩]
end CategoryHierarchy

/-! # Addresses of the user service

A shallow embedding of the hooks of `user-service/src/models/address.js` and of
the handlers `createAddress`, `updateAddress` and `setDefaultAddress` of
`user-service/src/controllers/addressController.js`. Of an address only the
columns `id`, `userId`, `addressType` and `isDefault` are kept; the postal
columns do not reach the default flag. -/

namespace UserService

/-- Primary key of an address row. -/
abbrev AddressId := Nat

/-- Primary key of a user row. -/
abbrev UserId := Nat

/-- The column `addressType`: `ENUM('shipping', 'billing', 'both')`. -/
inductive AddressType
  | shipping
  | billing
  | both
deriving DecidableEq, Repr

/-- A row of the `addresses` table, also used for an in-memory instance. -/
structure Address where
  id : AddressId
  userId : UserId
  addressType : AddressType
  isDefault : Bool
deriving DecidableEq, Repr

/-- A row of the `users` table. -/
structure User where
  id : UserId
  keycloakId : String
deriving DecidableEq, Repr

/-- The authenticated caller `req.user`: its id and whether its roles include `admin`. -/
structure Requester where
  id : String
  isAdmin : Bool
deriving DecidableEq, Repr

/-- The request body of a create or update request; `none` is an absent field. -/
structure AddressData where
  id : Option AddressId := none
  userId : Option UserId := none
  addressType : Option AddressType := none
  isDefault : Option Bool := none
deriving DecidableEq, Repr

/-- The `type` argument of `ApiError`. -/
inductive ErrorType
  | NotFoundError
  | ForbiddenError
  | ServerError
deriving DecidableEq, Repr

/-- The tables of the user service. -/
structure State where
  users : List User
  addresses : List Address
deriving DecidableEq, Repr

/-- What the handler hands back: `res.status(code).json(address)` or `next(error)`. -/
inductive Response
  | json (status : Nat) (address : Address)
  | error (message : String) (type : ErrorType)
deriving DecidableEq, Repr

/-- The response of a handler together with the state it leaves. -/
structure Reply where
  response : Response
  state : State
deriving DecidableEq, Repr

/-- Point lookup `User.findByPk(id)`. -/
def findUser (users : List User) (id : UserId) : Option User :=
  users.find? (fun u => u.id == id)

/-- Point lookup `Address.findByPk(id)`. -/
def findAddress (addresses : List Address) (id : AddressId) : Option Address :=
  addresses.find? (fun a => a.id == id)

/-- The bulk write `Address.update({ isDefault: false }, { where: { userId,
addressType, id: { [Op.ne]: id } } })`. -/
def clearDefaults (addresses : List Address) (userId : UserId) (addressType : AddressType)
    (id : AddressId) : List Address :=
  addresses.map (fun a =>
    if a.userId == userId && a.addressType == addressType && a.id != id then
      { a with isDefault := false }
    else a)

/-- Helper `updateDefaultAddresses(address, options)`. -/
def updateDefaultAddresses (addresses : List Address) (address : Address) : List Address :=
  -- Only update other addresses if this one is being set as default
  if address.isDefault then
    clearDefaults addresses address.userId address.addressType address.id
  else addresses

/-- Hook `beforeCreate`. -/
def beforeCreate (addresses : List Address) (address : Address) : List Address :=
  if address.isDefault then updateDefaultAddresses addresses address else addresses

/-- Hook `beforeUpdate`; `changed` is `address.changed('isDefault')`. -/
def beforeUpdate (addresses : List Address) (address : Address) (changed : Bool) :
    List Address :=
  if address.isDefault && changed then updateDefaultAddresses addresses address else addresses

/-- The check `isAdmin || user.keycloakId === req.user.id`. -/
def authorized (requester : Requester) (user : User) : Bool :=
  requester.isAdmin || user.keycloakId == requester.id

/-- The call `Address.create(values)`: build with the column defaults, run
`beforeCreate`, insert (rejected by the primary key). The table after the hook
is returned in both cases. -/
def Address.create (uuid : AddressId) (addresses : List Address) (userId : UserId)
    (addressData : AddressData) : List Address × Option Address :=
  let address : Address :=
    { id := addressData.id.getD uuid
      userId := userId
      addressType := addressData.addressType.getD .shipping
      isDefault := addressData.isDefault.getD false }
  let addresses1 := beforeCreate addresses address
  if (findAddress addresses1 address.id).isSome then (addresses1, none)
  else (addresses1 ++ [address], some address)

/-- The call `address.update(values)`: set the defined values except the
primary key, run `beforeUpdate`, write the row. -/
def Address.update (addresses : List Address) (address : Address) (values : AddressData) :
    List Address × Address :=
  let address1 : Address :=
    { address with
      userId := values.userId.getD address.userId
      addressType := values.addressType.getD address.addressType
      isDefault := values.isDefault.getD address.isDefault }
  let addresses1 := beforeUpdate addresses address1 (address1.isDefault != address.isDefault)
  (addresses1.map (fun a => if a.id == address1.id then address1 else a), address1)

/-- Handler `createAddress`; `uuid` is the value `UUIDV4` would generate. -/
def createAddress (uuid : AddressId) (requester : Requester) (s : State) (userId : UserId)
    (addressData : AddressData) : Reply :=
  -- Validate if user exists
  match findUser s.users userId with
  | none => ⟨.error "User not found" .NotFoundError, s⟩
  | some user =>
    -- Check if user is allowed to create an address for this user
    if !authorized requester user then
      ⟨.error "You are not authorized to create addresses for this user" .ForbiddenError, s⟩
    else
      -- Check if this will be the first address (make it default)
      let addressCount := (s.addresses.filter (fun a => a.userId == userId)).length
      let addressData1 :=
        if addressCount = 0 then { addressData with isDefault := some true } else addressData
      -- Create the address
      match Address.create uuid s.addresses userId addressData1 with
      | (addresses1, none) =>
        ⟨.error "Failed to create address" .ServerError, { s with addresses := addresses1 }⟩
      | (addresses1, some address) => ⟨.json 201 address, { s with addresses := addresses1 }⟩

/-- Handler `updateAddress`. -/
def updateAddress (requester : Requester) (s : State) (id : AddressId)
    (updateData : AddressData) : Reply :=
  -- Find the address
  match findAddress s.addresses id with
  | none => ⟨.error "Address not found" .NotFoundError, s⟩
  | some address =>
    -- Fetch the user to check authorization
    match findUser s.users address.userId with
    | none => ⟨.error "Failed to update address" .ServerError, s⟩
    | some user =>
      if !authorized requester user then
        ⟨.error "You are not authorized to update this address" .ForbiddenError, s⟩
      else
        -- Update the address
        let r := Address.update s.addresses address updateData
        ⟨.json 200 r.2, { s with addresses := r.1 }⟩

/-- Handler `setDefaultAddress`. -/
def setDefaultAddress (requester : Requester) (s : State) (id : AddressId) : Reply :=
  -- Find the address
  match findAddress s.addresses id with
  | none => ⟨.error "Address not found" .NotFoundError, s⟩
  | some address =>
    -- Fetch the user to check authorization
    match findUser s.users address.userId with
    | none => ⟨.error "Failed to set default address" .ServerError, s⟩
    | some user =>
      if !authorized requester user then
        ⟨.error "You are not authorized to update this address" .ForbiddenError, s⟩
      else
        -- Set all other addresses as non-default
        let addresses1 := clearDefaults s.addresses address.userId address.addressType id
        -- Set this address as default
        let r := Address.update addresses1 address { isDefault := some true }
        ⟨.json 200 r.2, { s with addresses := r.1 }⟩

/-- Address `a` is the only default address of its user in the table. -/
def OnlyDefaultOfUser (addresses : List Address) (a : Address) : Prop :=
  ∀ b ∈ addresses, b.userId = a.userId → b.isDefault = true → b.id = a.id

/-- Address `a` is the only default address of its user and address type in the table. -/
def OnlyDefaultOfType (addresses : List Address) (a : Address) : Prop :=
  ∀ b ∈ addresses, b.userId = a.userId → b.addressType = a.addressType →
    b.isDefault = true → b.id = a.id

/-- One user with a default shipping address. -/
def oneShipping : State :=
  ⟨[⟨1, "kc-1"⟩], [⟨1, 1, .shipping, true⟩]⟩

end UserService

namespace CategoryHierarchy

/-! ## Lookups after a table operation -/

theorem findByPk_id {cats : List Category} {id : CategoryId} {c : Category}
    (h : findByPk cats id = some c) : c.id = id := by
  have := List.find?_some h
  simpa using this

theorem findByPk_mem {cats : List Category} {id : CategoryId} {c : Category}
    (h : findByPk cats id = some c) : c ∈ cats :=
  List.mem_of_find?_eq_some h

theorem findByPk_isSome_of_mem {cats : List Category} {c : Category} (h : c ∈ cats) :
    (findByPk cats c.id).isSome = true := by
  unfold findByPk
  rw [List.find?_isSome]
  exact ⟨c, h, by simp⟩

theorem findByPk_nil (j : CategoryId) : findByPk [] j = none := rfl

theorem findByPk_cons (c : Category) (cs : List Category) (j : CategoryId) :
    findByPk (c :: cs) j = if c.id = j then some c else findByPk cs j := by
  unfold findByPk
  by_cases h : c.id = j <;> simp [List.find?_cons, h]

theorem updateRow_cons (c : Category) (cs : List Category) (id : CategoryId)
    (f : Category → Category) :
    updateRow (c :: cs) id f = (if c.id = id then f c else c) :: updateRow cs id f := by
  unfold updateRow
  by_cases h : c.id = id <;> simp [h]

theorem destroy_cons (c : Category) (cs : List Category) (id : CategoryId) :
    destroy (c :: cs) id = if c.id = id then destroy cs id else c :: destroy cs id := by
  unfold destroy
  by_cases h : c.id = id <;> simp [List.filter_cons, h]

theorem findByPk_updateRow (cats : List Category) (id j : CategoryId) (f : Category → Category)
    (hf : ∀ c, c.id = id → (f c).id = id) :
    findByPk (updateRow cats id f) j
      = (findByPk cats j).map (fun c => if c.id = id then f c else c) := by
  induction cats with
  | nil => rfl
  | cons c cs ih =>
    rw [updateRow_cons, findByPk_cons, findByPk_cons, ih]
    have hid : (if c.id = id then f c else c).id = c.id := by
      split
      · rename_i h
        rw [hf c h, h]
      · rfl
    rw [hid]
    by_cases hj : c.id = j
    · simp [hj]
    · simp [hj]

theorem findByPk_destroy (cats : List Category) (id j : CategoryId) :
    findByPk (destroy cats id) j = if j = id then none else findByPk cats j := by
  induction cats with
  | nil => simp [findByPk, destroy]
  | cons c cs ih =>
    rw [destroy_cons, findByPk_cons]
    by_cases hc : c.id = id
    · rw [if_pos hc, ih]
      by_cases hj : j = id
      · simp [hj]
      · have : ¬ c.id = j := fun h => hj (h ▸ hc)
        simp [hj, this]
    · rw [if_neg hc, findByPk_cons, ih]
      by_cases hcj : c.id = j
      · have : ¬ j = id := fun h => hc (hcj.trans h)
        simp [hcj, this]
      · simp [hcj]

theorem findByPk_append_single (cats : List Category) (c : Category) (j : CategoryId) :
    findByPk (cats ++ [c]) j
      = match findByPk cats j with
        | some r => some r
        | none => if c.id = j then some c else none := by
  unfold findByPk
  rw [List.find?_append]
  cases h : List.find? (fun c => c.id == j) cats with
  | some r => simp
  | none =>
    by_cases hc : c.id = j <;> simp [List.find?_cons, hc]

theorem beforeValidate_id (slugify : String → String) (c : Category) :
    (beforeValidate slugify c).id = c.id := by
  unfold beforeValidate
  split <;> rfl

theorem beforeValidate_parentId (slugify : String → String) (c : Category) :
    (beforeValidate slugify c).parentId = c.parentId := by
  unfold beforeValidate
  split <;> rfl

theorem beforeValidate_name (slugify : String → String) (c : Category) :
    (beforeValidate slugify c).name = c.name := by
  unfold beforeValidate
  split <;> rfl

theorem setValues_id (c : Category) (data : CategoryData) : (setValues c data).id = c.id := rfl

theorem setValues_parentId (c : Category) (data : CategoryData) :
    (setValues c data).parentId
      = match data.parentId with
        | some v => v.bind RequestId.value
        | none => c.parentId := rfl

theorem stored_eq_stored (p a : CategoryId) :
    RequestId.stored p = RequestId.stored a ↔ p = a := by
  unfold RequestId.stored
  constructor
  · intro h
    cases h
    rfl
  · intro h
    rw [h]

theorem stored_ne_of_spelling (p key : CategoryId) (spelling : Nat) (h : spelling ≠ 0) :
    RequestId.stored p ≠ .uuid key spelling := by
  unfold RequestId.stored
  intro heq
  cases heq
  exact h rfl

theorem stored_ne_malformed (p : CategoryId) (text : String) :
    RequestId.stored p ≠ .malformed text := by
  unfold RequestId.stored
  intro heq
  cases heq

/-! ## Creation -/

theorem findByPk_updateRow_pathLevel (cats : List Category) (id j : CategoryId)
    (path : Option String) (level : Int) :
    findByPk (updateRow cats id (fun r => { r with path := path, level := level })) j
      = (findByPk cats j).map
          (fun c => if c.id = id then { c with path := path, level := level } else c) :=
  findByPk_updateRow cats id j _ (fun _ h => h)

theorem afterCreate_spec (cats : List Category) (c0 : Category)
    (hfresh : findByPk cats c0.id = none)
    (hparent : ∀ p, c0.parentId = some p → (findByPk cats p).isSome = true) :
    ∃ c, (afterCreate (cats ++ [c0]) c0).2 = c ∧
      findByPk (afterCreate (cats ++ [c0]) c0).1 c.id = some c ∧
      c.id = c0.id ∧ c.slug = c0.slug ∧ c.parentId = c0.parentId ∧
      (c0.parentId = none → c.path = some ("/" ++ c.slug) ∧ c.level = 1) ∧
      (∀ p parent, c0.parentId = some p → findByPk cats p = some parent →
        c.path = some (template parent.path ++ "/" ++ c.slug) ∧ c.level = parent.level + 1) := by
  have hself : findByPk (cats ++ [c0]) c0.id = some c0 := by
    rw [findByPk_append_single, hfresh]
    simp
  obtain ⟨id0, name0, slug0, par0, path0, level0, act0, ord0⟩ := c0
  cases par0 with
  | none =>
    refine ⟨_, rfl, ?_, rfl, rfl, rfl, fun _ => ⟨rfl, rfl⟩, fun p parent h => by simp at h⟩
    simp only [afterCreate]
    rw [findByPk_updateRow_pathLevel, hself]
    simp
  | some p =>
    have hsome := hparent p rfl
    obtain ⟨parent, hparentRow⟩ := Option.isSome_iff_exists.mp hsome
    have hlook : findByPk (cats ++ [⟨id0, name0, slug0, some p, path0, level0, act0, ord0⟩]) p
        = some parent := by
      rw [findByPk_append_single, hparentRow]
    simp only [afterCreate, hlook]
    refine ⟨_, rfl, ?_, rfl, rfl, rfl, fun h => by simp at h, ?_⟩
    · rw [findByPk_updateRow_pathLevel, hself]
      simp
    · intro q parent1 hq hrow
      simp only [Option.some.injEq] at hq
      subst hq
      rw [hparentRow] at hrow
      cases hrow
      exact ⟨rfl, rfl⟩

theorem nameValid_ne_empty {name : String} (h : nameValid name = true) : name ≠ "" := by
  intro he
  subst he
  simp [nameValid] at h

/-- The two outcomes of `createCategory`: an error that leaves the state
untouched, or the insertion of the validated instance followed by `afterCreate`. -/
theorem createCategory_cases (slugify : String → String) (uuid : CategoryId) (s : State)
    (data : CategoryData) :
    (∃ e, createCategory slugify uuid s data = ⟨.error e, s⟩) ∨
    ((∀ p, data.parentId.join.bind RequestId.value = some p →
        (findByPk s.categories p).isSome = true) ∧
      idSyntax data = true ∧ parentIdSyntax data = true ∧
      nameValid (beforeValidate slugify (build uuid data)).name = true ∧
      findByPk s.categories (beforeValidate slugify (build uuid data)).id = none ∧
      slugTaken s.categories (beforeValidate slugify (build uuid data)).id
        (beforeValidate slugify (build uuid data)).slug = false ∧
      createCategory slugify uuid s data
        = ⟨.json 201 (.category
              (afterCreate (s.categories ++ [beforeValidate slugify (build uuid data)])
                (beforeValidate slugify (build uuid data))).2),
            { s with
              categories :=
                (afterCreate (s.categories ++ [beforeValidate slugify (build uuid data)])
                  (beforeValidate slugify (build uuid data))).1
              cache := setAsync s.cache .categoriesAll .empty 1 }⟩) := by
  have htail : (∃ e, (match Category.create slugify uuid s.categories data with
        | none => fail s "Failed to create category" .ServerError
        | some (cats, category) =>
          ⟨.json 201 (.category category),
            { s with categories := cats, cache := setAsync s.cache .categoriesAll .empty 1 }⟩)
        = ⟨.error e, s⟩) ∨
      (idSyntax data = true ∧ parentIdSyntax data = true ∧
        nameValid (beforeValidate slugify (build uuid data)).name = true ∧
        findByPk s.categories (beforeValidate slugify (build uuid data)).id = none ∧
        slugTaken s.categories (beforeValidate slugify (build uuid data)).id
          (beforeValidate slugify (build uuid data)).slug = false ∧
        (match Category.create slugify uuid s.categories data with
        | none => fail s "Failed to create category" .ServerError
        | some (cats, category) =>
          ⟨.json 201 (.category category),
            { s with categories := cats, cache := setAsync s.cache .categoriesAll .empty 1 }⟩)
          = ⟨.json 201 (.category
              (afterCreate (s.categories ++ [beforeValidate slugify (build uuid data)])
                (beforeValidate slugify (build uuid data))).2),
            { s with
              categories :=
                (afterCreate (s.categories ++ [beforeValidate slugify (build uuid data)])
                  (beforeValidate slugify (build uuid data))).1
              cache := setAsync s.cache .categoriesAll .empty 1 }⟩) := by
    unfold Category.create
    simp only []
    by_cases hname : nameValid (beforeValidate slugify (build uuid data)).name = true
    · by_cases hsyn : (!idSyntax data || !parentIdSyntax data) = true
      · left
        simp only [hname, hsyn, fail]
        exact ⟨_, rfl⟩
      · have hid : idSyntax data = true := by
          cases h : idSyntax data with
          | true => rfl
          | false => simp [h] at hsyn
        have hpid : parentIdSyntax data = true := by
          cases h : parentIdSyntax data with
          | true => rfl
          | false => simp [h] at hsyn
        by_cases hpk : (findByPk s.categories (beforeValidate slugify (build uuid data)).id).isSome
            = true
        · left
          simp only [hname, hsyn, hpk, fail]
          exact ⟨_, rfl⟩
        · by_cases hslug : slugTaken s.categories (beforeValidate slugify (build uuid data)).id
              (beforeValidate slugify (build uuid data)).slug = true
          · left
            simp only [hname, hsyn, hpk, hslug, fail]
            exact ⟨_, rfl⟩
          · right
            refine ⟨hid, hpid, hname, ?_, ?_, ?_⟩
            · simpa using hpk
            · simpa using hslug
            · simp only [hname, hsyn, hpk, hslug]
              rfl
    · left
      simp only [hname, fail]
      exact ⟨_, rfl⟩
  unfold createCategory
  cases hj : data.parentId.join with
  | none =>
    simp only []
    rcases htail with he | ⟨h1, h2, h3, h4, h5, h6⟩
    · exact Or.inl he
    · exact Or.inr ⟨fun p hp => by simp at hp, h1, h2, h3, h4, h5, h6⟩
  | some p =>
    cases p with
    | malformed text =>
      simp only []
      by_cases ht : text = ""
      · rw [if_pos ht]
        simp only []
        rcases htail with he | ⟨h1, h2, h3, h4, h5, h6⟩
        · exact Or.inl he
        · exact Or.inr ⟨fun p hp => by simp [RequestId.value] at hp, h1, h2, h3, h4, h5, h6⟩
      · rw [if_neg ht]
        exact Or.inl ⟨_, rfl⟩
    | uuid parentKey spelling =>
      simp only []
      by_cases hmiss : (findByPk s.categories parentKey).isNone = true
      · rw [if_pos hmiss]
        exact Or.inl ⟨_, rfl⟩
      · rw [if_neg hmiss]
        simp only []
        rcases htail with he | ⟨h1, h2, h3, h4, h5, h6⟩
        · exact Or.inl he
        · refine Or.inr ⟨?_, h1, h2, h3, h4, h5, h6⟩
          intro p hp
          simp only [Option.some_bind, RequestId.value, Option.some.injEq] at hp
          subst hp
          simpa [Option.isSome_iff_ne_none] using hmiss

/-- Claim C5: a successful `createCategory` stores a category whose path is
`"/" + slug` with level 1 when the request has no parent, and
`parent.path + "/" + slug` with level `parent.level + 1` when the request
names an existing parent, in whatever spelling; the slug is the slugified
name. -/
theorem C5_create_materialises_path_and_level (slugify : String → String) (uuid : CategoryId)
    (s : State) (data : CategoryData) (status : Nat) (body : Payload)
    (h : (createCategory slugify uuid s data).response = .json status body) :
    ∃ c name, body = .category c ∧
      findByPk (createCategory slugify uuid s data).state.categories c.id = some c ∧
      data.name = some name ∧ c.slug = slugify name ∧
      c.parentId = data.parentId.join.bind RequestId.value ∧
      (data.parentId.join = none → c.path = some ("/" ++ c.slug) ∧ c.level = 1) ∧
      (∀ p parent, data.parentId.join.bind RequestId.value = some p →
        findByPk s.categories p = some parent →
        c.path = some (template parent.path ++ "/" ++ c.slug) ∧ c.level = parent.level + 1) := by
  rcases createCategory_cases slugify uuid s data with
    ⟨e, he⟩ | ⟨hcheck, -, -, hname, hfresh, -, heq⟩
  · rw [he] at h
    cases h
  · rw [heq] at h ⊢
    rw [beforeValidate_name] at hname
    have hne := nameValid_ne_empty hname
    have hpar : (beforeValidate slugify (build uuid data)).parentId
        = data.parentId.join.bind RequestId.value := by
      rw [beforeValidate_parentId]
      rfl
    have hparent : ∀ p, (beforeValidate slugify (build uuid data)).parentId = some p →
        (findByPk s.categories p).isSome = true := by
      intro p hp
      exact hcheck p (hpar ▸ hp)
    obtain ⟨c, hc2, hfind, -, hcslug, hcpar, hroot, hchild⟩ :=
      afterCreate_spec s.categories _ hfresh hparent
    have hslugv : (beforeValidate slugify (build uuid data)).slug
        = slugify (build uuid data).name := by
      unfold beforeValidate
      rw [if_pos hne]
    cases hn : data.name with
    | none =>
      exfalso
      apply hne
      simp [build, hn]
    | some name =>
      refine ⟨c, name, ?_, ?_, rfl, ?_, ?_, ?_, ?_⟩
      · cases h
        rw [← hc2]
      · simpa using hfind
      · rw [hcslug, hslugv]
        simp [build, hn]
      · rw [hcpar, hpar]
      · intro hj
        apply hroot
        rw [hpar, hj]
        rfl
      · intro p parent hj hrow
        exact hchild p parent (hpar.trans hj) hrow

/-- Witness of C5: creating "Storage" under the root "Components". -/
theorem C5_create_materialises_path_and_level_witness :
    ∃ c name, Payload.category
        ⟨2, "Storage", "storage", some 1, some "/components/storage", 2, true, 0⟩ = .category c ∧
      findByPk (createCategory lowerAscii 2 storeComponents
        { name := some "Storage", parentId := some (some 1) }).state.categories c.id = some c ∧
      (some "Storage" : Option String) = some name ∧ c.slug = lowerAscii name ∧
      c.parentId = (some (some 1) : Option (Option RequestId)).join.bind RequestId.value ∧
      ((some (some 1) : Option (Option RequestId)).join = none →
        c.path = some ("/" ++ c.slug) ∧ c.level = 1) ∧
      (∀ p parent, (some (some 1) : Option (Option RequestId)).join.bind RequestId.value = some p →
        findByPk storeComponents.categories p = some parent →
        c.path = some (template parent.path ++ "/" ++ c.slug) ∧ c.level = parent.level + 1) :=
  C5_create_materialises_path_and_level lowerAscii 2 storeComponents
    { name := some "Storage", parentId := some (some 1) } 201
    (.category ⟨2, "Storage", "storage", some 1, some "/components/storage", 2, true, 0⟩)
    (by decide)

/-! ## Update -/

/-- After `category.update(updateData)` the `parentId` attribute of the instance
holds the very text of the body, so the comparison that guards the
recomputation of paths never succeeds: the table and the instance are returned
as they are. -/
theorem recomputePaths_after_update (fuel : Nat) (cats1 : List Category)
    (category category1 : Category) (data : CategoryData) :
    recomputePaths fuel cats1 category1 (parentIdText category data) data
      = some (.ok (cats1, category1)) := by
  unfold recomputePaths parentIdText
  cases hp : data.parentId with
  | none => rfl
  | some v => simp

theorem Category.update_eq (slugify : String → String) (cats cats1 : List Category)
    (category category1 : Category) (data : CategoryData)
    (h : Category.update slugify cats category data = some (cats1, category1)) :
    category1 = beforeValidate slugify (setValues category data) ∧
      cats1 = updateRow cats category.id (writeFields data category1) ∧
      parentIdSyntax data = true := by
  unfold Category.update at h
  simp only [] at h
  split at h
  · cases h
  · split at h
    · cases h
    · rename_i hsyn
      split at h
      · cases h
      · simp only [Option.some.injEq, Prod.mk.injEq] at h
        obtain ⟨h1, h2⟩ := h
        refine ⟨h2.symm, ?_, ?_⟩
        · rw [← h1, ← h2]
        · simpa using hsyn

theorem writeFields_id (data : CategoryData) (c1 row : Category) :
    (writeFields data c1 row).id = row.id := rfl

theorem parentIdSyntax_join {data : CategoryData} (h : parentIdSyntax data = true)
    {p : RequestId} (hp : data.parentId.join = some p) :
    ∃ key spelling, p = .uuid key spelling := by
  cases p with
  | uuid key spelling => exact ⟨key, spelling, rfl⟩
  | malformed text =>
    exfalso
    cases hd : data.parentId with
    | none =>
      rw [hd] at hp
      cases hp
    | some v =>
      rw [hd] at hp
      have hv : v = some (.malformed text) := by simpa [Option.join] using hp
      rw [hv] at hd
      simp [parentIdSyntax, hd] at h

/-- The outcomes of `updateCategory` when it returns: an error that leaves the
state untouched, or the fields of the body written to the row of the id after
the guard accepted the new parent. -/
theorem updateCategory_cases (slugify : String → String) (fuel : Nat) (s : State)
    (id : RequestId) (data : CategoryData) (r : Reply)
    (h : updateCategory slugify fuel s id data = some r) :
    (∃ e, r = ⟨.error e, s⟩) ∨
    (∃ key spelling category, id = .uuid key spelling ∧
      findByPk s.categories key = some category ∧
      data.parentId ≠ some (some id) ∧ parentIdSyntax data = true ∧
      (∀ p, data.parentId.join.bind RequestId.value = some p →
        (findByPk s.categories p).isSome = true ∧
          isDescendant fuel s.categories p id = some false) ∧
      r = ⟨.json 200 (.category (beforeValidate slugify (setValues category data))),
            { s with
              categories :=
                updateRow s.categories key
                  (writeFields data (beforeValidate slugify (setValues category data)))
              cache := invalidateCategory s.cache id
                (beforeValidate slugify (setValues category data)).slug }⟩) := by
  unfold updateCategory at h
  cases id with
  | malformed text =>
    simp only [Option.some.injEq] at h
    exact Or.inl ⟨_, h.symm⟩
  | uuid key spelling =>
    simp only [] at h
    cases hc : findByPk s.categories key with
    | none =>
      rw [hc] at h
      simp only [Option.some.injEq] at h
      exact Or.inl ⟨_, h.symm⟩
    | some category =>
      rw [hc] at h
      simp only [] at h
      by_cases hself : data.parentId = some (some (.uuid key spelling))
      · rw [if_pos hself] at h
        simp only [Option.some.injEq] at h
        exact Or.inl ⟨_, h.symm⟩
      · rw [if_neg hself] at h
        have hid := findByPk_id hc
        have hrest : (match Category.update slugify s.categories category data with
            | none => some (fail s "Failed to update category" .ServerError)
            | some (cats1, category1) =>
              match recomputePaths fuel cats1 category1 (parentIdText category data) data with
              | none => none
              | some (.error cats2) =>
                some (fail { s with categories := cats2 } "Failed to update category"
                  .ServerError)
              | some (.ok (cats2, category2)) =>
                some ⟨.json 200 (.category category2),
                  { s with categories := cats2,
                           cache := invalidateCategory s.cache (.uuid key spelling)
                             category2.slug }⟩) = some r →
            (∃ e, r = ⟨.error e, s⟩) ∨
              (parentIdSyntax data = true ∧
              r = ⟨.json 200 (.category (beforeValidate slugify (setValues category data))),
                { s with
                  categories := updateRow s.categories key
                    (writeFields data (beforeValidate slugify (setValues category data)))
                  cache := invalidateCategory s.cache (.uuid key spelling)
                    (beforeValidate slugify (setValues category data)).slug }⟩) := by
          intro h
          cases hu : Category.update slugify s.categories category data with
          | none =>
            rw [hu] at h
            simp only [Option.some.injEq] at h
            exact Or.inl ⟨_, h.symm⟩
          | some res =>
            obtain ⟨cats1, category1⟩ := res
            rw [hu] at h
            simp only [] at h
            rw [recomputePaths_after_update] at h
            simp only [Option.some.injEq] at h
            obtain ⟨h1, h2, h3⟩ := Category.update_eq slugify _ _ _ _ _ hu
            right
            refine ⟨h3, ?_⟩
            rw [← h, h2, h1, hid]
        cases hj : data.parentId.join with
        | none =>
          rw [hj] at h
          simp only [] at h
          rcases hrest h with he | ⟨hsyn, hr⟩
          · exact Or.inl he
          · exact Or.inr ⟨key, spelling, category, rfl, hc, hself, hsyn,
              fun p hp => by simp at hp, hr⟩
        | some p =>
          rw [hj] at h
          cases p with
          | malformed text =>
            simp only [] at h
            by_cases ht : text = ""
            · rw [if_pos ht] at h
              simp only [] at h
              rcases hrest h with he | ⟨hsyn, hr⟩
              · exact Or.inl he
              · exact Or.inr ⟨key, spelling, category, rfl, hc, hself, hsyn,
                  fun p hp => by simp [RequestId.value] at hp, hr⟩
            · rw [if_neg ht] at h
              simp only [Option.some.injEq] at h
              exact Or.inl ⟨_, h.symm⟩
          | uuid parentKey parentSpelling =>
            simp only [] at h
            cases hpar : findByPk s.categories parentKey with
            | none =>
              rw [hpar] at h
              simp only [Option.some.injEq] at h
              exact Or.inl ⟨_, h.symm⟩
            | some parent =>
              rw [hpar] at h
              simp only [] at h
              cases hd : isDescendant fuel s.categories parentKey (.uuid key spelling) with
              | none =>
                rw [hd] at h
                simp at h
              | some d =>
                rw [hd] at h
                cases d with
                | true =>
                  simp only [Option.map_some', if_true, Option.some.injEq] at h
                  exact Or.inl ⟨_, h.symm⟩
                | false =>
                  simp only [Option.map_some', Bool.false_eq_true, if_false] at h
                  rcases hrest h with he | ⟨hsyn, hr⟩
                  · exact Or.inl he
                  · refine Or.inr ⟨key, spelling, category, rfl, hc, hself, hsyn, ?_, hr⟩
                    intro q hq
                    simp only [Option.some_bind, RequestId.value, Option.some.injEq] at hq
                    subst hq
                    exact ⟨by rw [hpar]; rfl, hd⟩

/-! ## The ancestor walk -/

theorem parentOf_eq_some {cats : List Category} {id p : CategoryId}
    (h : parentOf cats id = some p) :
    ∃ row, findByPk cats id = some row ∧ row.parentId = some p := by
  unfold parentOf at h
  cases hrow : findByPk cats id with
  | none => simp [hrow] at h
  | some row =>
    rw [hrow] at h
    exact ⟨row, rfl, h⟩

theorem ancestorAt_succ_eq_some {cats : List Category} {n : Nat} {id a : CategoryId}
    (h : ancestorAt cats (n + 1) id = some a) :
    ∃ p, parentOf cats id = some p ∧ ancestorAt cats n p = some a := by
  simp only [ancestorAt] at h
  cases hp : parentOf cats id with
  | none => simp [hp] at h
  | some p =>
    rw [hp] at h
    exact ⟨p, rfl, h⟩

/-- One evaluation of the loop condition on a row that has a parent. -/
theorem isDescendantLoop_step (cats : List Category) (anc : RequestId) (fuel : Nat)
    (row : Category) (p : CategoryId) (hpar : row.parentId = some p) :
    isDescendantLoop cats anc (fuel + 1) (some row)
      = if RequestId.stored p = anc then some true
        else isDescendantLoop cats anc fuel (findByPk cats p) := by
  simp only [isDescendantLoop, hpar]

/-- A walk that starts below `a` reports `a`, named in the stored spelling,
once it has fuel for the hops in between. -/
theorem isDescendantLoop_of_ancestorAt (cats : List Category) (a : CategoryId) :
    ∀ (n : Nat) (d : CategoryId), ancestorAt cats (n + 1) d = some a →
      ∀ fuel, n < fuel →
        isDescendantLoop cats (RequestId.stored a) fuel (findByPk cats d) = some true := by
  intro n
  induction n with
  | zero =>
    intro d h fuel hfuel
    obtain ⟨p, hp, hn⟩ := ancestorAt_succ_eq_some h
    obtain ⟨row, hrow, hpar⟩ := parentOf_eq_some hp
    simp only [ancestorAt, Option.some.injEq] at hn
    obtain ⟨f, rfl⟩ : ∃ f, fuel = f + 1 := ⟨fuel - 1, by omega⟩
    rw [hrow, isDescendantLoop_step cats _ f row p hpar, hn, if_pos rfl]
  | succ m ih =>
    intro d h fuel hfuel
    obtain ⟨p, hp, hn⟩ := ancestorAt_succ_eq_some h
    obtain ⟨row, hrow, hpar⟩ := parentOf_eq_some hp
    obtain ⟨f, rfl⟩ : ∃ f, fuel = f + 1 := ⟨fuel - 1, by omega⟩
    rw [hrow, isDescendantLoop_step cats _ f row p hpar]
    by_cases hpa : RequestId.stored p = RequestId.stored a
    · rw [if_pos hpa]
    · rw [if_neg hpa]
      exact ih p hn f (by omega)

/-- A walk that starts below `a` never answers `false` when `a` is named in
the stored spelling. -/
theorem isDescendantLoop_ne_false_of_ancestorAt (cats : List Category) (a : CategoryId) :
    ∀ (n : Nat) (d : CategoryId), ancestorAt cats (n + 1) d = some a →
      ∀ fuel, isDescendantLoop cats (RequestId.stored a) fuel (findByPk cats d) ≠ some false := by
  intro n
  induction n with
  | zero =>
    intro d h fuel
    obtain ⟨p, hp, hn⟩ := ancestorAt_succ_eq_some h
    obtain ⟨row, hrow, hpar⟩ := parentOf_eq_some hp
    simp only [ancestorAt, Option.some.injEq] at hn
    cases fuel with
    | zero => simp [isDescendantLoop]
    | succ f =>
      rw [hrow, isDescendantLoop_step cats _ f row p hpar, hn, if_pos rfl]
      simp
  | succ m ih =>
    intro d h fuel
    obtain ⟨p, hp, hn⟩ := ancestorAt_succ_eq_some h
    obtain ⟨row, hrow, hpar⟩ := parentOf_eq_some hp
    cases fuel with
    | zero => simp [isDescendantLoop]
    | succ f =>
      rw [hrow, isDescendantLoop_step cats _ f row p hpar]
      by_cases hpa : RequestId.stored p = RequestId.stored a
      · rw [if_pos hpa]
        simp
      · rw [if_neg hpa]
        exact ih p hn f

/-- A walk never answers `true` for an ancestor named in a text that is not
the stored spelling of a uuid: the text read from the table is never equal
to it. -/
theorem isDescendantLoop_other_spelling (cats : List Category) (anc : RequestId)
    (hanc : ∀ p, RequestId.stored p ≠ anc) :
    ∀ (fuel : Nat) (x : Option Category), isDescendantLoop cats anc fuel x ≠ some true := by
  intro fuel
  induction fuel with
  | zero =>
    intro x
    simp [isDescendantLoop]
  | succ f ih =>
    intro x
    cases x with
    | none => simp [isDescendantLoop]
    | some row =>
      cases hpar : row.parentId with
      | none => simp [isDescendantLoop, hpar]
      | some p =>
        rw [isDescendantLoop_step cats anc f row p hpar, if_neg (hanc p)]
        exact ih _

/-- With the id of the URL in the stored spelling, re-parenting an existing
category `key` under a different category `d` that lies below it is rejected
with the circular-reference validation error as soon as the walk has fuel for
the chain from `d` to `key`, and the state is unchanged. -/
theorem updateCategory_descendant_rejected (slugify : String → String) (s : State)
    (key d : CategoryId) (spelling : Nat) (data : CategoryData) (n : Nat)
    (hexists : (findByPk s.categories key).isSome = true)
    (hdesc : ancestorAt s.categories (n + 1) d = some key)
    (hne : d ≠ key)
    (hreq : data.parentId = some (some (.uuid d spelling))) :
    ∀ fuel, n < fuel →
      updateCategory slugify fuel s (RequestId.stored key) data
        = some ⟨.error ⟨"Circular reference detected in category hierarchy", .ValidationError⟩,
            s⟩ := by
  intro fuel hfuel
  obtain ⟨category, hcat⟩ := Option.isSome_iff_exists.mp hexists
  obtain ⟨p, hp, -⟩ := ancestorAt_succ_eq_some hdesc
  obtain ⟨row, hrow, -⟩ := parentOf_eq_some hp
  have hwalk : isDescendant fuel s.categories d (RequestId.stored key) = some true :=
    isDescendantLoop_of_ancestorAt s.categories key n d hdesc fuel hfuel
  have hself : ¬ data.parentId = some (some (RequestId.stored key)) := by
    rw [hreq]
    intro h
    simp only [Option.some.injEq, RequestId.stored, RequestId.uuid.injEq] at h
    exact hne h.1
  unfold updateCategory
  unfold RequestId.stored at hself hwalk ⊢
  simp only [hcat, if_neg hself]
  rw [hreq]
  simp [hrow, hwalk]

/-- With the same text in the URL and in the body, re-parenting an existing
category under itself is rejected with a validation error and the state is
unchanged. -/
theorem updateCategory_self_rejected (slugify : String → String) (fuel : Nat) (s : State)
    (key : CategoryId) (spelling : Nat) (data : CategoryData)
    (hexists : (findByPk s.categories key).isSome = true)
    (hreq : data.parentId = some (some (.uuid key spelling))) :
    updateCategory slugify fuel s (.uuid key spelling) data
      = some ⟨.error ⟨"A category cannot be its own parent", .ValidationError⟩, s⟩ := by
  obtain ⟨category, hcat⟩ := Option.isSome_iff_exists.mp hexists
  unfold updateCategory
  simp only [hcat, if_pos hreq]
  rfl

/-! ## Deletion -/

/-- Claim C10: deleting an existing category that still has a subcategory or
an attached product is rejected with a validation error, and the whole state
(every category row included) is unchanged, in whatever spelling the URL names
the category. -/
theorem C10_delete_non_empty_rejected (s : State) (key : CategoryId) (spelling : Nat)
    (hexists : (findByPk s.categories key).isSome = true)
    (hused : (∃ d ∈ s.categories, d.parentId = some key) ∨
      (∃ p ∈ s.products, p.categoryId = some key)) :
    ∃ message, deleteCategory s (.uuid key spelling)
      = ⟨.error ⟨message, .ValidationError⟩, s⟩ := by
  obtain ⟨category, hcat⟩ := Option.isSome_iff_exists.mp hexists
  unfold deleteCategory
  simp only [hcat]
  by_cases hsub : countByParent s.categories key > 0
  · rw [if_pos hsub]
    exact ⟨_, rfl⟩
  · rw [if_neg hsub]
    rcases hused with ⟨d, hd, hpar⟩ | ⟨p, hp, hcatId⟩
    · exfalso
      apply hsub
      unfold countByParent findAllByParent
      apply List.length_pos_of_mem (a := d)
      simp [List.mem_filter, hd, hpar]
    · have hprod : countProducts s.products key > 0 := by
        unfold countProducts
        apply List.length_pos_of_mem (a := p)
        simp [List.mem_filter, hp, hcatId]
      rw [if_pos hprod]
      exact ⟨_, rfl⟩

/-- Witness of C10: "Storage" still has the subcategory "SSD" and cannot be deleted. -/
theorem C10_delete_non_empty_rejected_witness :
    ∃ message, deleteCategory storeSSD 2 = ⟨.error ⟨message, .ValidationError⟩, storeSSD⟩ :=
  C10_delete_non_empty_rejected storeSSD 2 0 (by decide)
    (Or.inl ⟨⟨3, "SSD", "ssd", some 2, some "/components/storage/ssd", 3, true, 0⟩,
      by decide, by decide⟩)

/-! ## Acyclicity -/

theorem acyclic_iff (cats : List Category) :
    Acyclic cats ↔ ∀ i, ¬ IsAncestor cats i i := by
  constructor
  · intro h i hi
    obtain ⟨n, hn⟩ := hi
    obtain ⟨p, hp, -⟩ := ancestorAt_succ_eq_some hn
    obtain ⟨row, hrow, -⟩ := parentOf_eq_some hp
    have hmem := findByPk_mem hrow
    have hid := findByPk_id hrow
    exact h row hmem (hid ▸ ⟨n, hid ▸ hn⟩)
  · intro h c _
    exact h c.id

theorem ancestorAt_add (cats : List Category) (m n : Nat) (a : CategoryId) :
    ancestorAt cats (m + n) a = (ancestorAt cats m a).bind (ancestorAt cats n) := by
  induction m generalizing a with
  | zero => simp [ancestorAt]
  | succ k ih =>
    have : k + 1 + n = (k + n) + 1 := by omega
    rw [this]
    simp only [ancestorAt]
    cases parentOf cats a with
    | none => rfl
    | some p => simpa using ih p

theorem ancestorAt_congr (cats cats1 : List Category)
    (h : ∀ j, parentOf cats1 j = parentOf cats j) (n : Nat) (a : CategoryId) :
    ancestorAt cats1 n a = ancestorAt cats n a := by
  induction n generalizing a with
  | zero => rfl
  | succ k ih =>
    simp only [ancestorAt, h]
    cases parentOf cats a with
    | none => rfl
    | some p => simpa using ih p

/-- A chain of the new table that does not pass through the re-linked row `x`
is a chain of the old table. -/
theorem ancestorAt_eq_of_avoid (cats cats1 : List Category) (x : CategoryId)
    (hother : ∀ j, j ≠ x → parentOf cats1 j = parentOf cats j) :
    ∀ (k : Nat) (a : CategoryId), (∀ j, j < k → ancestorAt cats1 j a ≠ some x) →
      ancestorAt cats1 k a = ancestorAt cats k a := by
  intro k
  induction k with
  | zero => intro a _; rfl
  | succ k ih =>
    intro a havoid
    have hax : a ≠ x := by
      intro hax
      exact havoid 0 (by omega) (by simp [ancestorAt, hax])
    simp only [ancestorAt]
    rw [hother a hax]
    cases hp : parentOf cats a with
    | none => rfl
    | some p =>
      simp only [Option.some_bind]
      apply ih
      intro j hj hjx
      apply havoid (j + 1) (by omega)
      simp only [ancestorAt]
      rw [hother a hax, hp]
      simpa using hjx

/-- In the new table every chain that ends at the re-linked row `x` starts at
`x` or comes from a chain of the old table. -/
theorem reaches_relinked (cats cats1 : List Category) (x : CategoryId)
    (hother : ∀ j, j ≠ x → parentOf cats1 j = parentOf cats j) :
    ∀ (n : Nat) (p : CategoryId), ancestorAt cats1 n p = some x →
      p = x ∨ IsAncestor cats x p := by
  intro n
  induction n using Nat.strong_induction_on with
  | _ n ih =>
    intro p hp
    by_cases havoid : ∀ j, j < n → ancestorAt cats1 j p ≠ some x
    · have hold := ancestorAt_eq_of_avoid cats cats1 x hother n p havoid
      rw [hp] at hold
      cases n with
      | zero =>
        left
        simp only [ancestorAt, Option.some.injEq] at hold
        exact hold.symm
      | succ m => exact Or.inr ⟨m, hold.symm⟩
    · push_neg at havoid
      obtain ⟨j, hj, hjx⟩ := havoid
      exact ih j hj p hjx

/-- Re-linking one row `x` keeps the table acyclic when the new parent of `x`
is neither `x` nor below `x`. -/
theorem acyclic_of_relink (cats cats1 : List Category) (x : CategoryId)
    (hother : ∀ j, j ≠ x → parentOf cats1 j = parentOf cats j)
    (hnew : ∀ p, parentOf cats1 x = some p → p ≠ x ∧ ¬ IsAncestor cats x p)
    (hac : ∀ i, ¬ IsAncestor cats i i) : ∀ i, ¬ IsAncestor cats1 i i := by
  intro i hi
  obtain ⟨n, hn⟩ := hi
  by_cases havoid : ∀ j, j < n + 1 → ancestorAt cats1 j i ≠ some x
  · have hold := ancestorAt_eq_of_avoid cats cats1 x hother (n + 1) i havoid
    rw [hn] at hold
    exact hac i ⟨n, hold.symm⟩
  · push_neg at havoid
    obtain ⟨j, -, hjx⟩ := havoid
    have h1 : ancestorAt cats1 (j + (n + 1)) i = ancestorAt cats1 (n + 1) x := by
      rw [ancestorAt_add, hjx]
      rfl
    have h2 : ancestorAt cats1 (n + 1 + j) i = some x := by
      rw [ancestorAt_add, hn]
      exact hjx
    have hcycle : ancestorAt cats1 (n + 1) x = some x := by
      rw [← h1, Nat.add_comm, h2]
    obtain ⟨p, hp, hpx⟩ := ancestorAt_succ_eq_some hcycle
    obtain ⟨hne, hnot⟩ := hnew p hp
    rcases reaches_relinked cats cats1 x hother n p hpx with h | h
    · exact hne h
    · exact hnot h

/-- The last hop of a chain is a row naming the end of the chain as its parent. -/
theorem exists_child_of_ancestorAt (cats : List Category) :
    ∀ (n : Nat) (a b : CategoryId), ancestorAt cats (n + 1) a = some b →
      ∃ r ∈ cats, r.parentId = some b := by
  intro n
  induction n with
  | zero =>
    intro a b h
    obtain ⟨p, hp, hn⟩ := ancestorAt_succ_eq_some h
    obtain ⟨row, hrow, hpar⟩ := parentOf_eq_some hp
    simp only [ancestorAt, Option.some.injEq] at hn
    exact ⟨row, findByPk_mem hrow, hn ▸ hpar⟩
  | succ m ih =>
    intro a b h
    obtain ⟨p, -, hn⟩ := ancestorAt_succ_eq_some h
    exact ih p b hn

/-- A walk that runs out of `k + 1` units of fuel has followed `k` parent
links, each leading to a row of the table. -/
theorem isDescendantLoop_fuel_out (cats : List Category) (anc : RequestId) :
    ∀ (k : Nat) (a : CategoryId), isDescendantLoop cats anc (k + 1) (findByPk cats a) = none →
      ∀ j, j ≤ k → ∃ b, ancestorAt cats j a = some b ∧ (findByPk cats b).isSome = true := by
  intro k
  induction k with
  | zero =>
    intro a h j hj
    have hj0 : j = 0 := by omega
    subst hj0
    refine ⟨a, rfl, ?_⟩
    cases hrow : findByPk cats a with
    | none => simp [hrow, isDescendantLoop] at h
    | some row => rfl
  | succ k ih =>
    intro a h j hj
    cases hrow : findByPk cats a with
    | none => simp [hrow, isDescendantLoop] at h
    | some row =>
      rw [hrow] at h
      cases hpar : row.parentId with
      | none => simp [isDescendantLoop, hpar] at h
      | some p =>
        rw [isDescendantLoop_step cats anc (k + 1) row p hpar] at h
        by_cases hpa : RequestId.stored p = anc
        · simp [hpa] at h
        · rw [if_neg hpa] at h
          cases j with
          | zero => exact ⟨a, rfl, by simp [hrow]⟩
          | succ i =>
            obtain ⟨b, hb, hsome⟩ := ih p h i (by omega)
            refine ⟨b, ?_, hsome⟩
            simp only [ancestorAt, parentOf, hrow, Option.some_bind, hpar]
            exact hb

/-- On an acyclic table the walk of `isDescendant` ends within one more
evaluation of the loop condition than there are rows. -/
theorem isDescendant_terminates (cats : List Category) (hac : ∀ i, ¬ IsAncestor cats i i)
    (a : CategoryId) (anc : RequestId) : isDescendant (cats.length + 1) cats a anc ≠ none := by
  intro h
  have hwalk := isDescendantLoop_fuel_out cats anc cats.length a h
  have hcard : ((cats.map (fun c => c.id)).toFinset).card < (Finset.range (cats.length + 1)).card := by
    have := List.toFinset_card_le (cats.map (fun c => c.id))
    simp only [List.length_map] at this
    simp only [Finset.card_range]
    omega
  have hmaps : ∀ j ∈ Finset.range (cats.length + 1),
      (ancestorAt cats j a).getD 0 ∈ (cats.map (fun c => c.id)).toFinset := by
    intro j hj
    obtain ⟨b, hb, hsome⟩ := hwalk j (by simpa [Nat.lt_succ_iff] using hj)
    obtain ⟨row, hrow⟩ := Option.isSome_iff_exists.mp hsome
    rw [hb]
    simp only [Option.getD_some, List.mem_toFinset, List.mem_map]
    exact ⟨row, findByPk_mem hrow, findByPk_id hrow⟩
  obtain ⟨x, hx, y, hy, hxy, hfxy⟩ :=
    Finset.exists_ne_map_eq_of_card_lt_of_maps_to hcard hmaps
  have key : ∀ u v, u < v → v ≤ cats.length →
      (ancestorAt cats u a).getD 0 = (ancestorAt cats v a).getD 0 → False := by
    intro u v huv hv hf
    obtain ⟨b, hb, -⟩ := hwalk u (by omega)
    obtain ⟨b1, hb1, -⟩ := hwalk v hv
    rw [hb, hb1] at hf
    simp only [Option.getD_some] at hf
    subst hf
    obtain ⟨d, rfl⟩ : ∃ d, v = u + (d + 1) := ⟨v - u - 1, by omega⟩
    rw [ancestorAt_add, hb] at hb1
    exact hac b ⟨d, hb1⟩
  have hx1 : x ≤ cats.length := by simpa [Nat.lt_succ_iff] using hx
  have hy1 : y ≤ cats.length := by simpa [Nat.lt_succ_iff] using hy
  rcases Nat.lt_or_gt_of_ne hxy with hlt | hgt
  · exact key x y hlt hy1 hfxy
  · exact key y x hgt hx1 hfxy.symm

/-- The handler `updateCategory` returns whenever the walk of its guard does. -/
theorem updateCategory_returns (slugify : String → String) (fuel : Nat) (s : State)
    (id : RequestId) (data : CategoryData)
    (hwalk : ∀ p, isDescendant fuel s.categories p id ≠ none) :
    ∃ r, updateCategory slugify fuel s id data = some r := by
  unfold updateCategory
  cases id with
  | malformed text => exact ⟨_, rfl⟩
  | uuid key spelling =>
    simp only []
    cases hc : findByPk s.categories key with
    | none => exact ⟨_, rfl⟩
    | some category =>
      simp only []
      by_cases hself : data.parentId = some (some (.uuid key spelling))
      · rw [if_pos hself]
        exact ⟨_, rfl⟩
      · rw [if_neg hself]
        have hrest : ∃ r, (match Category.update slugify s.categories category data with
            | none => some (fail s "Failed to update category" .ServerError)
            | some (cats1, category1) =>
              match recomputePaths fuel cats1 category1 (parentIdText category data) data with
              | none => none
              | some (.error cats2) =>
                some (fail { s with categories := cats2 } "Failed to update category"
                  .ServerError)
              | some (.ok (cats2, category2)) =>
                some ⟨.json 200 (.category category2),
                  { s with categories := cats2,
                           cache := invalidateCategory s.cache (.uuid key spelling)
                             category2.slug }⟩) = some r := by
          cases hu : Category.update slugify s.categories category data with
          | none => exact ⟨_, rfl⟩
          | some res =>
            obtain ⟨cats1, category1⟩ := res
            simp only []
            rw [recomputePaths_after_update]
            exact ⟨_, rfl⟩
        cases hj : data.parentId.join with
        | none => exact hrest
        | some p =>
          cases p with
          | malformed text =>
            simp only []
            by_cases ht : text = ""
            · rw [if_pos ht]
              exact hrest
            · rw [if_neg ht]
              exact ⟨_, rfl⟩
          | uuid parentKey parentSpelling =>
            simp only []
            cases hpar : findByPk s.categories parentKey with
            | none => exact ⟨_, rfl⟩
            | some parent =>
              simp only []
              cases hd : isDescendant fuel s.categories parentKey (.uuid key spelling) with
              | none => exact absurd hd (hwalk parentKey)
              | some d =>
                cases d with
                | true => exact ⟨_, rfl⟩
                | false => exact hrest

/-! ## Parent links after each operation -/

/-- The parent link found after the fields of a body were written to the row
of `id` from the instance `c1`. -/
theorem parentOf_updateRow_writeFields (cats : List Category) (id j : CategoryId)
    (data : CategoryData) (category c1 : Category) (hcat : findByPk cats id = some category) :
    parentOf (updateRow cats id (writeFields data c1)) j
      = if j = id then (if data.parentId.isSome then c1.parentId else category.parentId)
        else parentOf cats j := by
  unfold parentOf
  rw [findByPk_updateRow cats id j (writeFields data c1) (fun _ h => h)]
  by_cases hj : j = id
  · subst hj
    rw [hcat, if_pos rfl]
    simp only [Option.map_some', Option.some_bind, if_pos (findByPk_id hcat)]
    rfl
  · rw [if_neg hj]
    cases hrow : findByPk cats j with
    | none => rfl
    | some row =>
      have : ¬ row.id = id := fun h => hj ((findByPk_id hrow).symm.trans h)
      simp [this]

/-- The `parentId` written by an update is the one the instance holds after
`set`: the value of the text of the body, or the stored one. -/
theorem written_parentId (slugify : String → String) (category : Category)
    (data : CategoryData) :
    (if data.parentId.isSome then (beforeValidate slugify (setValues category data)).parentId
      else category.parentId)
      = match data.parentId with
        | some v => v.bind RequestId.value
        | none => category.parentId := by
  rw [beforeValidate_parentId, setValues_parentId]
  cases data.parentId <;> rfl

theorem isSome_findByPk_updateRow (cats : List Category) (id j : CategoryId)
    (f : Category → Category) (hf : ∀ c, c.id = id → (f c).id = id) :
    (findByPk (updateRow cats id f) j).isSome = (findByPk cats j).isSome := by
  rw [findByPk_updateRow cats id j f hf]
  cases findByPk cats j <;> rfl

theorem mem_updateRow {cats : List Category} {id : CategoryId} {f : Category → Category}
    {r : Category} (h : r ∈ updateRow cats id f) :
    ∃ r0 ∈ cats, r = if r0.id = id then f r0 else r0 := by
  unfold updateRow at h
  rw [List.mem_map] at h
  obtain ⟨r0, hr0, heq⟩ := h
  refine ⟨r0, hr0, ?_⟩
  rw [← heq]
  by_cases h0 : r0.id = id <;> simp [h0]

theorem parentOf_updateRow_pathLevel (cats : List Category) (id j : CategoryId)
    (path : Option String) (level : Int) :
    parentOf (updateRow cats id (fun r => { r with path := path, level := level })) j
      = parentOf cats j := by
  unfold parentOf
  rw [findByPk_updateRow_pathLevel]
  cases findByPk cats j with
  | none => rfl
  | some row =>
    simp only [Option.map_some', Option.some_bind]
    split <;> rfl

/-- The table left by `afterCreate` is the given table with at most the path
and level of the new row rewritten. -/
theorem afterCreate_table (cats : List Category) (c : Category) :
    (afterCreate cats c).1 = cats ∨
      ∃ path level,
        (afterCreate cats c).1 = updateRow cats c.id (fun r => { r with path := path, level := level }) := by
  unfold afterCreate
  cases c.parentId with
  | none => exact Or.inr ⟨_, _, rfl⟩
  | some p =>
    simp only []
    cases findByPk cats p with
    | none => exact Or.inl rfl
    | some parent => exact Or.inr ⟨_, _, rfl⟩

theorem parentOf_afterCreate (cats : List Category) (c : Category) (j : CategoryId) :
    parentOf (afterCreate cats c).1 j = parentOf cats j := by
  rcases afterCreate_table cats c with h | ⟨path, level, h⟩
  · rw [h]
  · rw [h, parentOf_updateRow_pathLevel]

theorem parentOf_append_single (cats : List Category) (c : Category) (j : CategoryId)
    (hfresh : findByPk cats c.id = none) :
    parentOf (cats ++ [c]) j = if j = c.id then c.parentId else parentOf cats j := by
  unfold parentOf
  rw [findByPk_append_single]
  by_cases hj : j = c.id
  · subst hj
    simp [hfresh]
  · rw [if_neg hj]
    cases findByPk cats j with
    | none =>
      have : ¬ c.id = j := fun h => hj h.symm
      simp [this]
    | some row => rfl

theorem parentOf_destroy (cats : List Category) (id j : CategoryId) :
    parentOf (destroy cats id) j = if j = id then none else parentOf cats j := by
  unfold parentOf
  rw [findByPk_destroy]
  by_cases hj : j = id <;> simp [hj]

/-- The categories left by `deleteCategory`: the table itself, or the table
without the row of the id when no row names it as its parent. -/
theorem deleteCategory_categories (s : State) (id : RequestId) :
    (deleteCategory s id).state.categories = s.categories ∨
      ∃ key spelling, id = .uuid key spelling ∧
        (deleteCategory s id).state.categories = destroy s.categories key ∧
        (deleteCategory s id).response.isSuccess = true ∧
        ∀ c ∈ s.categories, c.parentId ≠ some key := by
  unfold deleteCategory
  cases id with
  | malformed text => exact Or.inl rfl
  | uuid key spelling =>
    simp only []
    cases findByPk s.categories key with
    | none => exact Or.inl rfl
    | some category =>
      simp only []
      by_cases hsub : countByParent s.categories key > 0
      · rw [if_pos hsub]
        exact Or.inl rfl
      · rw [if_neg hsub]
        by_cases hprod : countProducts s.products key > 0
        · rw [if_pos hprod]
          exact Or.inl rfl
        · rw [if_neg hprod]
          refine Or.inr ⟨key, spelling, rfl, rfl, rfl, ?_⟩
          intro c hc hpar
          apply hsub
          unfold countByParent findAllByParent
          apply List.length_pos_of_mem (a := c)
          simp [List.mem_filter, hc, hpar]

/-- A successful `deleteCategory` removed the row of the id and wrote the
three cache entries for the slug of that row. -/
theorem deleteCategory_success (s : State) (id : RequestId)
    (hok : (deleteCategory s id).response.isSuccess = true) :
    ∃ key spelling category, id = .uuid key spelling ∧
      findByPk s.categories key = some category ∧
      (deleteCategory s id).state.categories = destroy s.categories key ∧
      (deleteCategory s id).state.cache = invalidateCategory s.cache id category.slug := by
  unfold deleteCategory at hok ⊢
  cases id with
  | malformed text => cases hok
  | uuid key spelling =>
    simp only [] at hok ⊢
    cases hrow : findByPk s.categories key with
    | none =>
      rw [hrow] at hok
      cases hok
    | some category =>
      rw [hrow] at hok
      simp only [] at hok ⊢
      by_cases hsub : countByParent s.categories key > 0
      · rw [if_pos hsub] at hok
        cases hok
      · rw [if_neg hsub] at hok ⊢
        by_cases hprod : countProducts s.products key > 0
        · rw [if_pos hprod] at hok
          cases hok
        · rw [if_neg hprod]
          exact ⟨key, spelling, category, rfl, hrow, rfl, rfl⟩

/-! ## Referential integrity -/

theorem refIntegrity_create (slugify : String → String) (uuid : CategoryId) (s : State)
    (data : CategoryData) (h : RefIntegrity s.categories) :
    RefIntegrity (createCategory slugify uuid s data).state.categories := by
  rcases createCategory_cases slugify uuid s data with
    ⟨e, he⟩ | ⟨hcheck, -, -, -, hfresh, -, heq⟩
  · rw [he]
    exact h
  · rw [heq]
    simp only []
    have hpar : (beforeValidate slugify (build uuid data)).parentId
        = data.parentId.join.bind RequestId.value := by
      rw [beforeValidate_parentId]
      rfl
    -- every row of the table before the hook resolves its parent in that table
    have hbase : RefIntegrity (s.categories ++ [beforeValidate slugify (build uuid data)]) := by
      intro c hc
      have hkeep : ∀ p, (findByPk s.categories p).isSome = true →
          (findByPk (s.categories ++ [beforeValidate slugify (build uuid data)]) p).isSome
            = true := by
        intro p hp
        obtain ⟨row, hrow⟩ := Option.isSome_iff_exists.mp hp
        rw [findByPk_append_single, hrow]
        rfl
      rw [List.mem_append, List.mem_singleton] at hc
      unfold parentResolves
      rcases hc with hc | hc
      · have hres := h c hc
        unfold parentResolves at hres
        cases hp : c.parentId with
        | none => rfl
        | some p =>
          rw [hp] at hres
          exact hkeep p hres
      · subst hc
        cases hp : (beforeValidate slugify (build uuid data)).parentId with
        | none => rfl
        | some p => exact hkeep p (hcheck p (hpar ▸ hp))
    rcases afterCreate_table (s.categories ++ [beforeValidate slugify (build uuid data)])
        (beforeValidate slugify (build uuid data)) with ht | ⟨path, level, ht⟩
    · rw [ht]
      exact hbase
    · rw [ht]
      intro c hc
      obtain ⟨r0, hr0, hceq⟩ := mem_updateRow hc
      have hres := hbase r0 hr0
      have hcpar : c.parentId = r0.parentId := by
        rw [hceq]
        split <;> rfl
      unfold parentResolves at hres ⊢
      rw [hcpar]
      cases hp : r0.parentId with
      | none => rfl
      | some p =>
        rw [hp] at hres
        simp only []
        have hkeep := isSome_findByPk_updateRow
          (s.categories ++ [beforeValidate slugify (build uuid data)])
          (beforeValidate slugify (build uuid data)).id p
          (fun r => { r with path := path, level := level }) (fun _ h => h)
        rw [hkeep]
        exact hres

theorem refIntegrity_update (slugify : String → String) (fuel : Nat) (s : State)
    (id : RequestId) (data : CategoryData) (r : Reply)
    (h : RefIntegrity s.categories) (hr : updateCategory slugify fuel s id data = some r) :
    RefIntegrity r.state.categories := by
  rcases updateCategory_cases slugify fuel s id data r hr with
    ⟨e, he⟩ | ⟨key, spelling, category, -, hcat, -, -, hguard, heq⟩
  · rw [he]
    exact h
  · rw [heq]
    simp only []
    intro c hc
    obtain ⟨r0, hr0, hceq⟩ := mem_updateRow hc
    unfold parentResolves
    cases hp : c.parentId with
    | none => rfl
    | some p =>
      simp only []
      rw [isSome_findByPk_updateRow s.categories key p
        (writeFields data (beforeValidate slugify (setValues category data))) (fun _ h => h)]
      by_cases h0 : r0.id = key
      · rw [if_pos h0] at hceq
        cases hd : data.parentId with
        | none =>
          have hcpar : c.parentId = r0.parentId := by
            rw [hceq]
            simp [writeFields, hd]
          have hres := h r0 hr0
          unfold parentResolves at hres
          rw [← hcpar, hp] at hres
          exact hres
        | some v =>
          have hcpar : c.parentId = v.bind RequestId.value := by
            rw [hceq]
            simp only [writeFields, hd, Option.isSome_some, if_true]
            rw [beforeValidate_parentId, setValues_parentId, hd]
          rw [hp] at hcpar
          exact (hguard p (by rw [hd]; exact hcpar.symm)).1
      · rw [if_neg h0] at hceq
        subst hceq
        have hres := h c hr0
        unfold parentResolves at hres
        rw [hp] at hres
        exact hres


theorem refIntegrity_delete (s : State) (id : RequestId) (h : RefIntegrity s.categories) :
    RefIntegrity (deleteCategory s id).state.categories := by
  rcases deleteCategory_categories s id with heq | ⟨key, spelling, -, heq, -, hleaf⟩
  · rw [heq]
    exact h
  · rw [heq]
    intro c hc
    have hmem : c ∈ s.categories := by
      unfold destroy at hc
      exact (List.mem_filter.mp hc).1
    have hres := h c hmem
    unfold parentResolves at hres ⊢
    cases hp : c.parentId with
    | none => rfl
    | some p =>
      rw [hp] at hres
      simp only []
      rw [findByPk_destroy]
      have hne : ¬ p = key := by
        intro hpid
        exact hleaf c hmem (hpid ▸ hp)
      rw [if_neg hne]
      exact hres

/-- Claim C9: referential integrity of `parentId` is preserved by every
operation, whatever the texts of the request. If every `parentId` is absent or
names a stored category, the same holds after `createCategory`, after every
`updateCategory` call that returns (and it returns with fuel for one more hop
than there are rows when the table is acyclic), and after `deleteCategory`; a
successful delete leaves no row whose `parentId` names the deleted category. -/
theorem C9_referential_integrity_preserved (slugify : String → String) (s : State)
    (h : RefIntegrity s.categories) :
    (∀ uuid data, RefIntegrity (createCategory slugify uuid s data).state.categories) ∧
    (∀ fuel id data r, updateCategory slugify fuel s id data = some r →
      RefIntegrity r.state.categories) ∧
    (∀ id data, Acyclic s.categories →
      ∃ r, updateCategory slugify (s.categories.length + 1) s id data = some r ∧
        RefIntegrity r.state.categories) ∧
    (∀ id, RefIntegrity (deleteCategory s id).state.categories) ∧
    (∀ key spelling, (deleteCategory s (.uuid key spelling)).response.isSuccess = true →
      ∀ c ∈ (deleteCategory s (.uuid key spelling)).state.categories,
        c.parentId ≠ some key) := by
  refine ⟨fun uuid data => refIntegrity_create slugify uuid s data h,
    fun fuel id data r hr => refIntegrity_update slugify fuel s id data r h hr, ?_,
    fun id => refIntegrity_delete s id h, ?_⟩
  · intro id data hac
    obtain ⟨r, hr⟩ := updateCategory_returns slugify (s.categories.length + 1) s id data
      (fun p => isDescendant_terminates s.categories ((acyclic_iff _).mp hac) p id)
    exact ⟨r, hr, refIntegrity_update slugify _ s id data r h hr⟩
  · intro key spelling hok c hc
    obtain ⟨key1, spelling1, category, hid, hcat, hrows, -⟩ := deleteCategory_success s _ hok
    cases hid
    rcases deleteCategory_categories s (.uuid key spelling) with
      heq | ⟨key2, spelling2, hid2, -, -, hleaf⟩
    · -- a successful delete removed the row, so the table cannot be unchanged
      exfalso
      have hmem := findByPk_mem hcat
      rw [← heq, hrows] at hmem
      unfold destroy at hmem
      have := (List.mem_filter.mp hmem).2
      simp [findByPk_id hcat] at this
    · cases hid2
      rw [hrows] at hc
      unfold destroy at hc
      exact hleaf c (List.mem_filter.mp hc).1
/-! ## Acyclicity after each operation -/

theorem acyclic_create (slugify : String → String) (uuid : CategoryId) (s : State)
    (data : CategoryData) (hac : Acyclic s.categories)
    (hnew : ∀ c ∈ s.categories,
      c.parentId ≠ some ((data.id.bind RequestId.value).getD uuid)) :
    Acyclic (createCategory slugify uuid s data).state.categories := by
  rcases createCategory_cases slugify uuid s data with
    ⟨e, he⟩ | ⟨hcheck, -, -, -, hfresh, -, heq⟩
  · rw [he]
    exact hac
  · rw [heq, acyclic_iff]
    simp only []
    have hid : (beforeValidate slugify (build uuid data)).id
        = (data.id.bind RequestId.value).getD uuid := by
      rw [beforeValidate_id]
      rfl
    have hpar : (beforeValidate slugify (build uuid data)).parentId
        = data.parentId.join.bind RequestId.value := by
      rw [beforeValidate_parentId]
      rfl
    have hlink : ∀ j,
        parentOf (afterCreate (s.categories ++ [beforeValidate slugify (build uuid data)])
          (beforeValidate slugify (build uuid data))).1 j
          = if j = (beforeValidate slugify (build uuid data)).id
            then (beforeValidate slugify (build uuid data)).parentId
            else parentOf s.categories j := by
      intro j
      rw [parentOf_afterCreate, parentOf_append_single _ _ _ hfresh]
    apply acyclic_of_relink s.categories _ (beforeValidate slugify (build uuid data)).id
    · intro j hj
      rw [hlink, if_neg hj]
    · intro p hp
      rw [hlink, if_pos rfl, hpar] at hp
      constructor
      · intro hpx
        have hsome := hcheck p hp
        rw [hpx, hfresh] at hsome
        cases hsome
      · rintro ⟨n, hn⟩
        obtain ⟨row, hrow, hrowpar⟩ := exists_child_of_ancestorAt s.categories n p _ hn
        exact hnew row hrow (hid ▸ hrowpar)
    · exact (acyclic_iff _).mp hac

/-- On a table whose parent links all resolve, `createCategory` keeps the
table acyclic: no stored row can name the id of the new row. -/
theorem acyclic_create_of_refIntegrity (slugify : String → String) (uuid : CategoryId)
    (s : State) (data : CategoryData) (hac : Acyclic s.categories)
    (href : RefIntegrity s.categories) :
    Acyclic (createCategory slugify uuid s data).state.categories := by
  rcases createCategory_cases slugify uuid s data with
    ⟨e, he⟩ | ⟨-, -, -, -, hfresh, -, -⟩
  · rw [he]
    exact hac
  · apply acyclic_create slugify uuid s data hac
    intro c hc hpar
    have hres := href c hc
    unfold parentResolves at hres
    rw [hpar] at hres
    have hid : (beforeValidate slugify (build uuid data)).id
        = (data.id.bind RequestId.value).getD uuid := by
      rw [beforeValidate_id]
      rfl
    rw [← hid] at hres
    simp only [hfresh] at hres
    cases hres

/-- An `updateCategory` whose URL names the category in the stored spelling,
and whose body does not name that same category in another spelling, leaves
an acyclic table acyclic. -/
theorem acyclic_update (slugify : String → String) (fuel : Nat) (s : State)
    (key : CategoryId) (data : CategoryData) (r : Reply) (hac : Acyclic s.categories)
    (hparent : ∀ spelling, data.parentId = some (some (.uuid key spelling)) → spelling = 0)
    (hr : updateCategory slugify fuel s (RequestId.stored key) data = some r) :
    Acyclic r.state.categories := by
  rcases updateCategory_cases slugify fuel s _ data r hr with
    ⟨e, he⟩ | ⟨key1, spelling1, category, hid, hcat, hself, -, hguard, heq⟩
  · rw [he]
    exact hac
  · have hkey : key1 = key := by
      unfold RequestId.stored at hid
      cases hid
      rfl
    subst hkey
    rw [heq, acyclic_iff]
    simp only []
    have hlink : ∀ j,
        parentOf (updateRow s.categories key1
          (writeFields data (beforeValidate slugify (setValues category data)))) j
          = if j = key1 then
              (match data.parentId with
               | some v => v.bind RequestId.value
               | none => category.parentId)
            else parentOf s.categories j := by
      intro j
      rw [parentOf_updateRow_writeFields s.categories key1 j data category _ hcat,
        written_parentId]
    have hold := (acyclic_iff _).mp hac
    cases hd : data.parentId with
    | none =>
      -- the body carries no parentId: every parent link is as before
      have hsame : ∀ j, parentOf (updateRow s.categories key1
          (writeFields data (beforeValidate slugify (setValues category data)))) j
          = parentOf s.categories j := by
        intro j
        rw [hlink]
        by_cases hj : j = key1
        · rw [if_pos hj, hd, hj]
          simp [parentOf, hcat]
        · rw [if_neg hj]
      intro i hi
      obtain ⟨n, hn⟩ := hi
      rw [ancestorAt_congr _ _ hsame] at hn
      exact hold i ⟨n, hn⟩
    | some v =>
      apply acyclic_of_relink s.categories _ key1
      · intro j hj
        rw [hlink, if_neg hj]
      · intro p hp
        rw [hlink, if_pos rfl, hd] at hp
        simp only [] at hp
        cases v with
        | none => cases hp
        | some text =>
          cases text with
          | malformed t => cases hp
          | uuid q spelling =>
            simp only [Option.some_bind, RequestId.value, Option.some.injEq] at hp
            subst hp
            constructor
            · intro hpid
              subst hpid
              have hsp := hparent spelling hd
              subst hsp
              exact hself hd
            · rintro ⟨n, hn⟩
              have hwalk := (hguard q (by rw [hd]; rfl)).2
              exact isDescendantLoop_ne_false_of_ancestorAt s.categories key1 n q hn fuel hwalk
      · exact hold

theorem acyclic_delete (s : State) (id : RequestId) (hac : Acyclic s.categories) :
    Acyclic (deleteCategory s id).state.categories := by
  rcases deleteCategory_categories s id with heq | ⟨key, spelling, -, heq, -, -⟩
  · rw [heq]
    exact hac
  · rw [heq, acyclic_iff]
    apply acyclic_of_relink s.categories _ key
    · intro j hj
      rw [parentOf_destroy, if_neg hj]
    · intro p hp
      rw [parentOf_destroy, if_pos rfl] at hp
      cases hp
    · exact (acyclic_iff _).mp hac

/-! ## The example tables -/

theorem reachable_storeSSD : Reachable lowerAscii storeSSD :=
  Reachable.create 3 _
    (Reachable.create 2 _ (Reachable.create 1 _ Reachable.initial (by decide)) (by decide))
    (by decide)

theorem reachable_storeKeyboards : Reachable lowerAscii storeKeyboards :=
  Reachable.create 5 _ (Reachable.create 4 _ reachable_storeSSD (by decide)) (by decide)

theorem reachable_storeStorage : Reachable lowerAscii storeStorage :=
  Reachable.create 2 _ (Reachable.create 1 _ Reachable.initial (by decide)) (by decide)

theorem acyclic_storeStorage : Acyclic storeStorage.categories := by
  have h0 : Acyclic State.initial.categories := by
    intro c hc
    simp [State.initial] at hc
  have h1 : Acyclic storeComponents.categories :=
    acyclic_create lowerAscii 1 State.initial _ h0 (by decide)
  exact acyclic_create lowerAscii 2 storeComponents _ h1 (by decide)

theorem acyclic_storeSSD : Acyclic storeSSD.categories :=
  acyclic_create lowerAscii 3 storeStorage _ acyclic_storeStorage (by decide)

/-- The ids of the URL and of the body are compared as texts (`===`), while
`findByPk` reads every spelling of a uuid as the same value. Claim C7 fails on
the code: `PUT /categories/<id of "Storage">` with the body
`{ parentId: <the same uuid in upper case> }` passes the test
`updateData.parentId === id`, finds the parent, gets `false` from
`isDescendant`, answers 200 and stores "Storage" as its own parent. -/
theorem C7_self_parent_stored_in_other_spelling :
    Reachable lowerAscii storeSSD ∧
    (updateCategory lowerAscii 4 storeSSD 2 { parentId := some (some (.uuid 2 1)) }).map
        (fun r => (r.response, r.state.categories))
      = some (.json 200
          (.category ⟨2, "Storage", "storage", some 2, some "/components/storage", 2, true, 0⟩),
        [⟨1, "Components", "components", none, some "/components", 1, true, 0⟩,
         ⟨2, "Storage", "storage", some 2, some "/components/storage", 2, true, 0⟩,
         ⟨3, "SSD", "ssd", some 2, some "/components/storage/ssd", 3, true, 0⟩]) :=
  ⟨reachable_storeSSD, by decide⟩

/-- Claim C6 fails on the code, by the defect of C7: "SSD" lies two levels
below "Components", and `PUT /categories/<id of "Components" in upper case>`
with the body `{ parentId: <id of "SSD"> }` answers 200 and stores
"Components" under "SSD": the walk of `isDescendant` compares the texts read
from the table with the text of the URL and never finds it. -/
theorem C6_descendant_accepted_in_other_spelling :
    Reachable lowerAscii storeSSD ∧ IsAncestor storeSSD.categories 1 3 ∧
    (updateCategory lowerAscii 4 storeSSD (.uuid 1 1) { parentId := some (some 3) }).map
        (fun r => (r.response, r.state.categories))
      = some (.json 200
          (.category ⟨1, "Components", "components", some 3, some "/components", 1, true, 0⟩),
        [⟨1, "Components", "components", some 3, some "/components", 1, true, 0⟩,
         ⟨2, "Storage", "storage", some 1, some "/components/storage", 2, true, 0⟩,
         ⟨3, "SSD", "ssd", some 2, some "/components/storage/ssd", 3, true, 0⟩]) :=
  ⟨reachable_storeSSD, ⟨1, by decide⟩, by decide⟩

/-- Claim C8 fails on the code, by the defect of C7: on the acyclic table of
"Components" and its child "Storage", reached by two creations,
`PUT /categories/<id of "Components" in upper case>` with the body
`{ parentId: <id of "Storage"> }` answers 200 and leaves "Components" its own
ancestor. -/
theorem C8_update_closes_cycle :
    Reachable lowerAscii storeStorage ∧ Acyclic storeStorage.categories ∧
    ∃ r, updateCategory lowerAscii 3 storeStorage (.uuid 1 1) { parentId := some (some 2) }
        = some r ∧
      r.response.isSuccess = true ∧ Reachable lowerAscii r.state ∧
      ¬ Acyclic r.state.categories := by
  refine ⟨reachable_storeStorage, acyclic_storeStorage, ?_⟩
  obtain ⟨r, hr⟩ : ∃ r, updateCategory lowerAscii 3 storeStorage (.uuid 1 1)
      { parentId := some (some 2) } = some r := ⟨_, rfl⟩
  have hok : r.response.isSuccess = true := by
    have : (updateCategory lowerAscii 3 storeStorage (.uuid 1 1)
        { parentId := some (some 2) }).map (fun r => r.response.isSuccess) = some true := by
      decide
    rw [hr] at this
    simpa using this
  have hrows : r.state.categories
      = [⟨1, "Components", "components", some 2, some "/components", 1, true, 0⟩,
         ⟨2, "Storage", "storage", some 1, some "/components/storage", 2, true, 0⟩] := by
    have : (updateCategory lowerAscii 3 storeStorage (.uuid 1 1)
        { parentId := some (some 2) }).map (fun r => r.state.categories)
        = some [⟨1, "Components", "components", some 2, some "/components", 1, true, 0⟩,
           ⟨2, "Storage", "storage", some 1, some "/components/storage", 2, true, 0⟩] := by
      decide
    rw [hr] at this
    simpa using this
  refine ⟨r, hr, hok, Reachable.update 3 _ _ r reachable_storeStorage hr hok, ?_⟩
  rw [hrows]
  intro h
  exact h _ (List.mem_cons_self _ _) ⟨1, by decide⟩

/-! ## Paths and levels after a change of parent -/

/-- Claim C1 fails on the code: the three creations and the move of "Storage"
to the root all complete without error, and the state reached holds a category
without parent whose path is not `"/" + slug`. -/
theorem C1_path_invariant_broken_by_move :
    ∃ r, storageMovedToRoot = some r ∧ r.response.isSuccess = true ∧
      Reachable lowerAscii r.state ∧ ¬ PathConsistent r.state.categories ∧
      ∃ c ∈ r.state.categories, c.parentId = none ∧ c.slug = "storage" ∧
        c.path = some "/components/storage" := by
  obtain ⟨r, hr⟩ : ∃ r, storageMovedToRoot = some r := ⟨_, rfl⟩
  have hok : r.response.isSuccess = true := by
    have : storageMovedToRoot.map (fun r => r.response.isSuccess) = some true := by decide
    rw [hr] at this
    simpa using this
  have hrows : r.state.categories = rowsAfterMoveToRoot := by
    have : storageMovedToRoot.map (fun r => r.state.categories) = some rowsAfterMoveToRoot := by
      decide
    rw [hr] at this
    simpa using this
  refine ⟨r, hr, hok, Reachable.update 4 2 _ r reachable_storeSSD hr hok, ?_, ?_⟩
  · rw [hrows]
    unfold PathConsistent
    decide
  · rw [hrows]
    exact ⟨_, List.mem_cons_of_mem _ (List.mem_cons_self _ _), rfl, rfl, rfl⟩

/-- Claim C2 fails on the code: after the same requests the state reached
holds a category without parent whose level is 2. -/
theorem C2_level_invariant_broken_by_move :
    ∃ r, storageMovedToRoot = some r ∧ r.response.isSuccess = true ∧
      Reachable lowerAscii r.state ∧ ¬ LevelConsistent r.state.categories ∧
      ∃ c ∈ r.state.categories, c.parentId = none ∧ c.level = 2 := by
  obtain ⟨r, hr⟩ : ∃ r, storageMovedToRoot = some r := ⟨_, rfl⟩
  have hok : r.response.isSuccess = true := by
    have : storageMovedToRoot.map (fun r => r.response.isSuccess) = some true := by decide
    rw [hr] at this
    simpa using this
  have hrows : r.state.categories = rowsAfterMoveToRoot := by
    have : storageMovedToRoot.map (fun r => r.state.categories) = some rowsAfterMoveToRoot := by
      decide
    rw [hr] at this
    simpa using this
  refine ⟨r, hr, hok, Reachable.update 4 2 _ r reachable_storeSSD hr hok, ?_, ?_⟩
  · rw [hrows]
    unfold LevelConsistent
    decide
  · rw [hrows]
    exact ⟨_, List.mem_cons_of_mem _ (List.mem_cons_self _ _), rfl, rfl⟩

/-- Claim C3 fails on the code: `updateCategory(2, { parentId: null })` on
"Storage" (child of "Components", parent of "SSD") answers 200 with the
instance still at `/components/storage`, level 2, and leaves "SSD" at
`/components/storage/ssd`, level 3. -/
theorem C3_move_to_root_keeps_old_path :
    storageMovedToRoot.map (fun r => (r.response, r.state.categories))
      = some (.json 200
          (.category ⟨2, "Storage", "storage", none, some "/components/storage", 2, true, 0⟩),
        rowsAfterMoveToRoot) := by
  decide

/-- Claim C4 fails on the code: `updateCategory(2, { parentId: 5 })` moves
"Storage" under "Keyboards" (`/peripherals/keyboards`, level 2) and answers
200, yet "Storage" keeps `/components/storage`, level 2, instead of
`/peripherals/keyboards/storage`, level 3. -/
theorem C4_reparent_keeps_old_path :
    storageMovedUnderKeyboards.map (fun r => (r.response, r.state.categories))
      = some (.json 200
          (.category ⟨2, "Storage", "storage", some 5, some "/components/storage", 2, true, 0⟩),
        [⟨1, "Components", "components", none, some "/components", 1, true, 0⟩,
         ⟨2, "Storage", "storage", some 5, some "/components/storage", 2, true, 0⟩,
         ⟨3, "SSD", "ssd", some 2, some "/components/storage/ssd", 3, true, 0⟩,
         ⟨4, "Peripherals", "peripherals", none, some "/peripherals", 1, true, 0⟩,
         ⟨5, "Keyboards", "keyboards", some 4, some "/peripherals/keyboards", 2, true, 0⟩]) := by
  decide

/-! ## Cache reads after cache writes -/

theorem find_filter_other_key (cache : List CacheEntry) (key k : CacheKey) (hk : ¬ k = key) :
    (cache.filter (fun e => e.key != key)).find? (fun e => e.key == k)
      = cache.find? (fun e => e.key == k) := by
  induction cache with
  | nil => rfl
  | cons e es ih =>
    by_cases he : e.key = key
    · have hek : ¬ e.key = k := fun h => hk (h.symm.trans he)
      simp only [List.filter_cons, he, bne_self_eq_false, Bool.false_eq_true, if_false,
        List.find?_cons]
      have hb : (e.key == k) = false := by simpa using hek
      rw [← he, hb]
      simpa [he] using ih
    · have hb1 : (e.key != key) = true := by simpa using he
      simp only [List.filter_cons, hb1, if_true, List.find?_cons]
      rw [ih]

theorem getAsync_setAsync (cache : List CacheEntry) (key k : CacheKey) (value : CacheValue)
    (ttl : Nat) :
    getAsync (setAsync cache key value ttl) k
      = if k = key then some value else getAsync cache k := by
  unfold getAsync setAsync
  by_cases hk : k = key
  · subst hk
    simp [List.find?_cons]
  · have hb : (key == k) = false := by
      simpa using fun h : key = k => hk h.symm
    rw [if_neg hk, List.find?_cons]
    simp only [hb]
    rw [find_filter_other_key cache key k hk]

/-- What a reader finds after the three writes of `invalidateCategory`. -/
theorem getAsync_invalidateCategory (cache : List CacheEntry) (id : RequestId) (slug : String)
    (k : CacheKey) :
    getAsync (invalidateCategory cache id slug) k
      = if k = .categoriesAll ∨ k = .category id ∨ k = .categorySlug slug then some .empty
        else getAsync cache k := by
  unfold invalidateCategory
  simp only [getAsync_setAsync]
  by_cases h1 : k = .categoriesAll
  · simp [h1]
  · by_cases h2 : k = .categorySlug slug
    · simp [h2]
    · by_cases h3 : k = .category id
      · simp [h3]
      · simp [h1, h2, h3]

/-! ## Rejections that leave the state untouched -/

theorem updateCategory_not_found (slugify : String → String) (fuel : Nat) (s : State)
    (key : CategoryId) (spelling : Nat) (data : CategoryData)
    (hmiss : findByPk s.categories key = none) :
    updateCategory slugify fuel s (.uuid key spelling) data
      = some ⟨.error ⟨"Category not found", .NotFoundError⟩, s⟩ := by
  unfold updateCategory
  simp only [hmiss]
  rfl

theorem updateCategory_parent_missing (slugify : String → String) (fuel : Nat) (s : State)
    (key p : CategoryId) (spelling parentSpelling : Nat) (data : CategoryData)
    (category : Category)
    (hcat : findByPk s.categories key = some category)
    (hreq : data.parentId = some (some (.uuid p parentSpelling)))
    (hmiss : findByPk s.categories p = none) :
    updateCategory slugify fuel s (.uuid key spelling) data
      = some ⟨.error ⟨"Parent category not found", .ValidationError⟩, s⟩ := by
  have hself : ¬ data.parentId = some (some (.uuid key spelling)) := by
    rw [hreq]
    intro h
    simp only [Option.some.injEq, RequestId.uuid.injEq] at h
    rw [h.1, hcat] at hmiss
    cases hmiss
  unfold updateCategory
  simp only [hcat, if_neg hself]
  rw [hreq]
  simp [hmiss]

theorem updateCategory_parent_malformed (slugify : String → String) (fuel : Nat) (s : State)
    (key : CategoryId) (spelling : Nat) (text : String) (data : CategoryData)
    (category : Category)
    (hcat : findByPk s.categories key = some category)
    (hreq : data.parentId = some (some (.malformed text))) :
    updateCategory slugify fuel s (.uuid key spelling) data
      = some ⟨.error ⟨"Failed to update category", .ServerError⟩, s⟩ := by
  have hself : ¬ data.parentId = some (some (.uuid key spelling)) := by
    rw [hreq]
    intro h
    cases h
  have hsyn : parentIdSyntax data = false := by
    simp [parentIdSyntax, hreq]
  unfold updateCategory
  simp only [hcat, if_neg hself]
  rw [hreq]
  by_cases ht : text = ""
  · simp [ht, Category.update, hsyn, fail]
  · simp [ht]

theorem createCategory_parent_missing (slugify : String → String) (uuid : CategoryId) (s : State)
    (p : CategoryId) (parentSpelling : Nat) (data : CategoryData)
    (hreq : data.parentId = some (some (.uuid p parentSpelling)))
    (hmiss : findByPk s.categories p = none) :
    createCategory slugify uuid s data
      = ⟨.error ⟨"Parent category not found", .ValidationError⟩, s⟩ := by
  unfold createCategory
  rw [hreq]
  simp [hmiss]

theorem createCategory_parent_malformed (slugify : String → String) (uuid : CategoryId)
    (s : State) (text : String) (data : CategoryData)
    (hreq : data.parentId = some (some (.malformed text))) :
    createCategory slugify uuid s data
      = ⟨.error ⟨"Failed to create category", .ServerError⟩, s⟩ := by
  have hsyn : parentIdSyntax data = false := by
    simp [parentIdSyntax, hreq]
  unfold createCategory
  rw [hreq]
  by_cases ht : text = ""
  · simp [ht, Category.create, hsyn, fail]
  · simp [ht]

/-- Claim C13 as stated fails: the text `abc` resolves to no category, and
`updateCategory` and `deleteCategory` on it answer `ServerError`, not
`NotFoundError`: `findByPk` throws on text that is not UUID syntax and the
handler reports the thrown error. The state is left as it was. -/
theorem C13_malformed_id_counterexample :
    updateCategory lowerAscii 0 storeComponents (.malformed "abc") { name := some "Parts" }
      = some ⟨.error ⟨"Failed to update category", .ServerError⟩, storeComponents⟩ ∧
    deleteCategory storeComponents (.malformed "abc")
      = ⟨.error ⟨"Failed to delete category", .ServerError⟩, storeComponents⟩ := by
  decide

/-- Claim C13, amended: failures of the lookups have no side effects.
`updateCategory` and `deleteCategory` answer `NotFoundError` on a uuid, in any
spelling, that resolves to no category, and `ServerError` on text that is not
UUID syntax; `createCategory` and `updateCategory` whose `parentId` resolves to
no category (a uuid without row, or text that is not UUID syntax) answer an
error; in each case the reply carries the state (tables and cache) exactly as
it was, and `updateCategory` needs no fuel to get there. -/
theorem C13_validation_failures_leave_state (slugify : String → String) (s : State) :
    (∀ fuel key spelling data, findByPk s.categories key = none →
      updateCategory slugify fuel s (.uuid key spelling) data
        = some ⟨.error ⟨"Category not found", .NotFoundError⟩, s⟩) ∧
    (∀ key spelling, findByPk s.categories key = none →
      deleteCategory s (.uuid key spelling)
        = ⟨.error ⟨"Category not found", .NotFoundError⟩, s⟩) ∧
    (∀ fuel text data, updateCategory slugify fuel s (.malformed text) data
        = some ⟨.error ⟨"Failed to update category", .ServerError⟩, s⟩) ∧
    (∀ text, deleteCategory s (.malformed text)
        = ⟨.error ⟨"Failed to delete category", .ServerError⟩, s⟩) ∧
    (∀ uuid p data, data.parentId = some (some p) →
      (∀ key, p.value = some key → findByPk s.categories key = none) →
      ∃ e, createCategory slugify uuid s data = ⟨.error e, s⟩) ∧
    (∀ fuel id p data, data.parentId = some (some p) →
      (∀ key, p.value = some key → findByPk s.categories key = none) →
      ∃ e, updateCategory slugify fuel s id data = some ⟨.error e, s⟩) := by
  refine ⟨?_, ?_, ?_, ?_, ?_, ?_⟩
  · intro fuel key spelling data hid
    exact updateCategory_not_found slugify fuel s key spelling data hid
  · intro key spelling hid
    unfold deleteCategory
    simp only [hid]
    rfl
  · intro fuel text data
    rfl
  · intro text
    rfl
  · intro uuid p data hreq hmiss
    cases p with
    | malformed text => exact ⟨_, createCategory_parent_malformed slugify uuid s text data hreq⟩
    | uuid q parentSpelling =>
      exact ⟨_, createCategory_parent_missing slugify uuid s q parentSpelling data hreq
        (hmiss q rfl)⟩
  · intro fuel id p data hreq hmiss
    cases id with
    | malformed text => exact ⟨_, rfl⟩
    | uuid key spelling =>
      cases hcat : findByPk s.categories key with
      | none => exact ⟨_, updateCategory_not_found slugify fuel s key spelling data hcat⟩
      | some category =>
        cases p with
        | malformed text =>
          exact ⟨_, updateCategory_parent_malformed slugify fuel s key spelling text data
            category hcat hreq⟩
        | uuid q parentSpelling =>
          exact ⟨_, updateCategory_parent_missing slugify fuel s key q spelling parentSpelling
            data category hcat hreq (hmiss q rfl)⟩

/-- Claim C16 as stated fails: a `createCategory` and an `updateCategory`
whose `parentId` 99 names no category answer an error of type
`ValidationError`, not `NotFoundError`; with a `parentId` that is not UUID
syntax they answer `ServerError`. -/
theorem C16_parent_missing_counterexample :
    (createCategory lowerAscii 2 storeComponents
        { name := some "Storage", parentId := some (some 99) }).response
      = .error ⟨"Parent category not found", .ValidationError⟩ ∧
    (updateCategory lowerAscii 0 storeComponents 1 { parentId := some (some 99) }).map
        (fun r => r.response)
      = some (.error ⟨"Parent category not found", .ValidationError⟩) ∧
    (createCategory lowerAscii 2 storeComponents
        { name := some "Storage", parentId := some (some (.malformed "abc")) }).response
      = .error ⟨"Failed to create category", .ServerError⟩ ∧
    (updateCategory lowerAscii 0 storeComponents 1
        { parentId := some (some (.malformed "abc")) }).map (fun r => r.response)
      = some (.error ⟨"Failed to update category", .ServerError⟩) := by
  decide

/-- Claim C16, amended: `createCategory` whose `parentId` is a uuid, in any
spelling, that resolves to no category reports `ValidationError` with the
message "Parent category not found", and so does `updateCategory` on an
existing category; with a `parentId` that is not UUID syntax both report
`ServerError`; the only `NotFoundError` of `updateCategory` is for a target id
that resolves to no category. -/
theorem C16_parent_missing_reports_validation (slugify : String → String) (s : State) :
    (∀ uuid data p parentSpelling, data.parentId = some (some (.uuid p parentSpelling)) →
      findByPk s.categories p = none →
      (createCategory slugify uuid s data).response
        = .error ⟨"Parent category not found", .ValidationError⟩) ∧
    (∀ fuel key spelling data p parentSpelling,
      data.parentId = some (some (.uuid p parentSpelling)) →
      findByPk s.categories p = none → (findByPk s.categories key).isSome = true →
      (updateCategory slugify fuel s (.uuid key spelling) data).map (fun r => r.response)
        = some (.error ⟨"Parent category not found", .ValidationError⟩)) ∧
    (∀ uuid data text, data.parentId = some (some (.malformed text)) →
      (createCategory slugify uuid s data).response
        = .error ⟨"Failed to create category", .ServerError⟩) ∧
    (∀ fuel key spelling data text, data.parentId = some (some (.malformed text)) →
      (findByPk s.categories key).isSome = true →
      (updateCategory slugify fuel s (.uuid key spelling) data).map (fun r => r.response)
        = some (.error ⟨"Failed to update category", .ServerError⟩)) ∧
    (∀ fuel key spelling data, findByPk s.categories key = none →
      (updateCategory slugify fuel s (.uuid key spelling) data).map (fun r => r.response)
        = some (.error ⟨"Category not found", .NotFoundError⟩)) := by
  refine ⟨?_, ?_, ?_, ?_, ?_⟩
  · intro uuid data p parentSpelling hreq hmiss
    rw [createCategory_parent_missing slugify uuid s p parentSpelling data hreq hmiss]
  · intro fuel key spelling data p parentSpelling hreq hmiss hid
    obtain ⟨category, hcat⟩ := Option.isSome_iff_exists.mp hid
    rw [updateCategory_parent_missing slugify fuel s key p spelling parentSpelling data category
      hcat hreq hmiss]
    rfl
  · intro uuid data text hreq
    rw [createCategory_parent_malformed slugify uuid s text data hreq]
  · intro fuel key spelling data text hreq hid
    obtain ⟨category, hcat⟩ := Option.isSome_iff_exists.mp hid
    rw [updateCategory_parent_malformed slugify fuel s key spelling text data category hcat hreq]
    rfl
  · intro fuel key spelling data hid
    rw [updateCategory_not_found slugify fuel s key spelling data hid]
    rfl

/-- Witness of C16 on the table holding only "Components". -/
theorem C16_parent_missing_reports_validation_witness :
    (createCategory lowerAscii 2 storeComponents
        { name := some "Storage", parentId := some (some 99) }).response
      = .error ⟨"Parent category not found", .ValidationError⟩ :=
  (C16_parent_missing_reports_validation lowerAscii storeComponents).1 2
    { name := some "Storage", parentId := some (some 99) } 99 0 rfl (by decide)

/-- Witness of C13 on the table holding only "Components": the id 7 is a uuid
without row. -/
theorem C13_validation_failures_leave_state_witness :
    deleteCategory storeComponents 7
      = ⟨.error ⟨"Category not found", .NotFoundError⟩, storeComponents⟩ :=
  (C13_validation_failures_leave_state lowerAscii storeComponents).2.1 7 0 (by decide)

/-! ## Duplicate slugs -/

/-- The call `Category.create` throws when a stored row already holds the slug
derived from the name. -/
theorem Category.create_duplicate_slug (slugify : String → String) (uuid : CategoryId)
    (cats : List Category) (data : CategoryData) (name : String)
    (hname : data.name = some name) (hdup : ∃ c ∈ cats, c.slug = slugify name) :
    Category.create slugify uuid cats data = none := by
  obtain ⟨c, hc, hslug⟩ := hdup
  unfold Category.create
  simp only []
  by_cases hvalid : nameValid (beforeValidate slugify (build uuid data)).name = true
  · by_cases hsyn : (!idSyntax data || !parentIdSyntax data) = true
    · simp [hvalid, hsyn]
    · by_cases hpk : (findByPk cats (beforeValidate slugify (build uuid data)).id).isSome = true
      · simp [hvalid, hsyn, hpk]
      · have hne : (build uuid data).name ≠ "" := by
          rw [beforeValidate_name] at hvalid
          exact nameValid_ne_empty hvalid
        have hbuild : (build uuid data).name = name := by
          simp [build, hname]
        have hslugv : (beforeValidate slugify (build uuid data)).slug = slugify name := by
          unfold beforeValidate
          rw [if_pos hne, hbuild]
        have hcid : c.id ≠ (beforeValidate slugify (build uuid data)).id := by
          intro h
          apply hpk
          rw [← h]
          exact findByPk_isSome_of_mem hc
        have htaken : slugTaken cats (beforeValidate slugify (build uuid data)).id
            (beforeValidate slugify (build uuid data)).slug = true := by
          unfold slugTaken
          rw [List.any_eq_true]
          exact ⟨c, hc, by simp [hcid, hslug, hslugv]⟩
        simp only [hvalid, hsyn, hpk, htaken]
        simp
  · simp [hvalid]

/-- Claim C15 as stated fails: creating a second "Components" is rejected
with an error of type `ServerError`, not `ValidationError`; the state is left
as it was. -/
theorem C15_duplicate_slug_counterexample :
    createCategory lowerAscii 2 storeComponents { name := some "Components" }
      = ⟨.error ⟨"Failed to create category", .ServerError⟩, storeComponents⟩ := by
  decide

/-- Claim C15, amended: `createCategory` with a name whose derived slug equals
the slug of a stored category is rejected and the state is left unchanged (no
row with another slug is stored); the error is the `ServerError` "Failed to
create category" unless the body names, as a uuid in some spelling, a parent
without row. -/
theorem C15_duplicate_slug_rejected (slugify : String → String) (uuid : CategoryId)
    (s : State) (data : CategoryData) (name : String)
    (hname : data.name = some name) (hdup : ∃ c ∈ s.categories, c.slug = slugify name) :
    (createCategory slugify uuid s data).state = s ∧
    (∃ e, (createCategory slugify uuid s data).response = .error e) ∧
    ((∀ key spelling, data.parentId.join = some (.uuid key spelling) →
        (findByPk s.categories key).isSome = true) →
      (createCategory slugify uuid s data).response
        = .error ⟨"Failed to create category", .ServerError⟩) := by
  have hcreate := Category.create_duplicate_slug slugify uuid s.categories data name hname hdup
  unfold createCategory
  rw [hcreate]
  cases hj : data.parentId.join with
  | none => exact ⟨rfl, ⟨_, rfl⟩, fun _ => rfl⟩
  | some p =>
    cases p with
    | malformed text =>
      simp only []
      by_cases ht : text = ""
      · rw [if_pos ht]
        exact ⟨rfl, ⟨_, rfl⟩, fun _ => rfl⟩
      · rw [if_neg ht]
        exact ⟨rfl, ⟨_, rfl⟩, fun _ => rfl⟩
    | uuid key spelling =>
      simp only []
      by_cases hmiss : (findByPk s.categories key).isNone = true
      · rw [if_pos hmiss]
        refine ⟨rfl, ⟨_, rfl⟩, ?_⟩
        intro hall
        exfalso
        have := hall key spelling rfl
        rw [Option.isNone_iff_eq_none] at hmiss
        rw [hmiss] at this
        cases this
      · rw [if_neg hmiss]
        exact ⟨rfl, ⟨_, rfl⟩, fun _ => rfl⟩

/-- Witness of C15: a second "Components" on the table holding "Components". -/
theorem C15_duplicate_slug_rejected_witness :
    (createCategory lowerAscii 2 storeComponents { name := some "Components" }).state
      = storeComponents ∧
    (createCategory lowerAscii 2 storeComponents { name := some "Components" }).response
      = .error ⟨"Failed to create category", .ServerError⟩ :=
  ⟨(C15_duplicate_slug_rejected lowerAscii 2 storeComponents { name := some "Components" }
      "Components" rfl
      ⟨⟨1, "Components", "components", none, some "/components", 1, true, 0⟩,
        by decide, by decide⟩).1,
    (C15_duplicate_slug_rejected lowerAscii 2 storeComponents { name := some "Components" }
      "Components" rfl
      ⟨⟨1, "Components", "components", none, some "/components", 1, true, 0⟩,
        by decide, by decide⟩).2.2 (fun _ _ h => by cases h)⟩

/-! ## Path and level fields of the request body -/

/-- Claim C14 fails on the code: on the table holding only "Components", the
empty body and the body `{ path: "/hacked", level: 99 }` differ only in `path`
and `level`; both requests answer 200, the first leaves `/components`, level 1,
the second stores `/hacked`, level 99. -/
theorem C14_body_path_level_written :
    (updateCategory lowerAscii 1 storeComponents 1 { }).map
        (fun r => (r.response.isSuccess, r.state.categories))
      = some (true, [⟨1, "Components", "components", none, some "/components", 1, true, 0⟩]) ∧
    (updateCategory lowerAscii 1 storeComponents 1
        { path := some "/hacked", level := some 99 }).map
        (fun r => (r.response.isSuccess, r.state.categories))
      = some (true, [⟨1, "Components", "components", none, some "/hacked", 99, true, 0⟩]) := by
  decide

/-! ## Successful replies -/

/-- A successful `updateCategory` wrote the fields of the body to the row of
the id, answered the updated instance and wrote the three cache entries. -/
theorem updateCategory_success (slugify : String → String) (fuel : Nat) (s : State)
    (id : RequestId) (data : CategoryData) (r : Reply)
    (h : updateCategory slugify fuel s id data = some r) (hok : r.response.isSuccess = true) :
    ∃ key spelling category, id = .uuid key spelling ∧
      findByPk s.categories key = some category ∧
      r.response = .json 200 (.category (beforeValidate slugify (setValues category data))) ∧
      r.state.categories
        = updateRow s.categories key
            (writeFields data (beforeValidate slugify (setValues category data))) ∧
      r.state.products = s.products ∧
      r.state.cache
        = invalidateCategory s.cache id (beforeValidate slugify (setValues category data)).slug := by
  rcases updateCategory_cases slugify fuel s id data r h with
    ⟨e, he⟩ | ⟨key, spelling, category, hid, hcat, -, -, -, heq⟩
  · rw [he] at hok
    cases hok
  · exact ⟨key, spelling, category, hid, hcat, by rw [heq], by rw [heq], by rw [heq],
      by rw [heq]⟩

/-- The rows found after a successful `updateCategory`. -/
theorem updateCategory_lookup (s : State) (key : CategoryId) (data : CategoryData) (r : Reply)
    (category c1 : Category)
    (hcat : findByPk s.categories key = some category)
    (hrows : r.state.categories = updateRow s.categories key (writeFields data c1))
    (j : CategoryId) :
    findByPk r.state.categories j
      = if j = key then some (writeFields data c1 category) else findByPk s.categories j := by
  rw [hrows, findByPk_updateRow s.categories key j (writeFields data c1) (fun _ h => h)]
  by_cases hj : j = key
  · subst hj
    rw [hcat, if_pos rfl]
    simp [findByPk_id hcat]
  · rw [if_neg hj]
    cases hrow : findByPk s.categories j with
    | none => rfl
    | some row =>
      have : ¬ row.id = key := fun h => hj ((findByPk_id hrow).symm.trans h)
      simp [this]

/-- An `updateCategory` that answers an error left the state as it was. -/
theorem updateCategory_error_state (slugify : String → String) (fuel : Nat) (s : State)
    (id : RequestId) (data : CategoryData) (r : Reply)
    (h : updateCategory slugify fuel s id data = some r) (hko : r.response.isSuccess = false) :
    r.state = s := by
  rcases updateCategory_cases slugify fuel s id data r h with
    ⟨e, he⟩ | ⟨key, spelling, category, -, -, -, -, -, heq⟩
  · rw [he]
  · rw [heq] at hko
    cases hko

/-! ## Re-parenting under the current parent -/

/-- Claim C17: for an existing category `x`, `updateCategory(x.id, { parentId: p })`
with `p` naming the current parent of `x` (or `null` when it has none), the
URL and `p` in any spelling, leaves the path and the level found under every
id as they were, whatever the reply; on a table without cycles the call
returns with fuel for one more hop than there are rows. -/
theorem C17_same_parent_keeps_path_level (slugify : String → String) (s : State)
    (key : CategoryId) (spelling : Nat) (x : Category) (parent : Option RequestId)
    (hx : findByPk s.categories key = some x)
    (hsame : parent.bind RequestId.value = x.parentId) :
    (∀ fuel r,
      updateCategory slugify fuel s (.uuid key spelling) { parentId := some parent } = some r →
      (findByPk r.state.categories key).map (fun c => (c.path, c.level, c.parentId))
        = some (x.path, x.level, x.parentId) ∧
      ∀ j, (findByPk r.state.categories j).map (fun c => (c.path, c.level))
        = (findByPk s.categories j).map (fun c => (c.path, c.level))) ∧
    (Acyclic s.categories →
      ∃ r, updateCategory slugify (s.categories.length + 1) s (.uuid key spelling)
        { parentId := some parent } = some r) := by
  constructor
  · intro fuel r hr
    cases hok : r.response.isSuccess with
    | false =>
      rw [updateCategory_error_state slugify fuel s _ _ r hr hok, hx]
      exact ⟨rfl, fun _ => rfl⟩
    | true =>
      obtain ⟨key1, spelling1, category, hid, hcat, -, hrows, -, -⟩ :=
        updateCategory_success slugify fuel s _ _ r hr hok
      cases hid
      have hcx : category = x := by
        rw [hx] at hcat
        exact (Option.some.inj hcat).symm
      subst hcx
      have hpar : (writeFields { parentId := some parent }
          (beforeValidate slugify (setValues category { parentId := some parent }))
          category).parentId = category.parentId := by
        simp only [writeFields, Option.isSome_some, if_true]
        rw [beforeValidate_parentId, setValues_parentId]
        exact hsame
      constructor
      · rw [updateCategory_lookup s key _ r category _ hcat hrows key, if_pos rfl]
        simp only [Option.map_some', Option.some.injEq, Prod.mk.injEq]
        exact ⟨rfl, rfl, hpar⟩
      · intro j
        rw [updateCategory_lookup s key _ r category _ hcat hrows j]
        by_cases hj : j = key
        · rw [if_pos hj, hj, hcat]
          rfl
        · rw [if_neg hj]
  · intro hac
    exact updateCategory_returns slugify _ s _ _
      (fun p => isDescendant_terminates s.categories ((acyclic_iff _).mp hac) p _)

/-- Witness of C17: "Storage" re-parented under "Components", its parent already. -/
theorem C17_same_parent_keeps_path_level_witness :
    ∃ r, updateCategory lowerAscii (storeSSD.categories.length + 1) storeSSD 2
      { parentId := some (some 1) } = some r :=
  (C17_same_parent_keeps_path_level lowerAscii storeSSD 2 0
    ⟨2, "Storage", "storage", some 1, some "/components/storage", 2, true, 0⟩ (some 1)
    (by decide) (by decide)).2 acyclic_storeSSD

/-- Claim C18 as stated fails: with a document cached under `category:2`,
re-parenting "Storage" under its current parent answers 200 and leaves the
empty string under that key. -/
theorem C18_same_parent_invalidates_counterexample :
    getAsync storeWarm.cache (.category 2)
      = some (.json (.category
          ⟨2, "Storage", "storage", some 1, some "/components/storage", 2, true, 0⟩)) ∧
    (updateCategory lowerAscii 4 storeWarm 2 { parentId := some (some 1) }).map
        (fun r => (r.response.isSuccess, getAsync r.state.cache (.category 2)))
      = some (true, some .empty) := by
  decide

/-- Claim C18, amended: for an existing category `x`,
`updateCategory(id, { parentId: p })` with `id` a spelling of the id of `x` and
`p` naming the current parent of `x` invalidates as every successful update
does. When it answers 200 the keys `category:<id>` (the id as the request
spells it), `category:slug:<slug>` and `categories:all` hold the empty string
and every other key holds the entry it held before, where `<slug>` is the slug
answered: the one the hook `beforeValidate` derives from the name of `x`, or
the stored slug of `x` when its name is empty. When it answers an error every
key holds the entry it held before. -/
theorem C18_same_parent_cache_effect (slugify : String → String) (fuel : Nat) (s : State)
    (key : CategoryId) (spelling : Nat) (x : Category) (parent : Option RequestId) (r : Reply)
    (hx : findByPk s.categories key = some x)
    (hsame : parent.bind RequestId.value = x.parentId)
    (hr : updateCategory slugify fuel s (.uuid key spelling) { parentId := some parent }
      = some r) :
    (r.response.isSuccess = true →
      ∃ c, r.response = .json 200 (.category c) ∧ c.id = key ∧ c.parentId = x.parentId ∧
        c.slug = (if x.name ≠ "" then slugify x.name else x.slug) ∧
        ∀ k, getAsync r.state.cache k
          = if k = .categoriesAll ∨ k = .category (.uuid key spelling) ∨
              k = .categorySlug (if x.name ≠ "" then slugify x.name else x.slug)
            then some .empty else getAsync s.cache k) ∧
    (r.response.isSuccess = false → ∀ k, getAsync r.state.cache k = getAsync s.cache k) := by
  constructor
  · intro hok
    obtain ⟨key1, spelling1, category, hid, hcat, hresp, -, -, hcache⟩ :=
      updateCategory_success slugify fuel s _ _ r hr hok
    cases hid
    have hcx : category = x := by
      rw [hx] at hcat
      exact (Option.some.inj hcat).symm
    subst hcx
    have hslug : (beforeValidate slugify (setValues category { parentId := some parent })).slug
        = (if category.name ≠ "" then slugify category.name else category.slug) := by
      unfold beforeValidate
      by_cases hn : category.name ≠ ""
      · have hn1 : (setValues category { parentId := some parent }).name ≠ "" := hn
        rw [if_pos hn1, if_pos hn]
        rfl
      · have hn1 : ¬ (setValues category { parentId := some parent }).name ≠ "" := hn
        rw [if_neg hn1, if_neg hn]
        rfl
    refine ⟨_, hresp, ?_, ?_, hslug, ?_⟩
    · rw [beforeValidate_id, setValues_id, findByPk_id hcat]
    · rw [beforeValidate_parentId, setValues_parentId]
      exact hsame
    · intro k
      rw [hcache, getAsync_invalidateCategory, hslug]
  · intro hko k
    rw [updateCategory_error_state slugify fuel s _ _ r hr hko]

/-- Witness of C18 on the warm cache: the key of "SSD" keeps its document. -/
theorem C18_same_parent_cache_effect_witness :
    ∃ r, updateCategory lowerAscii 4 storeWarm 2 { parentId := some (some 1) } = some r ∧
      (r.response.isSuccess = true →
        ∃ c, r.response = .json 200 (.category c) ∧ c.id = 2 ∧ c.parentId = some 1 ∧
          c.slug = "storage" ∧
          ∀ k, getAsync r.state.cache k
            = if k = .categoriesAll ∨ k = .category 2 ∨ k = .categorySlug "storage"
              then some .empty else getAsync storeWarm.cache k) :=
  ⟨_, rfl,
    (C18_same_parent_cache_effect lowerAscii 4 storeWarm 2 0
      ⟨2, "Storage", "storage", some 1, some "/components/storage", 2, true, 0⟩ (some 1) _
      (by decide) (by decide) rfl).1⟩

/-! ## Cache keys written by the mutations -/

/-- A rename onto the slug of another row is not checked: `category.update`
writes the name only, the stored slug stays, the answer is 200 with the slug
derived from the new name, and the entry under that slug is emptied. -/
theorem updateCategory_rename_onto_stored_slug :
    (updateCategory lowerAscii 4 storeWarm 2 { name := some "SSD" }).map
        (fun r => (r.response.isSuccess,
          (findByPk r.state.categories 2).map (fun c => (c.name, c.slug)),
          getAsync r.state.cache (.categorySlug "ssd")))
      = some (true, some ("SSD", "storage"), some .empty) := by
  decide

/-- Claim C19 as stated fails: renaming "SSD" to "Flash" answers 200; the
stored row keeps the slug `ssd`, the key `category:slug:flash` receives the
empty string and the document cached under `category:slug:ssd`, the slug of
the category before and after the call, is still a hit. -/
theorem C19_rename_slug_key_counterexample :
    (findByPk storeWarm.categories 3).map (fun c => c.slug) = some "ssd" ∧
    (updateCategory lowerAscii 4 storeWarm 3 { name := some "Flash" }).map
        (fun r => (r.response.isSuccess,
          (findByPk r.state.categories 3).map (fun c => c.slug),
          isCacheHit (getAsync r.state.cache (.categorySlug "ssd")),
          getAsync r.state.cache (.categorySlug "flash")))
      = some (true, some "ssd", true, some .empty) := by
  decide

/-- Claim C19, amended: the cache keys a successful mutation invalidates.
After a successful `createCategory` the key `categories:all` holds the empty
string and every other key holds what it held. After a successful
`updateCategory` of `id` the keys `category:<id>` (the id as the request
spells it), `category:slug:<slug>` and `categories:all` hold the empty string
and every other key holds what it held, where `<slug>` is the slug of the
category answered (the instance after the body's values are set and the hook
`beforeValidate` has run), not the slug of the stored row. After a successful
`deleteCategory` of `id` the same holds with the slug of the deleted row. The
empty string is not a hit for a reader. -/
theorem C19_invalidated_keys (slugify : String → String) (s : State) :
    (∀ uuid data, (createCategory slugify uuid s data).response.isSuccess = true →
      ∀ k, getAsync (createCategory slugify uuid s data).state.cache k
        = if k = .categoriesAll then some .empty else getAsync s.cache k) ∧
    (∀ fuel id data r, updateCategory slugify fuel s id data = some r →
      r.response.isSuccess = true →
      ∃ key spelling category, id = .uuid key spelling ∧
        findByPk s.categories key = some category ∧
        r.response = .json 200 (.category (beforeValidate slugify (setValues category data))) ∧
        ∀ k, getAsync r.state.cache k
          = if k = .categoriesAll ∨ k = .category id ∨
              k = .categorySlug (beforeValidate slugify (setValues category data)).slug
            then some .empty else getAsync s.cache k) ∧
    (∀ id, (deleteCategory s id).response.isSuccess = true →
      ∃ key spelling c, id = .uuid key spelling ∧ findByPk s.categories key = some c ∧
        ∀ k, getAsync (deleteCategory s id).state.cache k
          = if k = .categoriesAll ∨ k = .category id ∨ k = .categorySlug c.slug
            then some .empty else getAsync s.cache k) ∧
    isCacheHit (some .empty) = false := by
  refine ⟨?_, ?_, ?_, rfl⟩
  · intro uuid data hok k
    rcases createCategory_cases slugify uuid s data with ⟨e, he⟩ | ⟨-, -, -, -, -, -, heq⟩
    · rw [he] at hok
      cases hok
    · rw [heq]
      simp only []
      rw [getAsync_setAsync]
  · intro fuel id data r hr hok
    obtain ⟨key, spelling, category, hid, hcat, hresp, -, -, hcache⟩ :=
      updateCategory_success slugify fuel s id data r hr hok
    refine ⟨key, spelling, category, hid, hcat, hresp, fun k => ?_⟩
    rw [hcache, getAsync_invalidateCategory]
  · intro id hok
    obtain ⟨key, spelling, category, hid, hcat, -, hcache⟩ := deleteCategory_success s id hok
    refine ⟨key, spelling, category, hid, hcat, fun k => ?_⟩
    rw [hcache, getAsync_invalidateCategory]

/-- Claim C20 as stated fails: with documents cached under `category:3` and
`category:slug:ssd`, moving "Storage" (the parent of "SSD") to the root
answers 200 and changes its parent, and both keys of "SSD" still hold their
documents, which readers take as hits. -/
theorem C20_descendant_keys_counterexample :
    (updateCategory lowerAscii 4 storeWarm 2 { parentId := some none }).map
        (fun r => (r.response.isSuccess,
          (findByPk r.state.categories 2).map (fun c => c.parentId),
          (findByPk r.state.categories 3).map (fun c => c.parentId),
          isCacheHit (getAsync r.state.cache (.category 3)),
          isCacheHit (getAsync r.state.cache (.categorySlug "ssd"))))
      = some (true, some none, some (some 2), true, true) ∧
    (findByPk storeWarm.categories 2).map (fun c => c.parentId) = some (some 1) := by
  decide

/-- Claim C20, amended: a successful `updateCategory` of `id`, whether or not
it changes the parent, writes the cache keys `category:<id>`,
`category:slug:<slug answered>` and `categories:all` only: every other key
holds the entry it held before. So the entry `category:<d.id>` of every other
category `d`, in every spelling of its id, and the entry
`category:slug:<d.slug>` of every category `d` whose slug is not the slug
answered are left exactly as they were, the descendants of `id` included. -/
theorem C20_other_keys_untouched (slugify : String → String) (fuel : Nat) (s : State)
    (id : RequestId) (data : CategoryData) (r : Reply)
    (hr : updateCategory slugify fuel s id data = some r)
    (hok : r.response.isSuccess = true) :
    ∃ c, r.response = .json 200 (.category c) ∧
      (∀ k, k ≠ .categoriesAll → k ≠ .category id → k ≠ .categorySlug c.slug →
        getAsync r.state.cache k = getAsync s.cache k) ∧
      ∀ d ∈ s.categories,
        (id.value ≠ some d.id → ∀ spelling, getAsync r.state.cache (.category (.uuid d.id spelling))
          = getAsync s.cache (.category (.uuid d.id spelling))) ∧
        (d.slug ≠ c.slug →
          getAsync r.state.cache (.categorySlug d.slug)
            = getAsync s.cache (.categorySlug d.slug)) := by
  obtain ⟨key, spelling, category, hid, -, hresp, -, -, hcache⟩ :=
    updateCategory_success slugify fuel s id data r hr hok
  refine ⟨_, hresp, fun k h1 h2 h3 => ?_, fun d _ => ⟨fun hne sp => ?_, fun hslug => ?_⟩⟩
  · rw [hcache, getAsync_invalidateCategory]
    simp [h1, h2, h3]
  · rw [hcache, getAsync_invalidateCategory]
    have hk : ¬ (CacheKey.category (.uuid d.id sp) = .category id) := by
      intro h
      apply hne
      rw [← CacheKey.category.inj h]
      rfl
    simp [hk]
  · rw [hcache, getAsync_invalidateCategory]
    simp [hslug]

/-- Witness of C20 on the warm cache: the move of "Storage" to the root. -/
theorem C20_other_keys_untouched_witness :
    ∃ r, updateCategory lowerAscii 4 storeWarm 2 { parentId := some none } = some r ∧
      ∃ c, r.response = .json 200 (.category c) ∧
        (∀ k, k ≠ .categoriesAll → k ≠ .category 2 → k ≠ .categorySlug c.slug →
          getAsync r.state.cache k = getAsync storeWarm.cache k) ∧
        ∀ d ∈ storeWarm.categories,
          (RequestId.value 2 ≠ some d.id →
            ∀ spelling, getAsync r.state.cache (.category (.uuid d.id spelling))
              = getAsync storeWarm.cache (.category (.uuid d.id spelling))) ∧
          (d.slug ≠ c.slug →
            getAsync r.state.cache (.categorySlug d.slug)
              = getAsync storeWarm.cache (.categorySlug d.slug)) :=
  ⟨_, rfl, C20_other_keys_untouched lowerAscii 4 storeWarm 2 { parentId := some none } _ rfl
    (by decide)⟩

/-! ## The walk of `isDescendant`: answers and fuel -/

theorem isDescendantLoop_mono (cats : List Category) (a : RequestId) :
    ∀ (fuel : Nat) (x : Option Category) (b : Bool),
      isDescendantLoop cats a fuel x = some b →
      ∀ k, isDescendantLoop cats a (fuel + k) x = some b := by
  intro fuel
  induction fuel with
  | zero =>
    intro x b h
    simp [isDescendantLoop] at h
  | succ f ih =>
    intro x b h k
    have hk : f + 1 + k = (f + k) + 1 := by omega
    rw [hk]
    cases x with
    | none => simpa [isDescendantLoop] using h
    | some c =>
      cases hpar : c.parentId with
      | none => simpa [isDescendantLoop, hpar] using h
      | some p =>
        simp only [isDescendantLoop, hpar] at h ⊢
        by_cases hpa : RequestId.stored p = a
        · simpa [hpa] using h
        · rw [if_neg hpa] at h ⊢
          exact ih _ b h k

/-- An answer `true` comes from a chain of parent links up to `a`. -/
theorem isAncestor_of_isDescendantLoop (cats : List Category) (a : CategoryId) :
    ∀ (fuel : Nat) (d : CategoryId),
      isDescendantLoop cats (RequestId.stored a) fuel (findByPk cats d) = some true →
      IsAncestor cats a d := by
  intro fuel
  induction fuel with
  | zero =>
    intro d h
    simp [isDescendantLoop] at h
  | succ f ih =>
    intro d h
    cases hrow : findByPk cats d with
    | none => simp [hrow, isDescendantLoop] at h
    | some row =>
      rw [hrow] at h
      cases hpar : row.parentId with
      | none => simp [isDescendantLoop, hpar] at h
      | some p =>
        simp only [isDescendantLoop, hpar] at h
        have hparent : parentOf cats d = some p := by
          simp [parentOf, hrow, hpar]
        by_cases hpa : RequestId.stored p = RequestId.stored a
        · refine ⟨0, ?_⟩
          have hpa1 : p = a := by
            simpa [RequestId.stored] using hpa
          simp [ancestorAt, hparent, hpa1]
        · rw [if_neg hpa] at h
          obtain ⟨n, hn⟩ := ih p h
          refine ⟨n + 1, ?_⟩
          rw [ancestorAt, hparent]
          exact hn

/-- A walk that has not ended after `t` evaluations of the loop condition
stands at the id `t` parent links above its start and goes on from there. -/
theorem isDescendantLoop_unroll (cats : List Category) (a : RequestId) :
    ∀ (t : Nat) (c : CategoryId), isDescendantLoop cats a t (findByPk cats c) = none →
      ∃ b, ancestorAt cats t c = some b ∧
        ∀ g, isDescendantLoop cats a (t + g) (findByPk cats c)
          = isDescendantLoop cats a g (findByPk cats b) := by
  intro t
  induction t with
  | zero =>
    intro c _
    refine ⟨c, rfl, fun g => ?_⟩
    rw [Nat.zero_add]
  | succ t ih =>
    intro c h
    cases hrow : findByPk cats c with
    | none => simp [hrow, isDescendantLoop] at h
    | some row =>
      rw [hrow] at h
      cases hpar : row.parentId with
      | none => simp [isDescendantLoop, hpar] at h
      | some p =>
        simp only [isDescendantLoop, hpar] at h
        by_cases hpa : RequestId.stored p = a
        · simp [hpa] at h
        · rw [if_neg hpa] at h
          obtain ⟨b, hb, hg⟩ := ih p h
          refine ⟨b, ?_, fun g => ?_⟩
          · simp only [ancestorAt, parentOf, hrow, Option.some_bind, hpar]
            exact hb
          · have hk : t + 1 + g = (t + g) + 1 := by omega
            rw [hk]
            simp only [isDescendantLoop, hpar, if_neg hpa]
            exact hg g

theorem isDescendantLoop_none_of_le (cats : List Category) (a : RequestId) (fuel t : Nat)
    (x : Option Category) (h : isDescendantLoop cats a fuel x = none) (ht : t ≤ fuel) :
    isDescendantLoop cats a t x = none := by
  cases hx : isDescendantLoop cats a t x with
  | none => rfl
  | some b =>
    have := isDescendantLoop_mono cats a t x b hx (fuel - t)
    rw [Nat.add_sub_cancel' ht, h] at this
    cases this

/-- Among the first `length + 1` ids of a chain whose ids all resolve, two are equal. -/
theorem chain_repeat (cats : List Category) (c : CategoryId)
    (hchain : ∀ j, j ≤ cats.length →
      ∃ b, ancestorAt cats j c = some b ∧ (findByPk cats b).isSome = true) :
    ∃ i j, i < j ∧ j ≤ cats.length ∧ ancestorAt cats i c = ancestorAt cats j c := by
  have hcard : ((cats.map (fun r => r.id)).toFinset).card
      < (Finset.range (cats.length + 1)).card := by
    have := List.toFinset_card_le (cats.map (fun r => r.id))
    simp only [List.length_map] at this
    simp only [Finset.card_range]
    omega
  have hmaps : ∀ j ∈ Finset.range (cats.length + 1),
      (ancestorAt cats j c).getD 0 ∈ (cats.map (fun r => r.id)).toFinset := by
    intro j hj
    obtain ⟨b, hb, hsome⟩ := hchain j (by simpa [Nat.lt_succ_iff] using hj)
    obtain ⟨row, hrow⟩ := Option.isSome_iff_exists.mp hsome
    rw [hb]
    simp only [Option.getD_some, List.mem_toFinset, List.mem_map]
    exact ⟨row, findByPk_mem hrow, findByPk_id hrow⟩
  obtain ⟨x, hx, y, hy, hxy, hfxy⟩ :=
    Finset.exists_ne_map_eq_of_card_lt_of_maps_to hcard hmaps
  have hx1 : x ≤ cats.length := by simpa [Nat.lt_succ_iff] using hx
  have hy1 : y ≤ cats.length := by simpa [Nat.lt_succ_iff] using hy
  have key : ∀ u v, u ≤ cats.length → v ≤ cats.length →
      (ancestorAt cats u c).getD 0 = (ancestorAt cats v c).getD 0 →
      ancestorAt cats u c = ancestorAt cats v c := by
    intro u v hu hv hf
    obtain ⟨b, hb, -⟩ := hchain u hu
    obtain ⟨b1, hb1, -⟩ := hchain v hv
    rw [hb, hb1] at hf ⊢
    simp only [Option.getD_some] at hf
    rw [hf]
  rcases Nat.lt_or_gt_of_ne hxy with hlt | hgt
  · exact ⟨x, y, hlt, hy1, key x y hx1 hy1 hfxy⟩
  · exact ⟨y, x, hgt, hx1, key y x hy1 hx1 hfxy.symm⟩

/-- A walk that returns at all returns the same answer within `length + 1`
evaluations of the loop condition. -/
theorem isDescendantLoop_bounded (cats : List Category) (a : RequestId) (c : CategoryId) :
    ∀ (fuel : Nat) (b : Bool), isDescendantLoop cats a fuel (findByPk cats c) = some b →
      isDescendantLoop cats a (cats.length + 1) (findByPk cats c) = some b := by
  intro fuel
  induction fuel using Nat.strong_induction_on with
  | _ fuel ih =>
    intro b hb
    by_cases hle : fuel ≤ cats.length + 1
    · have := isDescendantLoop_mono cats a fuel _ b hb (cats.length + 1 - fuel)
      rwa [Nat.add_sub_cancel' hle] at this
    · cases hL : isDescendantLoop cats a (cats.length + 1) (findByPk cats c) with
      | some b1 =>
        have := isDescendantLoop_mono cats a (cats.length + 1) _ b1 hL
          (fuel - (cats.length + 1))
        rw [Nat.add_sub_cancel' (by omega), hb] at this
        rw [this]
      | none =>
        exfalso
        obtain ⟨i, j, hij, hj, heq⟩ :=
          chain_repeat cats c (isDescendantLoop_fuel_out cats a cats.length c hL)
        obtain ⟨b1, hb1, hg1⟩ := isDescendantLoop_unroll cats a i c
          (isDescendantLoop_none_of_le cats a _ i _ hL (by omega))
        obtain ⟨b2, hb2, hg2⟩ := isDescendantLoop_unroll cats a j c
          (isDescendantLoop_none_of_le cats a _ j _ hL (by omega))
        have hbb : b1 = b2 := by
          rw [hb1, hb2] at heq
          exact Option.some.inj heq
        subst hbb
        have hshort : isDescendantLoop cats a (i + (fuel - j)) (findByPk cats c) = some b := by
          rw [hg1, ← hg2, Nat.add_sub_cancel' (by omega)]
          exact hb
        have := ih (i + (fuel - j)) (by omega) b hshort
        rw [hL] at this
        cases this


/-- With the ancestor named in the stored spelling, on a table where no
category is its own ancestor, `isDescendant(categoryId, ancestorId)` returns
for every fuel above the number of rows, and its answer is `true` exactly when
`ancestorId` is a strict ancestor of `categoryId`; it is `false` otherwise, in
particular when `categoryId` resolves to no row. -/
theorem isDescendant_correct_stored (cats : List Category) (hac : Acyclic cats)
    (categoryId ancestorId : CategoryId) (fuel : Nat) (hfuel : cats.length < fuel) :
    ∃ b, isDescendant fuel cats categoryId (RequestId.stored ancestorId) = some b ∧
      (b = true ↔ IsAncestor cats ancestorId categoryId) ∧
      (findByPk cats categoryId = none → b = false) := by
  have hterm := isDescendant_terminates cats ((acyclic_iff _).mp hac) categoryId
    (RequestId.stored ancestorId)
  cases hb : isDescendant (cats.length + 1) cats categoryId (RequestId.stored ancestorId) with
  | none => exact absurd hb hterm
  | some b =>
    have hfuelb : isDescendant fuel cats categoryId (RequestId.stored ancestorId) = some b := by
      have := isDescendantLoop_mono cats (RequestId.stored ancestorId) (cats.length + 1) _ b hb
        (fuel - (cats.length + 1))
      rwa [Nat.add_sub_cancel' (by omega)] at this
    have hiff : b = true ↔ IsAncestor cats ancestorId categoryId := by
      constructor
      · intro hbt
        rw [hbt] at hb
        exact isAncestor_of_isDescendantLoop cats ancestorId _ categoryId hb
      · rintro ⟨n, hn⟩
        cases b with
        | true => rfl
        | false =>
          exact absurd hb
            (isDescendantLoop_ne_false_of_ancestorAt cats ancestorId n categoryId hn _)
    refine ⟨b, hfuelb, hiff, ?_⟩
    intro hmiss
    cases b with
    | false => rfl
    | true =>
      obtain ⟨n, hn⟩ := hiff.mp rfl
      obtain ⟨p, hp, -⟩ := ancestorAt_succ_eq_some hn
      obtain ⟨row, hrow, -⟩ := parentOf_eq_some hp
      rw [hmiss] at hrow
      cases hrow

/-- Claim C11 fails on the code, by the defect of C7 (ids compared as texts):
on the table of "Components" and its child "Storage", which has no cycle,
"Components" is a strict ancestor of "Storage", and
`isDescendant(<id of "Storage">, <id of "Components" in upper case>)`, the call
`updateCategory` makes for `PUT /categories/<id of "Components" in upper case>`
with the body `{ parentId: <id of "Storage"> }`, returns `false`, and never
`true` whatever the fuel; with the stored spelling it returns `true`. -/
theorem C11_ancestor_missed_in_other_spelling :
    Acyclic storeStorage.categories ∧ IsAncestor storeStorage.categories 1 2 ∧
    isDescendant 3 storeStorage.categories 2 (.uuid 1 1) = some false ∧
    (∀ fuel, isDescendant fuel storeStorage.categories 2 (.uuid 1 1) ≠ some true) ∧
    isDescendant 3 storeStorage.categories 2 (RequestId.stored 1) = some true := by
  refine ⟨acyclic_storeStorage, ⟨0, by decide⟩, by decide, ?_, by decide⟩
  intro fuel
  exact isDescendantLoop_other_spelling storeStorage.categories (.uuid 1 1)
    (fun p h => by simp [RequestId.stored] at h) fuel _

/-- Claim C12 as stated fails: on the corrupted table where rows 1 and 2 name
each other as parent, `isDescendant(1, 3)` has not returned after any number
of evaluations of its loop condition; the table has two rows. -/
theorem C12_walk_endless_counterexample :
    (∀ fuel, isDescendant fuel storeCyclic.categories 1 3 = none) ∧
    storeCyclic.categories.length = 2 := by
  refine ⟨?_, rfl⟩
  have hboth : ∀ fuel,
      isDescendantLoop storeCyclic.categories 3 fuel (findByPk storeCyclic.categories 1) = none ∧
      isDescendantLoop storeCyclic.categories 3 fuel (findByPk storeCyclic.categories 2) = none := by
    intro fuel
    induction fuel with
    | zero => exact ⟨rfl, rfl⟩
    | succ f ih =>
      have h1 : findByPk storeCyclic.categories 1
          = some ⟨1, "Components", "components", some 2, some "/components", 1, true, 0⟩ := by
        decide
      have h2 : findByPk storeCyclic.categories 2
          = some ⟨2, "Storage", "storage", some 1, some "/components/storage", 2, true, 0⟩ := by
        decide
      constructor
      · rw [h1]
        simp only [isDescendantLoop]
        rw [if_neg (by decide)]
        exact ih.2
      · rw [h2]
        simp only [isDescendantLoop]
        rw [if_neg (by decide)]
        exact ih.1
  exact fun fuel => (hboth fuel).1

/-- Claim C12, amended: the walk of `isDescendant` returns within one more
evaluation of its loop condition than there are rows whenever it returns at
all, whatever text names the ancestor. It returns on every table without a
cycle, and with `true` on any table when `ancestorId` names, in the stored
spelling, a strict ancestor of `categoryId`; when it has not returned within
that bound it never returns, and no answer is reported. -/
theorem C12_walk_bounded_or_endless (cats : List Category) (categoryId : CategoryId)
    (ancestorId : RequestId) :
    (∀ fuel b, isDescendant fuel cats categoryId ancestorId = some b →
      isDescendant (cats.length + 1) cats categoryId ancestorId = some b) ∧
    (isDescendant (cats.length + 1) cats categoryId ancestorId = none →
      ∀ fuel, isDescendant fuel cats categoryId ancestorId = none) ∧
    (Acyclic cats → ∃ b, isDescendant (cats.length + 1) cats categoryId ancestorId = some b) ∧
    (∀ a, ancestorId = RequestId.stored a → IsAncestor cats a categoryId →
      isDescendant (cats.length + 1) cats categoryId ancestorId = some true) := by
  refine ⟨fun fuel b h => isDescendantLoop_bounded cats ancestorId categoryId fuel b h, ?_, ?_, ?_⟩
  · intro hnone fuel
    cases hf : isDescendant fuel cats categoryId ancestorId with
    | none => rfl
    | some b =>
      have := isDescendantLoop_bounded cats ancestorId categoryId fuel b hf
      unfold isDescendant at hnone
      rw [hnone] at this
      cases this
  · intro hac
    have hterm := isDescendant_terminates cats ((acyclic_iff _).mp hac) categoryId ancestorId
    cases hb : isDescendant (cats.length + 1) cats categoryId ancestorId with
    | none => exact absurd hb hterm
    | some b => exact ⟨b, rfl⟩
  · rintro a rfl ⟨n, hn⟩
    exact isDescendantLoop_bounded cats (RequestId.stored a) categoryId (n + 1) true
      (isDescendantLoop_of_ancestorAt cats a n categoryId hn (n + 1) (by omega))

/-! ## Updates, the cache and the materialised fields -/

/-- Claim C24: the guard of `updateCategory` never consults the cache. On the
same tables and with the same id and body, two cache states give the same
reply (the same success or the same error) and leave the same tables, and the
call returns for the one exactly when it returns for the other. -/
theorem C24_guard_ignores_cache (slugify : String → String) (fuel : Nat) (s : State)
    (cache1 cache2 : List CacheEntry) (id : RequestId) (data : CategoryData) :
    (updateCategory slugify fuel { s with cache := cache1 } id data).map
        (fun r => (r.response, r.state.categories, r.state.products))
      = (updateCategory slugify fuel { s with cache := cache2 } id data).map
        (fun r => (r.response, r.state.categories, r.state.products)) := by
  unfold updateCategory
  cases id with
  | malformed text => rfl
  | uuid key spelling =>
    simp only []
    cases findByPk s.categories key with
    | none => rfl
    | some category =>
      simp only []
      by_cases hself : data.parentId = some (some (.uuid key spelling))
      · rw [if_pos hself, if_pos hself]
        rfl
      · rw [if_neg hself, if_neg hself]
        have hrest : ∀ c : List CacheEntry,
            (match Category.update slugify s.categories category data with
              | none => some (fail { s with cache := c } "Failed to update category" .ServerError)
              | some (cats1, category1) =>
                match recomputePaths fuel cats1 category1 (parentIdText category data) data with
                | none => none
                | some (.error cats2) =>
                  some (fail { s with cache := c, categories := cats2 }
                    "Failed to update category" .ServerError)
                | some (.ok (cats2, category2)) =>
                  some ⟨.json 200 (.category category2),
                    { s with categories := cats2,
                             cache := invalidateCategory c (.uuid key spelling)
                               category2.slug }⟩ : Option Reply).map
              (fun r => (r.response, r.state.categories, r.state.products))
            = (match Category.update slugify s.categories category data with
              | none => some (Response.error ⟨"Failed to update category", .ServerError⟩,
                  s.categories, s.products)
              | some (cats1, category1) =>
                match recomputePaths fuel cats1 category1 (parentIdText category data) data with
                | none => none
                | some (.error cats2) =>
                  some (Response.error ⟨"Failed to update category", .ServerError⟩, cats2,
                    s.products)
                | some (.ok (cats2, category2)) =>
                  some (Response.json 200 (.category category2), cats2, s.products)) := by
          intro c
          cases Category.update slugify s.categories category data with
          | none => rfl
          | some res =>
            obtain ⟨cats1, category1⟩ := res
            simp only []
            cases recomputePaths fuel cats1 category1 (parentIdText category data) data with
            | none => rfl
            | some out =>
              cases out with
              | error cats2 => rfl
              | ok pair => rfl
        cases data.parentId.join with
        | none =>
          simp only []
          rw [hrest cache1, hrest cache2]
        | some p =>
          cases p with
          | malformed text =>
            simp only []
            by_cases ht : text = ""
            · simp only [if_pos ht]
              rw [hrest cache1, hrest cache2]
            · simp only [if_neg ht]
              rfl
          | uuid parentKey parentSpelling =>
            simp only []
            cases findByPk s.categories parentKey with
            | none => rfl
            | some parent =>
              simp only []
              cases isDescendant fuel s.categories parentKey (.uuid key spelling) with
              | none => rfl
              | some d =>
                cases d with
                | true => rfl
                | false =>
                  simp only [Option.map_some', Bool.false_eq_true, if_false]
                  rw [hrest cache1, hrest cache2]

/-- Claim C28: a successful `updateCategory` whose body carries neither `path`
nor `level` leaves the path and the level found under every id exactly as they
were, whatever `parentId` or `name` the body carries. -/
theorem C28_update_keeps_path_level (slugify : String → String) (fuel : Nat) (s : State)
    (id : RequestId) (data : CategoryData) (r : Reply)
    (hpath : data.path = none) (hlevel : data.level = none)
    (hr : updateCategory slugify fuel s id data = some r)
    (hok : r.response.isSuccess = true) :
    ∀ j, (findByPk r.state.categories j).map (fun c => (c.path, c.level))
      = (findByPk s.categories j).map (fun c => (c.path, c.level)) := by
  intro j
  obtain ⟨key, spelling, category, -, hcat, -, hrows, -, -⟩ :=
    updateCategory_success slugify fuel s id data r hr hok
  rw [updateCategory_lookup s key data r category _ hcat hrows j]
  by_cases hj : j = key
  · rw [if_pos hj, hj, hcat]
    simp [writeFields, hpath, hlevel]
  · rw [if_neg hj]

/-- Witness of C28: the move of "Storage" to the root changes no path and no level. -/
theorem C28_update_keeps_path_level_witness :
    ∃ r, storageMovedToRoot = some r ∧
      ∀ j, (findByPk r.state.categories j).map (fun c => (c.path, c.level))
        = (findByPk storeSSD.categories j).map (fun c => (c.path, c.level)) :=
  ⟨_, rfl, C28_update_keeps_path_level lowerAscii 4 storeSSD 2 { parentId := some none } _
    rfl rfl rfl (by decide)⟩

/-! ## The read handlers -/

/-- Claim C30 fails on the code: in production, once an unfiltered request
has filled `categories:all` with the listing of all three categories, the
request with `parentId=root` is answered with that listing, "Storage" and
"SSD" included, although neither is a root; outside production the same
request is answered with "Components" alone. -/
theorem C30_cached_listing_ignores_filters :
    (getAllCategories true storeListed { parentId := .root }).response
      = .json 200 (.categories
          [⟨1, "Components", "components", none, some "/components", 1, true, 0⟩,
           ⟨2, "Storage", "storage", some 1, some "/components/storage", 2, true, 0⟩,
           ⟨3, "SSD", "ssd", some 2, some "/components/storage/ssd", 3, true, 0⟩]) ∧
    (getAllCategories false storeListed { parentId := .root }).response
      = .json 200 (.categories
          [⟨1, "Components", "components", none, some "/components", 1, true, 0⟩]) := by
  decide

/-! ## Guard and commit -/

/-- The handler `updateCategory` is its guard followed by its commit on the same state. -/
theorem updateCategory_eq_guard_commit (slugify : String → String) (fuel : Nat) (s : State)
    (id : RequestId) (data : CategoryData) :
    updateCategory slugify fuel s id data
      = (updateGuard fuel s.categories id data).bind (afterGuard slugify fuel s id data) := by
  unfold updateCategory updateGuard
  cases id with
  | malformed text => rfl
  | uuid key spelling =>
    simp only []
    cases findByPk s.categories key with
    | none => rfl
    | some category =>
      simp only []
      by_cases hself : data.parentId = some (some (.uuid key spelling))
      · rw [if_pos hself, if_pos hself]
        rfl
      · rw [if_neg hself, if_neg hself]
        cases data.parentId.join with
        | none => rfl
        | some p =>
          cases p with
          | malformed text =>
            simp only []
            by_cases ht : text = ""
            · simp only [if_pos ht]
              rfl
            · simp only [if_neg ht]
              rfl
          | uuid parentKey parentSpelling =>
            simp only []
            cases findByPk s.categories parentKey with
            | none => rfl
            | some parent =>
              simp only []
              cases isDescendant fuel s.categories parentKey (.uuid key spelling) with
              | none => rfl
              | some d => cases d <;> rfl

theorem updateCategory_length (slugify : String → String) (fuel : Nat) (s : State)
    (id : RequestId) (data : CategoryData) (r : Reply)
    (h : updateCategory slugify fuel s id data = some r) :
    r.state.categories.length = s.categories.length := by
  rcases updateCategory_cases slugify fuel s id data r h with
    ⟨e, he⟩ | ⟨key, spelling, category, -, -, -, -, -, heq⟩
  · rw [he]
  · rw [heq]
    simp [updateRow]

/-- Claim C26 as stated fails: on the acyclic, path-consistent table of the
two roots "Components" (1) and "Storage" (2), moving 1 under 2 while 2 is moved
under 1, both guards running before either commit, ends in a table where 1 is
its own ancestor. -/
theorem C26_interleaved_moves_counterexample :
    Acyclic storeTwoRoots.categories ∧ PathConsistent storeTwoRoots.categories ∧
    ∃ s, updateGuardsFirst lowerAscii 3 storeTwoRoots 1 { parentId := some (some 2) } 2
        { parentId := some (some 1) } = some s ∧
      (findByPk s.categories 1).map (fun c => c.parentId) = some (some 2) ∧
      (findByPk s.categories 2).map (fun c => c.parentId) = some (some 1) ∧
      ¬ Acyclic s.categories := by
  refine ⟨?_, ?_, ?_⟩
  · have h0 : Acyclic State.initial.categories := by
      intro c hc
      simp [State.initial] at hc
    exact acyclic_create lowerAscii 2 _ _ (acyclic_create lowerAscii 1 State.initial _ h0
      (by decide)) (by decide)
  · unfold PathConsistent
    decide
  · obtain ⟨s, hs⟩ : ∃ s, updateGuardsFirst lowerAscii 3 storeTwoRoots 1
        { parentId := some (some 2) } 2 { parentId := some (some 1) } = some s := ⟨_, rfl⟩
    have hrows : s.categories
        = [⟨1, "Components", "components", some 2, some "/components", 1, true, 0⟩,
           ⟨2, "Storage", "storage", some 1, some "/storage", 1, true, 0⟩] := by
      have : (updateGuardsFirst lowerAscii 3 storeTwoRoots 1 { parentId := some (some 2) } 2
          { parentId := some (some 1) }).map (fun s => s.categories)
          = some [⟨1, "Components", "components", some 2, some "/components", 1, true, 0⟩,
              ⟨2, "Storage", "storage", some 1, some "/storage", 1, true, 0⟩] := by
        decide
      rw [hs] at this
      exact Option.some.inj this
    refine ⟨s, hs, ?_, ?_, ?_⟩
    · rw [hrows]
      decide
    · rw [hrows]
      decide
    · rw [hrows]
      intro h
      exact h _ (List.mem_cons_self _ _) ⟨1, by decide⟩

/-- Claim C26, amended: two `updateCategory` calls run one after the other,
the guard of the second reading the table left by the first, each naming its
category in the URL and its new parent in the body in the spelling the table
returns, return on an acyclic table with fuel for one more hop than there are
rows and leave an acyclic table. -/
theorem C26_serial_moves_acyclic (slugify : String → String) (s : State)
    (hac : Acyclic s.categories)
    (key1 : CategoryId) (data1 : CategoryData) (key2 : CategoryId) (data2 : CategoryData)
    (hdata1 : storedSpelling data1) (hdata2 : storedSpelling data2) :
    ∃ s2, updateSerial slugify (s.categories.length + 1) s (RequestId.stored key1) data1
        (RequestId.stored key2) data2 = some s2 ∧
      Acyclic s2.categories := by
  have hsp : ∀ (data : CategoryData), storedSpelling data → ∀ (key : CategoryId) (spelling : Nat),
      data.parentId = some (some (.uuid key spelling)) → spelling = 0 := by
    intro data hdata key spelling hreq
    obtain ⟨k, hk⟩ := hdata _ hreq
    unfold RequestId.stored at hk
    cases hk
    rfl
  obtain ⟨r1, hr1⟩ := updateCategory_returns slugify (s.categories.length + 1) s
    (RequestId.stored key1) data1
    (fun p => isDescendant_terminates s.categories ((acyclic_iff _).mp hac) p _)
  have hac1 := acyclic_update slugify _ s key1 data1 r1 hac (hsp data1 hdata1 key1) hr1
  have hlen := updateCategory_length slugify _ s _ data1 r1 hr1
  obtain ⟨r2, hr2⟩ := updateCategory_returns slugify (r1.state.categories.length + 1) r1.state
    (RequestId.stored key2) data2
    (fun p => isDescendant_terminates r1.state.categories ((acyclic_iff _).mp hac1) p _)
  rw [hlen] at hr2
  refine ⟨r2.state, ?_, acyclic_update slugify _ r1.state key2 data2 r2 hac1
    (hsp data2 hdata2 key2) hr2⟩
  unfold updateSerial
  rw [hr1]
  simp only [Option.some_bind, hr2, Option.map_some']

/-- Witness of C26 on the two roots: the two moves one after the other; the
second is refused by the guard. -/
theorem C26_serial_moves_acyclic_witness :
    ∃ s2, updateSerial lowerAscii (storeTwoRoots.categories.length + 1) storeTwoRoots
        (RequestId.stored 1) { parentId := some (some 2) }
        (RequestId.stored 2) { parentId := some (some 1) } = some s2 ∧
      Acyclic s2.categories :=
  C26_serial_moves_acyclic lowerAscii storeTwoRoots
    (acyclic_create lowerAscii 2 _ _
      (acyclic_create lowerAscii 1 State.initial _
        (fun c hc => by simp [State.initial] at hc) (by decide))
      (by decide))
    1 { parentId := some (some 2) } 2 { parentId := some (some 1) }
    (fun p h => ⟨2, by cases h; rfl⟩) (fun p h => ⟨1, by cases h; rfl⟩)

/-! ## Cache writes that fail -/

theorem invalidateCategoryOrThrow_never (cache : List CacheEntry) (id : RequestId)
    (slug : String) :
    invalidateCategoryOrThrow (fun _ => false) cache id slug
      = .ok (invalidateCategory cache id slug) := rfl

/-- With a cache that never throws the handlers are the handlers of the first part. -/
theorem orThrow_never (slugify : String → String) (s : State) :
    (∀ uuid data, createCategoryOrThrow (fun _ => false) slugify uuid s data
      = createCategory slugify uuid s data) ∧
    (∀ fuel id data, updateCategoryOrThrow (fun _ => false) slugify fuel s id data
      = updateCategory slugify fuel s id data) ∧
    (∀ id, deleteCategoryOrThrow (fun _ => false) s id = deleteCategory s id) := by
  refine ⟨?_, ?_, ?_⟩
  · intro uuid data
    unfold createCategoryOrThrow createCategory
    simp only []
    split
    · rfl
    · cases Category.create slugify uuid s.categories data with
      | none => rfl
      | some res => rfl
  · intro fuel id data
    rw [updateCategory_eq_guard_commit]
    unfold updateCategoryOrThrow
    cases updateGuard fuel s.categories id data with
    | none => rfl
    | some verdict =>
      cases verdict with
      | error e => rfl
      | ok category =>
        simp only [Option.some_bind, afterGuard]
        unfold updateCommitOrThrow updateCommit
        cases Category.update slugify s.categories category data with
        | none => rfl
        | some res =>
          obtain ⟨cats1, category1⟩ := res
          simp only []
          cases recomputePaths fuel cats1 category1 (parentIdText category data) data with
          | none => rfl
          | some out =>
            cases out with
            | error cats2 => rfl
            | ok pair => rfl
  · intro id
    unfold deleteCategoryOrThrow deleteCategory
    cases id with
    | malformed text => rfl
    | uuid key spelling =>
      simp only []
      cases findByPk s.categories key with
      | none => rfl
      | some category =>
        simp only []
        split
        · rfl
        · split
          · rfl
          · rfl

theorem invalidateCategoryOrThrow_throws (throws : CacheKey → Bool) (cache : List CacheEntry)
    (id : RequestId) (slug : String)
    (h : throws (.category id) = true ∨ throws (.categorySlug slug) = true ∨
      throws .categoriesAll = true) :
    ∃ cache1, invalidateCategoryOrThrow throws cache id slug = .error cache1 := by
  unfold invalidateCategoryOrThrow setAsyncOrThrow
  by_cases h1 : throws (.category id) = true
  · exact ⟨cache, by simp [h1]⟩
  · by_cases h2 : throws (.categorySlug slug) = true
    · exact ⟨setAsync cache (.category id) .empty 1, by simp [h1, h2]⟩
    · have h3 : throws .categoriesAll = true := by
        rcases h with h | h | h
        · exact absurd h h1
        · exact absurd h h2
        · exact h
      exact ⟨setAsync (setAsync cache (.category id) .empty 1) (.categorySlug slug) .empty 1,
        by simp [h1, h2, h3]⟩

/-- Claim C22 as stated fails: with cache writes that throw, `createCategory`
stores "Components" and reports `ServerError`; `updateCategory` stores the
move of "Storage" to the root and reports `ServerError`; `deleteCategory`
removes "SSD" and reports `ServerError`. -/
theorem C22_cache_failure_counterexample :
    createCategoryOrThrow (fun _ => true) lowerAscii 1 State.initial
        { name := some "Components" }
      = ⟨.error ⟨"Failed to create category", .ServerError⟩,
          ⟨[⟨1, "Components", "components", none, some "/components", 1, true, 0⟩], [], []⟩⟩ ∧
    (updateCategoryOrThrow (fun _ => true) lowerAscii 4 storeSSD 2 { parentId := some none }).map
        (fun r => (r.response, (findByPk r.state.categories 2).map (fun c => c.parentId)))
      = some (.error ⟨"Failed to update category", .ServerError⟩, some none) ∧
    (deleteCategoryOrThrow (fun _ => true) storeSSD 3).response
      = .error ⟨"Failed to delete category", .ServerError⟩ ∧
    findByPk (deleteCategoryOrThrow (fun _ => true) storeSSD 3).state.categories 3 = none := by
  decide

/-- Claim C22, amended: a cache failure is surfaced to the caller. Whenever
the handler would succeed with a cache that accepts every write, and one of
the writes it performs to invalidate throws, the handler reports `ServerError`
while the tables hold the change it committed. -/
theorem C22_cache_failure_reported (throws : CacheKey → Bool) (slugify : String → String)
    (s : State) :
    (∀ uuid data, (createCategory slugify uuid s data).response.isSuccess = true →
      throws .categoriesAll = true →
      (createCategoryOrThrow throws slugify uuid s data).response
          = .error ⟨"Failed to create category", .ServerError⟩ ∧
        (createCategoryOrThrow throws slugify uuid s data).state.categories
          = (createCategory slugify uuid s data).state.categories) ∧
    (∀ fuel id data r c, updateCategory slugify fuel s id data = some r →
      r.response = .json 200 (.category c) →
      (throws (.category id) = true ∨ throws (.categorySlug c.slug) = true ∨
        throws .categoriesAll = true) →
      ∃ r1, updateCategoryOrThrow throws slugify fuel s id data = some r1 ∧
        r1.response = .error ⟨"Failed to update category", .ServerError⟩ ∧
        r1.state.categories = r.state.categories) ∧
    (∀ key spelling c, (deleteCategory s (.uuid key spelling)).response.isSuccess = true →
      findByPk s.categories key = some c →
      (throws (.category (.uuid key spelling)) = true ∨ throws (.categorySlug c.slug) = true ∨
        throws .categoriesAll = true) →
      (deleteCategoryOrThrow throws s (.uuid key spelling)).response
          = .error ⟨"Failed to delete category", .ServerError⟩ ∧
        (deleteCategoryOrThrow throws s (.uuid key spelling)).state.categories
          = (deleteCategory s (.uuid key spelling)).state.categories) := by
  refine ⟨?_, ?_, ?_⟩
  · intro uuid data hok hthrow
    unfold createCategoryOrThrow
    unfold createCategory at hok ⊢
    simp only [] at hok ⊢
    split at hok
    · cases hok
    · cases hcreate : Category.create slugify uuid s.categories data with
      | none =>
        rw [hcreate] at hok
        cases hok
      | some res =>
        obtain ⟨cats, category⟩ := res
        simp only [setAsyncOrThrow, hthrow, if_true]
        exact ⟨rfl, rfl⟩
  · intro fuel id data r c hr hresp hthrow
    rw [updateCategory_eq_guard_commit] at hr
    unfold updateCategoryOrThrow
    cases hg : updateGuard fuel s.categories id data with
    | none =>
      rw [hg] at hr
      cases hr
    | some verdict =>
      rw [hg] at hr
      cases verdict with
      | error e =>
        simp only [Option.some_bind, afterGuard, Option.some.injEq] at hr
        rw [← hr] at hresp
        cases hresp
      | ok category =>
        simp only [Option.some_bind, afterGuard] at hr ⊢
        unfold updateCommit at hr
        unfold updateCommitOrThrow
        cases hu : Category.update slugify s.categories category data with
        | none =>
          rw [hu] at hr
          simp only [Option.some.injEq] at hr
          rw [← hr] at hresp
          cases hresp
        | some res =>
          obtain ⟨cats1, category1⟩ := res
          rw [hu] at hr
          simp only [] at hr ⊢
          cases hrec : recomputePaths fuel cats1 category1 (parentIdText category data) data with
          | none =>
            rw [hrec] at hr
            cases hr
          | some out =>
            rw [hrec] at hr
            cases out with
            | error cats2 =>
              simp only [Option.some.injEq] at hr
              rw [← hr] at hresp
              cases hresp
            | ok pair =>
              obtain ⟨cats2, category2⟩ := pair
              simp only [Option.some.injEq] at hr
              have hc : category2 = c := by
                rw [← hr] at hresp
                simp only [Response.json.injEq, Payload.category.injEq, true_and] at hresp
                exact hresp
              subst hc
              obtain ⟨cache1, hcache⟩ :=
                invalidateCategoryOrThrow_throws throws s.cache id category2.slug hthrow
              simp only [hcache]
              refine ⟨_, rfl, rfl, ?_⟩
              rw [← hr]
              rfl
  · intro key spelling c hok hrow hthrow
    unfold deleteCategoryOrThrow
    unfold deleteCategory at hok ⊢
    simp only [] at hok ⊢
    rw [hrow] at hok ⊢
    simp only [] at hok ⊢
    by_cases hsub : countByParent s.categories key > 0
    · rw [if_pos hsub] at hok
      cases hok
    · rw [if_neg hsub] at hok ⊢
      rw [if_neg hsub]
      by_cases hprod : countProducts s.products key > 0
      · rw [if_pos hprod] at hok
        cases hok
      · rw [if_neg hprod, if_neg hprod]
        obtain ⟨cache1, hcache⟩ :=
          invalidateCategoryOrThrow_throws throws s.cache (.uuid key spelling) c.slug hthrow
        simp only [hcache]
        exact ⟨rfl, rfl⟩

/-! ## Shape of a table -/

theorem sameShape_refl (cats : List Category) : SameShape cats cats := rfl

theorem sameShape_trans {a b c : List Category} (h1 : SameShape a b) (h2 : SameShape b c) :
    SameShape a c := by
  unfold SameShape at *
  rw [h1, h2]

theorem sameShape_updateRow (cats : List Category) (id : CategoryId) (path : Option String)
    (level : Int) :
    SameShape (updateRow cats id (fun r => { r with path := path, level := level })) cats := by
  unfold SameShape updateRow
  rw [List.map_map]
  apply List.map_congr_left
  intro r _
  simp only [Function.comp]
  split <;> rfl

theorem findByPk_map_erase (cats : List Category) (j : CategoryId) :
    findByPk (cats.map erasePathLevel) j = (findByPk cats j).map erasePathLevel := by
  induction cats with
  | nil => rfl
  | cons r rs ih =>
    rw [List.map_cons, findByPk_cons, findByPk_cons, ih]
    have : (erasePathLevel r).id = r.id := rfl
    rw [this]
    by_cases h : r.id = j <;> simp [h]

theorem sameShape_findByPk {table cats : List Category} (h : SameShape table cats)
    (j : CategoryId) :
    (findByPk table j).map erasePathLevel = (findByPk cats j).map erasePathLevel := by
  rw [← findByPk_map_erase, ← findByPk_map_erase, h]

theorem sameShape_parentOf {table cats : List Category} (h : SameShape table cats)
    (j : CategoryId) : parentOf table j = parentOf cats j := by
  have hmap := sameShape_findByPk h j
  unfold parentOf
  cases h1 : findByPk table j with
  | none =>
    rw [h1] at hmap
    cases h2 : findByPk cats j with
    | none => rfl
    | some r2 =>
      rw [h2] at hmap
      cases hmap
  | some r1 =>
    rw [h1] at hmap
    cases h2 : findByPk cats j with
    | none =>
      rw [h2] at hmap
      cases hmap
    | some r2 =>
      rw [h2] at hmap
      simp only [Option.map_some', Option.some.injEq] at hmap
      have : (erasePathLevel r1).parentId = (erasePathLevel r2).parentId := by rw [hmap]
      exact this

theorem sameShape_ancestorAt {table cats : List Category} (h : SameShape table cats)
    (n : Nat) (j : CategoryId) : ancestorAt table n j = ancestorAt cats n j :=
  ancestorAt_congr cats table (sameShape_parentOf h) n j

theorem sameShape_isAncestor {table cats : List Category} (h : SameShape table cats)
    (a j : CategoryId) : IsAncestor table a j ↔ IsAncestor cats a j := by
  unfold IsAncestor
  simp only [sameShape_ancestorAt h]

theorem sameShape_ids {table cats : List Category} (h : SameShape table cats) :
    table.map (fun r => r.id) = cats.map (fun r => r.id) := by
  have h1 : ∀ l : List Category, l.map (fun r => r.id)
      = (l.map erasePathLevel).map (fun r => r.id) := by
    intro l
    rw [List.map_map]
    rfl
  rw [h1 table, h1 cats, h]

theorem sameShape_length {table cats : List Category} (h : SameShape table cats) :
    table.length = cats.length := by
  have := congrArg List.length (sameShape_ids h)
  simpa using this

/-! ## Tables with a primary key -/

theorem findByPk_of_mem_nodup {cats : List Category}
    (hN : (cats.map (fun r => r.id)).Nodup) {r : Category} (hr : r ∈ cats) :
    findByPk cats r.id = some r := by
  induction cats with
  | nil => cases hr
  | cons x xs ih =>
    rw [List.map_cons, List.nodup_cons] at hN
    rw [findByPk_cons]
    rcases List.mem_cons.mp hr with h | h
    · subst h
      simp
    · have hne : ¬ x.id = r.id := by
        intro heq
        apply hN.1
        rw [heq]
        exact List.mem_map_of_mem _ h
      rw [if_neg hne]
      exact ih hN.2 h

theorem mem_findAllByParent {cats : List Category} {a : CategoryId} {r : Category} :
    r ∈ findAllByParent cats a ↔ r ∈ cats ∧ r.parentId = some a := by
  unfold findAllByParent
  rw [List.mem_filter]
  simp

theorem nodup_findAllByParent {cats : List Category}
    (hN : (cats.map (fun r => r.id)).Nodup) (a : CategoryId) :
    ((findAllByParent cats a).map (fun r => r.id)).Nodup := by
  unfold findAllByParent
  exact List.Nodup.sublist (List.Sublist.map _ (List.filter_sublist _)) hN

theorem parentOf_of_child {cats : List Category}
    (hN : (cats.map (fun r => r.id)).Nodup) {a : CategoryId} {child : Category}
    (h : child ∈ findAllByParent cats a) : parentOf cats child.id = some a := by
  obtain ⟨hmem, hpar⟩ := mem_findAllByParent.mp h
  unfold parentOf
  rw [findByPk_of_mem_nodup hN hmem]
  exact hpar

theorem child_of_parentOf {cats : List Category} {a j : CategoryId}
    (h : parentOf cats j = some a) : ∃ child ∈ findAllByParent cats a, child.id = j := by
  obtain ⟨row, hrow, hpar⟩ := parentOf_eq_some h
  exact ⟨row, mem_findAllByParent.mpr ⟨findByPk_mem hrow, hpar⟩, findByPk_id hrow⟩

/-! ## The log is only a log -/

theorem updateDescendantPathsLog_fst :
    ∀ (fuel : Nat) (cats : List Category) (c : Category),
      (updateDescendantPathsLog fuel cats c).map (fun res => res.1)
        = updateDescendantPaths fuel cats c := by
  intro fuel
  induction fuel with
  | zero => intro cats c; rfl
  | succ fuel ih =>
    intro cats c
    unfold updateDescendantPathsLog updateDescendantPaths
    have key : ∀ (l : List Category) (acc : List Category × List CategoryId),
        (l.foldlM
          (fun (acc : List Category × List CategoryId) child =>
            (updateDescendantPathsLog fuel
              (updatePathLevel acc.1 child (template c.path ++ "/" ++ child.slug)
                (c.level + 1)).1
              (updatePathLevel acc.1 child (template c.path ++ "/" ++ child.slug)
                (c.level + 1)).2).map
              (fun sub => (sub.1, acc.2 ++ child.id :: sub.2))) acc).map (fun res => res.1)
          = l.foldlM
            (fun cats1 child =>
              updateDescendantPaths fuel
                (updatePathLevel cats1 child (template c.path ++ "/" ++ child.slug)
                  (c.level + 1)).1
                (updatePathLevel cats1 child (template c.path ++ "/" ++ child.slug)
                  (c.level + 1)).2) acc.1 := by
      intro l
      induction l with
      | nil => intro acc; rfl
      | cons x xs ihl =>
        intro acc
        rw [List.foldlM_cons, List.foldlM_cons]
        rw [← ih]
        cases updateDescendantPathsLog fuel
            (updatePathLevel acc.1 x (template c.path ++ "/" ++ x.slug) (c.level + 1)).1
            (updatePathLevel acc.1 x (template c.path ++ "/" ++ x.slug) (c.level + 1)).2 with
        | none => rfl
        | some sub =>
          simp only [Option.map_some', Option.some_bind, Option.bind_eq_bind]
          exact ihl _
    exact key _ _


/-! ## Subtrees -/

theorem reach_iff {cats : List Category} {a j : CategoryId} :
    Reach cats a j ↔ j = a ∨ IsAncestor cats a j := by
  constructor
  · rintro ⟨n, hn⟩
    cases n with
    | zero =>
      left
      simpa [ancestorAt] using hn
    | succ k => exact Or.inr ⟨k, hn⟩
  · rintro (h | ⟨k, hk⟩)
    · subst h
      exact ⟨0, rfl⟩
    · exact ⟨k + 1, hk⟩

theorem ancestorAt_one (cats : List Category) (j : CategoryId) :
    ancestorAt cats 1 j = parentOf cats j := by
  simp only [ancestorAt]
  cases parentOf cats j <;> rfl

theorem isAncestor_of_reach_parent {cats : List Category} {a ch j : CategoryId}
    (hr : Reach cats ch j) (hp : parentOf cats ch = some a) : IsAncestor cats a j := by
  obtain ⟨n, hn⟩ := hr
  refine ⟨n, ?_⟩
  rw [ancestorAt_add, hn, Option.some_bind, ancestorAt_one, hp]

theorem isAncestor_iff_child {cats : List Category} {a j : CategoryId} :
    IsAncestor cats a j ↔ ∃ ch, parentOf cats ch = some a ∧ Reach cats ch j := by
  constructor
  · rintro ⟨n, hn⟩
    rw [ancestorAt_add] at hn
    cases hch : ancestorAt cats n j with
    | none =>
      rw [hch] at hn
      cases hn
    | some ch =>
      rw [hch, Option.some_bind, ancestorAt_one] at hn
      exact ⟨ch, hn, n, hch⟩
  · rintro ⟨ch, hp, hr⟩
    exact isAncestor_of_reach_parent hr hp

theorem ancestorAt_sub {cats : List Category} {n1 n2 : Nat} {j x y : CategoryId}
    (h1 : ancestorAt cats n1 j = some x) (h2 : ancestorAt cats n2 j = some y)
    (hle : n1 ≤ n2) : ancestorAt cats (n2 - n1) x = some y := by
  have : n2 = n1 + (n2 - n1) := by omega
  rw [this, ancestorAt_add, h1, Option.some_bind] at h2
  exact h2

/-- In an acyclic table the subtrees of two children of one parent do not meet. -/
theorem subtrees_disjoint {cats : List Category} (hA : ∀ i, ¬ IsAncestor cats i i)
    {a ch1 ch2 j : CategoryId} (hp1 : parentOf cats ch1 = some a)
    (hp2 : parentOf cats ch2 = some a) (hr1 : Reach cats ch1 j) (hr2 : Reach cats ch2 j) :
    ch1 = ch2 := by
  have key : ∀ (c1 c2 : CategoryId) (n1 n2 : Nat), parentOf cats c1 = some a →
      parentOf cats c2 = some a → ancestorAt cats n1 j = some c1 →
      ancestorAt cats n2 j = some c2 → n1 ≤ n2 → c1 = c2 := by
    intro c1 c2 n1 n2 hc1 hc2 h1 h2 hle
    have hsub := ancestorAt_sub h1 h2 hle
    cases hm : n2 - n1 with
    | zero =>
      rw [hm] at hsub
      simpa [ancestorAt] using hsub
    | succ m =>
      exfalso
      rw [hm] at hsub
      obtain ⟨p, hp, hrest⟩ := ancestorAt_succ_eq_some hsub
      rw [hc1] at hp
      cases hp
      exact hA a (isAncestor_of_reach_parent ⟨m, hrest⟩ hc2)
  obtain ⟨n1, h1⟩ := hr1
  obtain ⟨n2, h2⟩ := hr2
  rcases Nat.le_total n1 n2 with hle | hle
  · exact key ch1 ch2 n1 n2 hp1 hp2 h1 h2 hle
  · exact (key ch2 ch1 n2 n1 hp2 hp1 h2 h1 hle).symm

theorem parent_not_in_subtree {cats : List Category} (hA : ∀ i, ¬ IsAncestor cats i i)
    {a ch : CategoryId} (hp : parentOf cats ch = some a) : ¬ Reach cats ch a :=
  fun hr => hA a (isAncestor_of_reach_parent hr hp)

/-- In an acyclic table a chain of parent links is no longer than the table. -/
theorem depth_le_length {cats : List Category} (hA : ∀ i, ¬ IsAncestor cats i i)
    {n : Nat} {d a : CategoryId} (h : ancestorAt cats n d = some a) : n ≤ cats.length := by
  by_contra hgt
  have hchain : ∀ j, j ≤ cats.length →
      ∃ b, ancestorAt cats j d = some b ∧ (findByPk cats b).isSome = true := by
    intro j hj
    have hsplit : n = j + ((n - j - 1) + 1) := by omega
    have h2 := h
    rw [hsplit, ancestorAt_add] at h2
    cases hb : ancestorAt cats j d with
    | none =>
      rw [hb] at h2
      cases h2
    | some b =>
      rw [hb, Option.some_bind] at h2
      obtain ⟨p, hp, -⟩ := ancestorAt_succ_eq_some h2
      obtain ⟨row, hrow, -⟩ := parentOf_eq_some hp
      exact ⟨b, rfl, by rw [hrow]; rfl⟩
  obtain ⟨i, j, hij, hj, heq⟩ := chain_repeat cats d hchain
  obtain ⟨b, hb, -⟩ := hchain i (by omega)
  have hjb : ancestorAt cats j d = some b := by rw [← heq, hb]
  have hsub := ancestorAt_sub hb hjb (by omega)
  have hm : j - i = (j - i - 1) + 1 := by omega
  rw [hm] at hsub
  exact hA b ⟨_, hsub⟩

theorem inSubtrees_append {cats : List Category} {done : List CategoryId} {ch j : CategoryId} :
    InSubtrees cats (done ++ [ch]) j ↔ InSubtrees cats done j ∨ Reach cats ch j := by
  unfold InSubtrees
  constructor
  · rintro ⟨a, ha, hr⟩
    rcases List.mem_append.mp ha with h | h
    · exact Or.inl ⟨a, h, hr⟩
    · rw [List.mem_singleton] at h
      subst h
      exact Or.inr hr
  · rintro (⟨a, ha, hr⟩ | hr)
    · exact ⟨a, List.mem_append_left _ ha, hr⟩
    · exact ⟨ch, List.mem_append_right _ (List.mem_singleton.mpr rfl), hr⟩

theorem inSubtrees_children {cats : List Category}
    (hN : (cats.map (fun r => r.id)).Nodup) (a j : CategoryId) :
    InSubtrees cats ((findAllByParent cats a).map (fun r => r.id)) j ↔ IsAncestor cats a j := by
  rw [isAncestor_iff_child]
  unfold InSubtrees
  constructor
  · rintro ⟨ch, hch, hr⟩
    obtain ⟨child, hmem, rfl⟩ := List.mem_map.mp hch
    exact ⟨child.id, parentOf_of_child hN hmem, hr⟩
  · rintro ⟨ch, hp, hr⟩
    obtain ⟨child, hmem, hid⟩ := child_of_parentOf hp
    exact ⟨ch, List.mem_map.mpr ⟨child, hmem, hid⟩, hr⟩

/-! ## The cascade over a subtree -/

theorem findByPk_updatePathLevel_other (table : List Category) (child : Category)
    (path : String) (level : Int) (j : CategoryId) (hj : j ≠ child.id) :
    findByPk (updatePathLevel table child path level).1 j = findByPk table j := by
  unfold updatePathLevel
  rw [findByPk_updateRow_pathLevel]
  cases hrow : findByPk table j with
  | none => rfl
  | some r =>
    have hid := findByPk_id hrow
    have hne : ¬ r.id = child.id := by
      rw [hid]
      exact hj
    simp only [Option.map_some', if_neg hne]

theorem findByPk_updatePathLevel_self (table : List Category) (child : Category)
    (path : String) (level : Int) (h : findByPk table child.id = some child) :
    findByPk (updatePathLevel table child path level).1 child.id
      = some (updatePathLevel table child path level).2 := by
  unfold updatePathLevel
  rw [findByPk_updateRow_pathLevel, h]
  simp only [Option.map_some', if_pos]

theorem sameShape_updatePathLevel (table : List Category) (child : Category)
    (path : String) (level : Int) :
    SameShape (updatePathLevel table child path level).1 table :=
  sameShape_updateRow table child.id (some path) level

theorem parentOf_of_findByPk {table cats : List Category} (h : SameShape table cats)
    {j p : CategoryId} {row : Category} (hrow : findByPk table j = some row)
    (hp : row.parentId = some p) : parentOf cats j = some p := by
  rw [← sameShape_parentOf h]
  unfold parentOf
  rw [hrow]
  exact hp

theorem reach_of_parent {cats : List Category} {a j p : CategoryId}
    (hp : parentOf cats j = some p) (hr : Reach cats a p) : Reach cats a j := by
  obtain ⟨n, hn⟩ := hr
  refine ⟨n + 1, ?_⟩
  simp only [ancestorAt, hp, Option.some_bind]
  exact hn

theorem reach_parent_of_isAncestor {cats : List Category} {a j p : CategoryId}
    (hp : parentOf cats j = some p) (h : IsAncestor cats a j) : Reach cats a p := by
  obtain ⟨n, hn⟩ := h
  obtain ⟨q, hq, hrest⟩ := ancestorAt_succ_eq_some hn
  rw [hp] at hq
  cases hq
  exact ⟨n, hrest⟩

/-- One round of the loop of the cascade: the child is written, its subtree
is visited by the nested call, and what held for the children done so far
holds for them and this child. -/
theorem cascade_step (cats : List Category) (c : Category)
    (hN : (cats.map (fun r => r.id)).Nodup) (hA : ∀ i, ¬ IsAncestor cats i i)
    (fuel : Nat)
    (ih : ∀ (cats1 : List Category) (c1 : Category),
      (cats1.map (fun r => r.id)).Nodup → (∀ i, ¬ IsAncestor cats1 i i) →
      (∀ d n, ancestorAt cats1 n d = some c1.id → n < fuel) →
      ∃ table log, updateDescendantPathsLog fuel cats1 c1 = some (table, log) ∧
        CascadeOn (IsAncestor cats1 c1.id) cats1 c1 table log)
    (hdepth : ∀ d n, ancestorAt cats n d = some c.id → n < fuel + 1)
    (done : List CategoryId) (child : Category)
    (hchild : child ∈ findAllByParent cats c.id)
    (hdone : ∀ ch ∈ done, parentOf cats ch = some c.id) (hnot : child.id ∉ done)
    (table : List Category) (log : List CategoryId)
    (hinv : CascadeOn (InSubtrees cats done) cats c table log) :
    ∃ table2 log2,
      updateDescendantPathsLog fuel
        (updatePathLevel table child (template c.path ++ "/" ++ child.slug) (c.level + 1)).1
        (updatePathLevel table child (template c.path ++ "/" ++ child.slug) (c.level + 1)).2
        = some (table2, log2) ∧
      CascadeOn (InSubtrees cats (done ++ [child.id])) cats c table2
        (log ++ child.id :: log2) := by
  have hpc : parentOf cats child.id = some c.id := parentOf_of_child hN hchild
  have hchildrow : findByPk cats child.id = some child :=
    findByPk_of_mem_nodup hN (mem_findAllByParent.mp hchild).1
  have hexcl : ∀ j, InSubtrees cats done j → ¬ Reach cats child.id j := by
    rintro j ⟨ch, hch, hr⟩ hr2
    have := subtrees_disjoint hA (hdone ch hch) hpc hr hr2
    rw [this] at hch
    exact hnot hch
  have hTchild : findByPk table child.id = some child := by
    rw [hinv.frame _ (fun h => hexcl _ h ⟨0, rfl⟩)]
    exact hchildrow
  have hshape1 : SameShape
      (updatePathLevel table child (template c.path ++ "/" ++ child.slug) (c.level + 1)).1
      cats :=
    sameShape_trans (sameShape_updatePathLevel table child _ _) hinv.shape
  have hN1 : ((updatePathLevel table child (template c.path ++ "/" ++ child.slug)
      (c.level + 1)).1.map (fun r => r.id)).Nodup := by
    rw [sameShape_ids hshape1]
    exact hN
  have hinstid : (updatePathLevel table child (template c.path ++ "/" ++ child.slug)
      (c.level + 1)).2.id = child.id := rfl
  obtain ⟨table2, log2, hrun, hres⟩ := ih _
    (updatePathLevel table child (template c.path ++ "/" ++ child.slug) (c.level + 1)).2
    hN1 (fun i h => hA i ((sameShape_isAncestor hshape1 i i).mp h))
    (by
      intro d n h
      rw [sameShape_ancestorAt hshape1, hinstid] at h
      have := hdepth d (n + 1)
        (by rw [ancestorAt_add, h, Option.some_bind, ancestorAt_one, hpc])
      omega)
  rw [hinstid] at hres
  have hanc : ∀ j, IsAncestor
      (updatePathLevel table child (template c.path ++ "/" ++ child.slug) (c.level + 1)).1
      child.id j ↔ IsAncestor cats child.id j :=
    fun j => sameShape_isAncestor hshape1 child.id j
  have hshape2 : SameShape table2 cats := sameShape_trans hres.shape hshape1
  have hT2 : ∀ j, ¬ IsAncestor cats child.id j → findByPk table2 j
      = findByPk (updatePathLevel table child (template c.path ++ "/" ++ child.slug)
        (c.level + 1)).1 j :=
    fun j h => hres.frame j (fun h2 => h ((hanc j).mp h2))
  have hT2child : findByPk table2 child.id
      = some (updatePathLevel table child (template c.path ++ "/" ++ child.slug)
        (c.level + 1)).2 := by
    rw [hT2 _ (hA child.id)]
    exact findByPk_updatePathLevel_self table child _ _ hTchild
  have hT2out : ∀ j, ¬ Reach cats child.id j → findByPk table2 j = findByPk table j := by
    intro j hj
    have hne : j ≠ child.id := fun h => hj (reach_iff.mpr (Or.inl h))
    rw [hT2 j (fun h => hj (reach_iff.mpr (Or.inr h)))]
    exact findByPk_updatePathLevel_other table child _ _ j hne
  refine ⟨table2, log2, hrun, ?_⟩
  constructor
  · exact hshape2
  · intro j hj
    rw [inSubtrees_append] at hj
    rw [hT2out j (fun h => hj (Or.inr h))]
    exact hinv.frame j (fun h => hj (Or.inl h))
  · intro j row hrow htouched
    rcases inSubtrees_append.mp htouched with hd | hr
    · have hnr := hexcl j hd
      have hrowT : findByPk table j = some row := by
        rw [← hT2out j hnr]
        exact hrow
      obtain ⟨parent, hpar, hmat⟩ := hinv.good j row hrowT hd
      refine ⟨parent, ?_, hmat⟩
      cases hpid : row.parentId with
      | none =>
        rw [hpid] at hpar
        cases hpar
      | some p =>
        rw [hpid, Option.some_bind] at hpar
        rw [Option.some_bind]
        by_cases hpc1 : p = c.id
        · rw [if_pos hpc1] at hpar ⊢
          exact hpar
        · rw [if_neg hpc1] at hpar ⊢
          have hpj := parentOf_of_findByPk hinv.shape hrowT hpid
          rw [hT2out p (fun h => hnr (reach_of_parent hpj h))]
          exact hpar
    · rcases reach_iff.mp hr with heq | hanc1
      · subst heq
        rw [hT2child] at hrow
        cases hrow
        refine ⟨c, ?_, rfl, rfl⟩
        have hp : (updatePathLevel table child (template c.path ++ "/" ++ child.slug)
            (c.level + 1)).2.parentId = some c.id := (mem_findAllByParent.mp hchild).2
        rw [hp, Option.some_bind, if_pos rfl]
      · obtain ⟨parent, hpar, hmat⟩ := hres.good j row hrow ((hanc j).mpr hanc1)
        refine ⟨parent, ?_, hmat⟩
        cases hpid : row.parentId with
        | none =>
          rw [hpid] at hpar
          cases hpar
        | some p =>
          rw [hpid, Option.some_bind] at hpar
          rw [Option.some_bind]
          have hpj := parentOf_of_findByPk hshape2 hrow hpid
          have hrp := reach_parent_of_isAncestor hpj hanc1
          have hpc1 : ¬ p = c.id := by
            intro h
            rw [h] at hrp
            exact parent_not_in_subtree hA hpc hrp
          rw [if_neg hpc1]
          rw [hinstid] at hpar
          by_cases hpi : p = child.id
          · rw [if_pos hpi] at hpar
            rw [hpi, hT2child]
            exact hpar
          · rw [if_neg hpi] at hpar
            exact hpar
  · rw [List.nodup_append]
    refine ⟨hinv.logNodup, ?_, ?_⟩
    · rw [List.nodup_cons]
      exact ⟨fun h => hA child.id ((hanc _).mp ((hres.logMem _).mp h)), hres.logNodup⟩
    · intro x hx1 hx2
      apply hexcl x ((hinv.logMem x).mp hx1)
      rcases List.mem_cons.mp hx2 with h | h
      · exact reach_iff.mpr (Or.inl h)
      · exact reach_iff.mpr (Or.inr ((hanc _).mp ((hres.logMem _).mp h)))
  · intro j
    rw [List.mem_append, List.mem_cons, inSubtrees_append, hinv.logMem, hres.logMem, hanc,
      reach_iff]

theorem cascadeOn_congr {touched touched1 : CategoryId → Prop}
    (h : ∀ j, touched j ↔ touched1 j) {cats : List Category} {c : Category}
    {table : List Category} {log : List CategoryId}
    (hc : CascadeOn touched cats c table log) : CascadeOn touched1 cats c table log := by
  have heq : touched = touched1 := funext (fun j => propext (h j))
  rw [← heq]
  exact hc

theorem cascadeOn_start (cats : List Category) (c : Category) :
    CascadeOn (InSubtrees cats []) cats c cats [] := by
  have hno : ∀ j, ¬ InSubtrees cats [] j := by
    rintro j ⟨a, ha, -⟩
    cases ha
  constructor
  · exact sameShape_refl cats
  · intro j _
    rfl
  · intro j row _ ht
    exact absurd ht (hno j)
  · exact List.nodup_nil
  · intro j
    constructor
    · intro h
      cases h
    · intro h
      exact absurd h (hno j)

/-- The loop of the cascade over the children still to do. -/
theorem cascade_fold (cats : List Category) (c : Category)
    (hN : (cats.map (fun r => r.id)).Nodup) (hA : ∀ i, ¬ IsAncestor cats i i)
    (fuel : Nat)
    (ih : ∀ (cats1 : List Category) (c1 : Category),
      (cats1.map (fun r => r.id)).Nodup → (∀ i, ¬ IsAncestor cats1 i i) →
      (∀ d n, ancestorAt cats1 n d = some c1.id → n < fuel) →
      ∃ table log, updateDescendantPathsLog fuel cats1 c1 = some (table, log) ∧
        CascadeOn (IsAncestor cats1 c1.id) cats1 c1 table log)
    (hdepth : ∀ d n, ancestorAt cats n d = some c.id → n < fuel + 1) :
    ∀ (todo done : List Category) (table : List Category) (log : List CategoryId),
      done ++ todo = findAllByParent cats c.id →
      CascadeOn (InSubtrees cats (done.map (fun r => r.id))) cats c table log →
      ∃ table2 log2,
        todo.foldlM
          (fun (acc : List Category × List CategoryId) child =>
            (updateDescendantPathsLog fuel
              (updatePathLevel acc.1 child (template c.path ++ "/" ++ child.slug)
                (c.level + 1)).1
              (updatePathLevel acc.1 child (template c.path ++ "/" ++ child.slug)
                (c.level + 1)).2).map
              (fun sub => (sub.1, acc.2 ++ child.id :: sub.2))) (table, log)
          = some (table2, log2) ∧
        CascadeOn (InSubtrees cats ((findAllByParent cats c.id).map (fun r => r.id)))
          cats c table2 log2 := by
  intro todo
  induction todo with
  | nil =>
    intro done table log hsplit hinv
    rw [List.append_nil] at hsplit
    rw [hsplit] at hinv
    exact ⟨table, log, rfl, hinv⟩
  | cons child rest ihl =>
    intro done table log hsplit hinv
    have hchild : child ∈ findAllByParent cats c.id := by
      rw [← hsplit]
      exact List.mem_append_right _ (List.mem_cons_self _ _)
    have hdone : ∀ ch ∈ done.map (fun r => r.id), parentOf cats ch = some c.id := by
      intro ch hch
      obtain ⟨r, hr, hid⟩ := List.mem_map.mp hch
      rw [← hid]
      apply parentOf_of_child hN
      rw [← hsplit]
      exact List.mem_append_left _ hr
    have hnot : child.id ∉ done.map (fun r => r.id) := by
      intro hmem
      have hnd := nodup_findAllByParent hN c.id
      rw [← hsplit, List.map_append, List.nodup_append] at hnd
      exact hnd.2.2 hmem (List.mem_map_of_mem _ (List.mem_cons_self _ _))
    obtain ⟨table2, log2, hrun, hinv2⟩ :=
      cascade_step cats c hN hA fuel ih hdepth _ child hchild hdone hnot table log hinv
    have hsplit2 : (done ++ [child]) ++ rest = findAllByParent cats c.id := by
      rw [List.append_assoc]
      exact hsplit
    have hinv3 : CascadeOn (InSubtrees cats ((done ++ [child]).map (fun r => r.id)))
        cats c table2 (log ++ child.id :: log2) := by
      rw [List.map_append]
      exact hinv2
    obtain ⟨table3, log3, hrun3, hinv4⟩ := ihl (done ++ [child]) table2 _ hsplit2 hinv3
    refine ⟨table3, log3, ?_, hinv4⟩
    rw [List.foldlM_cons]
    simp only [hrun, Option.map_some', Option.some_bind, Option.bind_eq_bind]
    exact hrun3

/-- The cascade on a well-formed table: with fuel above the depth of the
subtree it returns, and exactly the strict descendants of the instance are
written, each once, each from its parent. -/
theorem cascade_main : ∀ (fuel : Nat) (cats : List Category) (c : Category),
    (cats.map (fun r => r.id)).Nodup → (∀ i, ¬ IsAncestor cats i i) →
    (∀ d n, ancestorAt cats n d = some c.id → n < fuel) →
    ∃ table log, updateDescendantPathsLog fuel cats c = some (table, log) ∧
      CascadeOn (IsAncestor cats c.id) cats c table log := by
  intro fuel
  induction fuel with
  | zero =>
    intro cats c _ _ hdepth
    exact absurd (hdepth c.id 0 rfl) (by omega)
  | succ fuel ih =>
    intro cats c hN hA hdepth
    obtain ⟨table, log, hrun, hinv⟩ :=
      cascade_fold cats c hN hA fuel ih hdepth (findAllByParent cats c.id) [] cats []
        rfl (cascadeOn_start cats c)
    refine ⟨table, log, ?_, cascadeOn_congr (inSubtrees_children hN c.id) hinv⟩
    unfold updateDescendantPathsLog
    exact hrun

/-- On an acyclic table with a primary key, fuel above the number of rows is
enough for the cascade from any instance. -/
theorem cascade_returns (cats : List Category) (c : Category)
    (hN : (cats.map (fun r => r.id)).Nodup) (hA : Acyclic cats) (fuel : Nat)
    (hfuel : cats.length < fuel) :
    ∃ table log, updateDescendantPathsLog fuel cats c = some (table, log) ∧
      CascadeOn (IsAncestor cats c.id) cats c table log := by
  have hA1 := (acyclic_iff cats).mp hA
  apply cascade_main fuel cats c hN hA1
  intro d n h
  have := depth_le_length hA1 h
  omega

theorem acyclic_of_parent_lt (cats : List Category)
    (h : ∀ r ∈ cats, ∀ p ∈ r.parentId, p < r.id) : Acyclic cats := by
  have key : ∀ (n : Nat) (j a : CategoryId), ancestorAt cats (n + 1) j = some a → a < j := by
    intro n
    induction n with
    | zero =>
      intro j a hn
      rw [ancestorAt_one] at hn
      obtain ⟨row, hrow, hp⟩ := parentOf_eq_some hn
      have := h row (findByPk_mem hrow) a hp
      rw [findByPk_id hrow] at this
      exact this
    | succ k ih =>
      intro j a hn
      obtain ⟨p, hp, hrest⟩ := ancestorAt_succ_eq_some hn
      obtain ⟨row, hrow, hpid⟩ := parentOf_eq_some hp
      have h1 := h row (findByPk_mem hrow) p hpid
      rw [findByPk_id hrow] at h1
      have h2 := ih p a hrest
      exact Nat.lt_trans h2 h1
  rw [acyclic_iff]
  rintro i ⟨n, hn⟩
  exact Nat.lt_irrefl i (key n i i hn)

theorem acyclic_storeFan : Acyclic storeFan :=
  acyclic_of_parent_lt storeFan (by decide)

/-- Claim C25: on a table with a primary key and no cycle, the cascade from a
stored category `c` returns once the fuel exceeds the number of rows; the ids
it writes are exactly the strict descendants of `c`, each written once; the
hierarchy is as before; and afterwards every strict descendant carries the path
`parent.path + "/" + slug` and the level `parent.level + 1` of the row its
`parentId` names, `c` keeping the path and level it came with. -/
theorem C25_cascade_correct (cats : List Category) (c : Category)
    (hkey : (cats.map (fun r => r.id)).Nodup) (hacyclic : Acyclic cats)
    (hc : findByPk cats c.id = some c) (fuel : Nat) (hfuel : cats.length < fuel) :
    ∃ table log,
      updateDescendantPathsLog fuel cats c = some (table, log) ∧
      updateDescendantPaths fuel cats c = some table ∧
      log.Nodup ∧ (∀ d, d ∈ log ↔ IsAncestor cats c.id d) ∧
      (∀ d, IsAncestor table c.id d ↔ IsAncestor cats c.id d) ∧
      findByPk table c.id = some c ∧
      ∀ d, IsAncestor cats c.id d →
        ∃ row p parent, findByPk table d = some row ∧ row.parentId = some p ∧
          findByPk table p = some parent ∧ MaterialisedFrom parent row := by
  obtain ⟨table, log, hrun, hres⟩ := cascade_returns cats c hkey hacyclic fuel hfuel
  have hA1 := (acyclic_iff cats).mp hacyclic
  have hcrow : findByPk table c.id = some c := by
    rw [hres.frame c.id (hA1 c.id)]
    exact hc
  refine ⟨table, log, hrun, ?_, hres.logNodup, hres.logMem, ?_, hcrow, ?_⟩
  · rw [← updateDescendantPathsLog_fst, hrun]
    rfl
  · exact fun d => sameShape_isAncestor hres.shape c.id d
  · intro d hd
    have hsome : ∃ row, findByPk table d = some row := by
      obtain ⟨n, hn⟩ := hd
      obtain ⟨p, hp, -⟩ := ancestorAt_succ_eq_some hn
      obtain ⟨row0, hrow0, -⟩ := parentOf_eq_some hp
      have hmap := sameShape_findByPk hres.shape d
      rw [hrow0] at hmap
      cases hrow : findByPk table d with
      | none =>
        rw [hrow] at hmap
        cases hmap
      | some row => exact ⟨row, rfl⟩
    obtain ⟨row, hrow⟩ := hsome
    obtain ⟨parent, hpar, hmat⟩ := hres.good d row hrow hd
    cases hpid : row.parentId with
    | none =>
      rw [hpid] at hpar
      cases hpar
    | some p =>
      rw [hpid, Option.some_bind] at hpar
      refine ⟨row, p, parent, hrow, hpid, ?_, hmat⟩
      by_cases hpc : p = c.id
      · rw [if_pos hpc] at hpar
        rw [hpc, hcrow]
        exact hpar
      · rw [if_neg hpc] at hpar
        exact hpar

/-- Witness of C25 on "Components" with the children "Storage" (holding "SSD")
and "Memory", the cascade starting at "Components". -/
theorem C25_cascade_correct_witness :
    ∃ table log,
      updateDescendantPathsLog 5 storeFan
        ⟨1, "Components", "components", none, some "/parts", 1, true, 0⟩ = some (table, log) ∧
      updateDescendantPaths 5 storeFan
        ⟨1, "Components", "components", none, some "/parts", 1, true, 0⟩ = some table ∧
      log.Nodup ∧ (∀ d, d ∈ log ↔ IsAncestor storeFan 1 d) ∧
      (∀ d, IsAncestor table 1 d ↔ IsAncestor storeFan 1 d) ∧
      findByPk table 1 = some ⟨1, "Components", "components", none, some "/parts", 1, true, 0⟩ ∧
      ∀ d, IsAncestor storeFan 1 d →
        ∃ row p parent, findByPk table d = some row ∧ row.parentId = some p ∧
          findByPk table p = some parent ∧ MaterialisedFrom parent row :=
  C25_cascade_correct storeFan ⟨1, "Components", "components", none, some "/parts", 1, true, 0⟩
    (by decide) acyclic_storeFan (by decide) 5 (by decide)

/-- Claim C29: on a table with a primary key and no cycle the cascade from `c`
returns a table in which the row of `c` and the row of every category that is
not a strict descendant of `c` are the rows of before, and in which every row,
position by position, differs from the row of before at most in `path` and
`level`; in particular no `id`, `parentId` or `name` changes. -/
theorem C29_cascade_frame (cats : List Category) (c : Category)
    (hkey : (cats.map (fun r => r.id)).Nodup) (hacyclic : Acyclic cats)
    (fuel : Nat) (hfuel : cats.length < fuel) :
    ∃ table, updateDescendantPaths fuel cats c = some table ∧
      findByPk table c.id = findByPk cats c.id ∧
      (∀ j, ¬ IsAncestor cats c.id j → findByPk table j = findByPk cats j) ∧
      SameShape table cats ∧
      table.map (fun r => (r.id, r.parentId, r.name))
        = cats.map (fun r => (r.id, r.parentId, r.name)) := by
  obtain ⟨table, log, hrun, hres⟩ := cascade_returns cats c hkey hacyclic fuel hfuel
  have hA1 := (acyclic_iff cats).mp hacyclic
  refine ⟨table, ?_, hres.frame c.id (hA1 c.id), hres.frame, hres.shape, ?_⟩
  · rw [← updateDescendantPathsLog_fst, hrun]
    rfl
  · have h1 : ∀ l : List Category, l.map (fun r => (r.id, r.parentId, r.name))
        = (l.map erasePathLevel).map (fun r => (r.id, r.parentId, r.name)) := by
      intro l
      rw [List.map_map]
      rfl
    rw [h1 table, h1 cats, hres.shape]

/-- Witness of C29 on "Components" with the children "Storage" (holding "SSD")
and "Memory", the cascade starting at "Storage". -/
theorem C29_cascade_frame_witness :
    ∃ table, updateDescendantPaths 5 storeFan
        ⟨2, "Storage", "storage", some 1, some "/parts/storage", 2, true, 0⟩ = some table ∧
      findByPk table 2 = findByPk storeFan 2 ∧
      (∀ j, ¬ IsAncestor storeFan 2 j → findByPk table j = findByPk storeFan j) ∧
      SameShape table storeFan ∧
      table.map (fun r => (r.id, r.parentId, r.name))
        = storeFan.map (fun r => (r.id, r.parentId, r.name)) :=
  C29_cascade_frame storeFan
    ⟨2, "Storage", "storage", some 1, some "/parts/storage", 2, true, 0⟩
    (by decide) acyclic_storeFan 5 (by decide)

/-! ## Descendant writes that fail -/

/-- Once a write has thrown, the rest of the loop is not run. -/
theorem cascade_error_sticks (throws : CategoryId → Bool) (fuel : Nat) (c : Category)
    (table : List Category) (rest : List Category) :
    rest.foldlM
      (fun (acc : Except (List Category) (List Category)) child =>
        match acc with
        | .error cats1 => some (.error cats1)
        | .ok cats1 =>
          if throws child.id then some (.error cats1)
          else
            updateDescendantPathsOrThrow throws fuel
              (updatePathLevel cats1 child (template c.path ++ "/" ++ child.slug)
                (c.level + 1)).1
              (updatePathLevel cats1 child (template c.path ++ "/" ++ child.slug)
                (c.level + 1)).2)
      (.error table) = some (.error table) := by
  induction rest with
  | nil => rfl
  | cons x xs ih =>
    rw [List.foldlM_cons]
    exact ih

theorem updateDescendantPathsOrThrow_never :
    ∀ (fuel : Nat) (cats : List Category) (c : Category),
      updateDescendantPathsOrThrow (fun _ => false) fuel cats c
        = (updateDescendantPaths fuel cats c).map Except.ok := by
  intro fuel
  induction fuel with
  | zero => intro cats c; rfl
  | succ fuel ih =>
    intro cats c
    unfold updateDescendantPathsOrThrow updateDescendantPaths
    have key : ∀ (l : List Category) (table : List Category),
        l.foldlM
          (fun (acc : Except (List Category) (List Category)) child =>
            match acc with
            | .error cats1 => some (.error cats1)
            | .ok cats1 =>
              if (fun _ => false) child.id = true then some (.error cats1)
              else
                updateDescendantPathsOrThrow (fun _ => false) fuel
                  (updatePathLevel cats1 child (template c.path ++ "/" ++ child.slug)
                    (c.level + 1)).1
                  (updatePathLevel cats1 child (template c.path ++ "/" ++ child.slug)
                    (c.level + 1)).2)
          (.ok table)
          = (l.foldlM
            (fun cats1 child =>
              updateDescendantPaths fuel
                (updatePathLevel cats1 child (template c.path ++ "/" ++ child.slug)
                  (c.level + 1)).1
                (updatePathLevel cats1 child (template c.path ++ "/" ++ child.slug)
                  (c.level + 1)).2) table).map Except.ok := by
      intro l
      induction l with
      | nil => intro table; rfl
      | cons x xs ihl =>
        intro table
        rw [List.foldlM_cons, List.foldlM_cons]
        simp only [Bool.false_eq_true, if_false, ih]
        cases updateDescendantPaths fuel
            (updatePathLevel table x (template c.path ++ "/" ++ x.slug) (c.level + 1)).1
            (updatePathLevel table x (template c.path ++ "/" ++ x.slug) (c.level + 1)).2 with
        | none => rfl
        | some table1 =>
          simp only [Option.map_some', Option.some_bind, Option.bind_eq_bind]
          have hrest := ihl table1
          simp only [Bool.false_eq_true, if_false, ih] at hrest
          exact hrest
    exact key _ _

/-- A cascade with writes that may throw runs out of fuel only where the plain
cascade does, and when it completes it has made the writes of the plain
cascade, none of which was rejected. -/
theorem updateDescendantPathsOrThrow_log (throws : CategoryId → Bool) :
    ∀ (fuel : Nat) (cats : List Category) (c : Category),
      (updateDescendantPathsOrThrow throws fuel cats c = none →
        updateDescendantPathsLog fuel cats c = none) ∧
      (∀ t, updateDescendantPathsOrThrow throws fuel cats c = some (.ok t) →
        ∃ log, updateDescendantPathsLog fuel cats c = some (t, log) ∧
          ∀ i ∈ log, throws i = false) := by
  intro fuel
  induction fuel with
  | zero =>
    intro cats c
    refine ⟨fun _ => rfl, fun t h => ?_⟩
    simp [updateDescendantPathsOrThrow] at h
  | succ fuel ih =>
    intro cats c
    unfold updateDescendantPathsOrThrow updateDescendantPathsLog
    have key : ∀ (l : List Category) (table : List Category) (lg : List CategoryId),
        (l.foldlM
          (fun (acc : Except (List Category) (List Category)) child =>
            match acc with
            | .error cats1 => some (.error cats1)
            | .ok cats1 =>
              if throws child.id then some (.error cats1)
              else
                updateDescendantPathsOrThrow throws fuel
                  (updatePathLevel cats1 child (template c.path ++ "/" ++ child.slug)
                    (c.level + 1)).1
                  (updatePathLevel cats1 child (template c.path ++ "/" ++ child.slug)
                    (c.level + 1)).2)
          (.ok table) = none →
          l.foldlM
            (fun (acc : List Category × List CategoryId) child =>
              (updateDescendantPathsLog fuel
                (updatePathLevel acc.1 child (template c.path ++ "/" ++ child.slug)
                  (c.level + 1)).1
                (updatePathLevel acc.1 child (template c.path ++ "/" ++ child.slug)
                  (c.level + 1)).2).map
                (fun sub => (sub.1, acc.2 ++ child.id :: sub.2))) (table, lg) = none) ∧
        (∀ t, l.foldlM
          (fun (acc : Except (List Category) (List Category)) child =>
            match acc with
            | .error cats1 => some (.error cats1)
            | .ok cats1 =>
              if throws child.id then some (.error cats1)
              else
                updateDescendantPathsOrThrow throws fuel
                  (updatePathLevel cats1 child (template c.path ++ "/" ++ child.slug)
                    (c.level + 1)).1
                  (updatePathLevel cats1 child (template c.path ++ "/" ++ child.slug)
                    (c.level + 1)).2)
          (.ok table) = some (.ok t) →
          ∃ more, l.foldlM
            (fun (acc : List Category × List CategoryId) child =>
              (updateDescendantPathsLog fuel
                (updatePathLevel acc.1 child (template c.path ++ "/" ++ child.slug)
                  (c.level + 1)).1
                (updatePathLevel acc.1 child (template c.path ++ "/" ++ child.slug)
                  (c.level + 1)).2).map
                (fun sub => (sub.1, acc.2 ++ child.id :: sub.2))) (table, lg)
              = some (t, lg ++ more) ∧
            ∀ i ∈ more, throws i = false) := by
      intro l
      induction l with
      | nil =>
        intro table lg
        constructor
        · intro h
          cases h
        · intro t h
          have ht : table = t := by
            simpa [List.foldlM_nil, pure] using h
          subst ht
          exact ⟨[], by simp [List.foldlM_nil, pure], fun i hi => by cases hi⟩
      | cons x xs ihl =>
        intro table lg
        rw [List.foldlM_cons, List.foldlM_cons]
        by_cases hthrow : throws x.id = true
        · simp only [hthrow, if_true, Option.some_bind, Option.bind_eq_bind]
          rw [cascade_error_sticks throws fuel c table xs]
          constructor
          · intro h
            cases h
          · intro t h
            cases h
        · have hfalse : throws x.id = false := by
            cases hx : throws x.id with
            | true => exact absurd hx hthrow
            | false => rfl
          simp only [hfalse, Bool.false_eq_true, if_false]
          cases hnested : updateDescendantPathsOrThrow throws fuel
              (updatePathLevel table x (template c.path ++ "/" ++ x.slug) (c.level + 1)).1
              (updatePathLevel table x (template c.path ++ "/" ++ x.slug) (c.level + 1)).2 with
          | none =>
            have hlog := (ih _ _).1 hnested
            simp only [hlog, Option.map_none', Option.none_bind, Option.bind_eq_bind]
            constructor
            · intro _
              trivial
            · intro t h
              cases h
          | some out =>
            cases out with
            | error t1 =>
              simp only [Option.some_bind, Option.bind_eq_bind]
              rw [cascade_error_sticks throws fuel c t1 xs]
              constructor
              · intro h
                cases h
              · intro t h
                cases h
            | ok t1 =>
              obtain ⟨log1, hlog1, hall1⟩ := (ih _ _).2 t1 hnested
              simp only [hlog1, Option.map_some', Option.some_bind, Option.bind_eq_bind]
              obtain ⟨hnone, hsome⟩ := ihl t1 (lg ++ x.id :: log1)
              refine ⟨hnone, fun t h => ?_⟩
              obtain ⟨more, hrun, hall⟩ := hsome t h
              refine ⟨x.id :: log1 ++ more, ?_, ?_⟩
              · rw [hrun]
                simp
              · intro i hi
                simp only [List.cons_append, List.mem_cons, List.mem_append] at hi
                rcases hi with hi | hi | hi
                · rw [hi]
                  exact hfalse
                · exact hall1 i hi
                · exact hall i hi
    obtain ⟨hnone, hsome⟩ := key (findAllByParent cats c.id) cats []
    refine ⟨hnone, fun t h => ?_⟩
    obtain ⟨more, hrun, hall⟩ := hsome t h
    exact ⟨more, by simpa using hrun, hall⟩

theorem acyclic_storeChain : Acyclic storeChain :=
  acyclic_of_parent_lt storeChain (by decide)

/-- Claim C23 fails on the cascade: on the chain "Storage", "SSD", "NVMe",
where every category has at most one child, the cascade from "Storage" with the
write of "SSD" rejected ends in the error with no row written, and "NVMe", a
descendant still to do, keeps its old path; with no rejected write the same
call rewrites both descendants. -/
theorem C23_cascade_stops_counterexample :
    updateDescendantPathsOrThrow (fun i => i == 3) 5 storeChain
        ⟨2, "Storage", "storage", none, some "/storage", 1, true, 0⟩
      = some (.error storeChain) ∧
    (findByPk storeChain 4).map (fun r => r.path) = some (some "/components/storage/ssd/nvme") ∧
    updateDescendantPaths 5 storeChain
        ⟨2, "Storage", "storage", none, some "/storage", 1, true, 0⟩
      = some
        [⟨1, "Components", "components", none, some "/components", 1, true, 0⟩,
         ⟨2, "Storage", "storage", none, some "/storage", 1, true, 0⟩,
         ⟨3, "SSD", "ssd", some 2, some "/storage/ssd", 2, true, 0⟩,
         ⟨4, "NVMe", "nvme", some 3, some "/storage/ssd/nvme", 3, true, 0⟩] := by
  refine ⟨?_, ?_, ?_⟩
  · rfl
  · decide
  · decide

/-- Claim C23, amended: the cascade `updateDescendantPaths` has no error
handling. With no rejected write it is the plain cascade. On a table with a
primary key and no cycle, when the write of some strict descendant of `c` is
rejected, the call returns an error, not a table, for every fuel above the
number of rows. In detail: when the children before `child` were handled
without error and left `table`, a rejected write of `child` ends the whole call
in the error with `table` as it is, the children after it not visited; and an
error coming out of the nested call for `child` ends the call in that error. -/
theorem C23_cascade_failure_propagates (throws : CategoryId → Bool)
    (cats : List Category) (c : Category)
    (hkey : (cats.map (fun r => r.id)).Nodup) (hacyclic : Acyclic cats) :
    (∀ fuel, updateDescendantPathsOrThrow (fun _ => false) fuel cats c
        = (updateDescendantPaths fuel cats c).map Except.ok) ∧
    (∀ d, IsAncestor cats c.id d → throws d = true →
      ∀ fuel, cats.length < fuel →
        ∃ table, updateDescendantPathsOrThrow throws fuel cats c = some (.error table)) ∧
    (∀ fuel pre child rest table, findAllByParent cats c.id = pre ++ child :: rest →
      pre.foldlM
        (fun (acc : Except (List Category) (List Category)) child =>
          match acc with
          | .error cats1 => some (.error cats1)
          | .ok cats1 =>
            if throws child.id then some (.error cats1)
            else
              updateDescendantPathsOrThrow throws fuel
                (updatePathLevel cats1 child (template c.path ++ "/" ++ child.slug)
                  (c.level + 1)).1
                (updatePathLevel cats1 child (template c.path ++ "/" ++ child.slug)
                  (c.level + 1)).2)
        (.ok cats) = some (.ok table) →
      (throws child.id = true →
        updateDescendantPathsOrThrow throws (fuel + 1) cats c = some (.error table)) ∧
      (∀ table1, throws child.id = false →
        updateDescendantPathsOrThrow throws fuel
          (updatePathLevel table child (template c.path ++ "/" ++ child.slug) (c.level + 1)).1
          (updatePathLevel table child (template c.path ++ "/" ++ child.slug) (c.level + 1)).2
          = some (.error table1) →
        updateDescendantPathsOrThrow throws (fuel + 1) cats c = some (.error table1))) := by
  refine ⟨fun fuel => updateDescendantPathsOrThrow_never fuel cats c, ?_, ?_⟩
  · intro d hd hthrow fuel hfuel
    obtain ⟨table, log, hrun, hres⟩ := cascade_returns cats c hkey hacyclic fuel hfuel
    cases hout : updateDescendantPathsOrThrow throws fuel cats c with
    | none =>
      have := (updateDescendantPathsOrThrow_log throws fuel cats c).1 hout
      rw [hrun] at this
      cases this
    | some out =>
      cases out with
      | error table1 => exact ⟨table1, rfl⟩
      | ok t =>
        exfalso
        obtain ⟨log1, hlog1, hall⟩ := (updateDescendantPathsOrThrow_log throws fuel cats c).2 t hout
        rw [hrun] at hlog1
        have hlog : log = log1 := by
          have := Option.some.inj hlog1
          exact (Prod.mk.inj this).2
        have hmem : d ∈ log1 := by
          rw [← hlog]
          exact (hres.logMem d).mpr hd
        have := hall d hmem
        rw [hthrow] at this
        cases this
  · intro fuel pre child rest table hsplit hpre
    constructor
    · intro hthrow
      unfold updateDescendantPathsOrThrow
      rw [hsplit, List.foldlM_append, hpre]
      simp only [Option.some_bind, Option.bind_eq_bind, List.foldlM_cons, hthrow, if_true]
      exact cascade_error_sticks throws fuel c table rest
    · intro table1 hthrow hnested
      unfold updateDescendantPathsOrThrow
      rw [hsplit, List.foldlM_append, hpre]
      simp only [Option.some_bind, Option.bind_eq_bind, List.foldlM_cons, hthrow,
        Bool.false_eq_true, if_false, hnested]
      exact cascade_error_sticks throws fuel c table1 rest

/-- Witness of C23 on the chain "Storage", "SSD", "NVMe": the write of "NVMe",
two levels below "Storage", is rejected and the cascade from "Storage" returns
an error. -/
theorem C23_cascade_failure_propagates_witness :
    ∃ table, updateDescendantPathsOrThrow (fun i => i == 4) 5 storeChain
        ⟨2, "Storage", "storage", none, some "/storage", 1, true, 0⟩ = some (.error table) :=
  (C23_cascade_failure_propagates (fun i => i == 4) storeChain
      ⟨2, "Storage", "storage", none, some "/storage", 1, true, 0⟩
      (by decide) acyclic_storeChain).2.1 4 ⟨1, by decide⟩ rfl 5 (by decide)

/-! ## Reads after a cache miss -/

theorem findBySlug_of_mem_nodup {cats : List Category}
    (hN : (cats.map (fun r => r.slug)).Nodup) {r : Category} (hr : r ∈ cats) :
    findBySlug cats r.slug = some r := by
  induction cats with
  | nil => cases hr
  | cons x xs ih =>
    rw [List.map_cons, List.nodup_cons] at hN
    unfold findBySlug
    rw [List.find?_cons]
    rcases List.mem_cons.mp hr with h | h
    · subst h
      simp
    · have hne : ¬ x.slug = r.slug := by
        intro heq
        apply hN.1
        rw [heq]
        exact List.mem_map_of_mem _ h
      have hbeq : (x.slug == r.slug) = false := by simpa using hne
      rw [hbeq]
      exact ih hN.2 h

theorem findBySlug_eq_none {cats : List Category} {slug : String}
    (h : ∀ row ∈ cats, row.slug ≠ slug) : findBySlug cats slug = none := by
  unfold findBySlug
  rw [List.find?_eq_none]
  intro row hrow
  simpa using h row hrow

theorem findByPk_eq_none_of_forall {cats : List Category} {key : CategoryId}
    (h : ∀ row ∈ cats, row.id ≠ key) : findByPk cats key = none := by
  unfold findByPk
  rw [List.find?_eq_none]
  intro row hrow
  simpa using h row hrow

/-- The document of a stored row: its active subcategories are the active rows
naming it as parent, its parent is the stored row its `parentId` names. -/
theorem categoryDocument_spec {cats : List Category}
    (hN : (cats.map (fun r => r.id)).Nodup) (row : Category) :
    ∃ parent, categoryDocument cats row
        = .categoryDetail row
            (cats.filter (fun c => c.parentId == some row.id && c.isActive)) parent ∧
      ∀ p, parent = some p ↔ (p ∈ cats ∧ row.parentId = some p.id) := by
  refine ⟨row.parentId.bind (findByPk cats), ?_, ?_⟩
  · unfold categoryDocument findAllByParent
    rw [List.filter_filter]
    congr 1
    apply List.filter_congr
    intro c _
    rw [Bool.and_comm]
  · intro p
    constructor
    · intro h
      cases hpid : row.parentId with
      | none =>
        rw [hpid] at h
        cases h
      | some pid =>
        rw [hpid, Option.some_bind] at h
        exact ⟨findByPk_mem h, by rw [findByPk_id h]⟩
    · rintro ⟨hmem, hpid⟩
      rw [hpid, Option.some_bind]
      exact findByPk_of_mem_nodup hN hmem

/-- Claim C21 as stated fails: with an empty cache and no row stored under it,
`GET /categories/abc`, an id that is not UUID syntax, is answered with
`ServerError`, not with `NotFoundError`: the lookup throws. -/
theorem C21_malformed_id_counterexample :
    getAsync storeSSD.cache (.category (.malformed "abc")) = none ∧
    (getCategoryById true storeSSD (.malformed "abc")).response
      = .error ⟨"Failed to fetch category", .ServerError⟩ ∧
    (getCategoryById false storeSSD (.malformed "abc")).response
      = .error ⟨"Failed to fetch category", .ServerError⟩ := by
  decide

/-- Claim C21, amended: a cache miss falls through to the store for every id
in UUID syntax and every slug. On a table where ids are a primary key and
slugs are unique, when the cache holds no entry or the empty string under the
key of the request, `getCategoryById` answers 200 with the stored row of that
id, the active rows naming it as parent and the stored row its `parentId`
names, and `NotFoundError` when no row has the id; `getCategoryBySlug` does the
same for the slug; an id that is not UUID syntax is answered with
`ServerError`. -/
theorem C21_miss_falls_through (production : Bool) (s : State)
    (hkey : (s.categories.map (fun r => r.id)).Nodup)
    (hslug : (s.categories.map (fun r => r.slug)).Nodup) :
    (∀ key spelling row,
      isCacheHit (getAsync s.cache (.category (.uuid key spelling))) = false →
      row ∈ s.categories → row.id = key →
      ∃ parent, (getCategoryById production s (.uuid key spelling)).response
          = .json 200 (.categoryDetail row
              (s.categories.filter (fun c => c.parentId == some key && c.isActive)) parent) ∧
        ∀ p, parent = some p ↔ (p ∈ s.categories ∧ row.parentId = some p.id)) ∧
    (∀ key spelling,
      isCacheHit (getAsync s.cache (.category (.uuid key spelling))) = false →
      (∀ row ∈ s.categories, row.id ≠ key) →
      (getCategoryById production s (.uuid key spelling)).response
        = .error ⟨"Category not found", .NotFoundError⟩) ∧
    (∀ text, isCacheHit (getAsync s.cache (.category (.malformed text))) = false →
      (getCategoryById production s (.malformed text)).response
        = .error ⟨"Failed to fetch category", .ServerError⟩) ∧
    (∀ slug row, isCacheHit (getAsync s.cache (.categorySlug slug)) = false →
      row ∈ s.categories → row.slug = slug →
      ∃ parent, (getCategoryBySlug production s slug).response
          = .json 200 (.categoryDetail row
              (s.categories.filter (fun c => c.parentId == some row.id && c.isActive)) parent) ∧
        ∀ p, parent = some p ↔ (p ∈ s.categories ∧ row.parentId = some p.id)) ∧
    (∀ slug, isCacheHit (getAsync s.cache (.categorySlug slug)) = false →
      (∀ row ∈ s.categories, row.slug ≠ slug) →
      (getCategoryBySlug production s slug).response
        = .error ⟨"Category not found", .NotFoundError⟩) ∧
    isCacheHit none = false ∧ isCacheHit (some .empty) = false := by
  have hbyId : ∀ id, isCacheHit (getAsync s.cache (.category id)) = false →
      (getCategoryById production s id).response
        = match id with
          | .malformed _ => .error ⟨"Failed to fetch category", .ServerError⟩
          | .uuid key _ =>
            match findByPk s.categories key with
            | none => .error ⟨"Category not found", .NotFoundError⟩
            | some category => .json 200 (categoryDocument s.categories category) := by
    intro id hmiss
    unfold getCategoryById
    cases hget : getAsync s.cache (.category id) with
    | none =>
      cases id with
      | malformed text => rfl
      | uuid key spelling =>
        simp only []
        cases findByPk s.categories key <;> rfl
    | some v =>
      cases v with
      | empty =>
        cases id with
        | malformed text => rfl
        | uuid key spelling =>
        simp only []
        cases findByPk s.categories key <;> rfl
      | json doc =>
        rw [hget] at hmiss
        cases hmiss
  have hbySlug : ∀ slug, isCacheHit (getAsync s.cache (.categorySlug slug)) = false →
      (getCategoryBySlug production s slug).response
        = match findBySlug s.categories slug with
          | none => .error ⟨"Category not found", .NotFoundError⟩
          | some category => .json 200 (categoryDocument s.categories category) := by
    intro slug hmiss
    unfold getCategoryBySlug
    cases hget : getAsync s.cache (.categorySlug slug) with
    | none => cases findBySlug s.categories slug <;> rfl
    | some v =>
      cases v with
      | empty => cases findBySlug s.categories slug <;> rfl
      | json doc =>
        rw [hget] at hmiss
        cases hmiss
  refine ⟨?_, ?_, ?_, ?_, ?_, rfl, rfl⟩
  · intro key spelling row hmiss hmem hid
    subst hid
    obtain ⟨parent, hdoc, hparent⟩ := categoryDocument_spec hkey row
    refine ⟨parent, ?_, hparent⟩
    rw [hbyId _ hmiss]
    simp only [findByPk_of_mem_nodup hkey hmem, hdoc]
  · intro key spelling hmiss hnone
    rw [hbyId _ hmiss]
    simp only [findByPk_eq_none_of_forall hnone]
  · intro text hmiss
    rw [hbyId _ hmiss]
  · intro slug row hmiss hmem hrow
    subst hrow
    obtain ⟨parent, hdoc, hparent⟩ := categoryDocument_spec hkey row
    refine ⟨parent, ?_, hparent⟩
    rw [hbySlug _ hmiss]
    simp only [findBySlug_of_mem_nodup hslug hmem, hdoc]
  · intro slug hmiss hnone
    rw [hbySlug _ hmiss]
    simp only [findBySlug_eq_none hnone]

/-- Witness of C21 on the table of "Components", "Storage" and "SSD" with the
key of "Storage" invalidated: the read answers "Storage" with its subcategory
"SSD" and its parent "Components". -/
theorem C21_miss_falls_through_witness :
    (getCategoryById true
        { storeSSD with cache := invalidateCategory storeWarm.cache 2 "storage" } 2).response
      = .json 200 (.categoryDetail
          ⟨2, "Storage", "storage", some 1, some "/components/storage", 2, true, 0⟩
          [⟨3, "SSD", "ssd", some 2, some "/components/storage/ssd", 3, true, 0⟩]
          (some ⟨1, "Components", "components", none, some "/components", 1, true, 0⟩)) ∧
    ∃ parent, (getCategoryById true
        { storeSSD with cache := invalidateCategory storeWarm.cache 2 "storage" }
        (.uuid 2 0)).response
        = .json 200 (.categoryDetail
            ⟨2, "Storage", "storage", some 1, some "/components/storage", 2, true, 0⟩
            (storeSSD.categories.filter (fun c => c.parentId == some 2 && c.isActive)) parent) ∧
      ∀ p, parent = some p ↔ (p ∈ storeSSD.categories ∧ some 1 = some p.id) :=
  ⟨by decide,
    (C21_miss_falls_through true
      { storeSSD with cache := invalidateCategory storeWarm.cache 2 "storage" }
      (by decide) (by decide)).1 2 0
      ⟨2, "Storage", "storage", some 1, some "/components/storage", 2, true, 0⟩
      (by decide) (by decide) rfl⟩

/-! ## Example tables -/

/-- Witness of C9 on the table holding "Components" and its child "Storage". -/
theorem C9_referential_integrity_preserved_witness :
    RefIntegrity (createCategory lowerAscii 3 storeStorage
      { name := some "SSD", parentId := some (some 2) }).state.categories ∧
    RefIntegrity (deleteCategory storeStorage 2).state.categories :=
  ⟨(C9_referential_integrity_preserved lowerAscii storeStorage
      (by unfold RefIntegrity; decide)).1 3 { name := some "SSD", parentId := some (some 2) },
    (C9_referential_integrity_preserved lowerAscii storeStorage
      (by unfold RefIntegrity; decide)).2.2.2.1 2⟩

end CategoryHierarchy

namespace UserService

/-! ## Default addresses -/

/-- Claim C27 fails on the code, which clears the default flag only among the
addresses of the same `addressType`. For a user whose shipping address 1 is
the default: creating a billing address with `isDefault: true` answers 201 and
leaves two default addresses of that user; `setDefaultAddress` on a billing
address answers 200 and leaves the shipping address default beside it; and
`updateAddress` with the body `{ addressType: "shipping" }` on the default
billing address answers 200 and leaves two default shipping addresses, the
hook `beforeUpdate` running only when `isDefault` changed. -/
theorem C27_second_default_stored :
    createAddress 2 ⟨"kc-1", false⟩ oneShipping 1
        { addressType := some .billing, isDefault := some true }
      = ⟨.json 201 ⟨2, 1, .billing, true⟩,
          ⟨[⟨1, "kc-1"⟩], [⟨1, 1, .shipping, true⟩, ⟨2, 1, .billing, true⟩]⟩⟩ ∧
    ¬ OnlyDefaultOfUser [⟨1, 1, .shipping, true⟩, ⟨2, 1, .billing, true⟩]
        ⟨2, 1, .billing, true⟩ ∧
    setDefaultAddress ⟨"kc-1", false⟩
        (createAddress 2 ⟨"kc-1", false⟩ oneShipping 1 { addressType := some .billing }).state 2
      = ⟨.json 200 ⟨2, 1, .billing, true⟩,
          ⟨[⟨1, "kc-1"⟩], [⟨1, 1, .shipping, true⟩, ⟨2, 1, .billing, true⟩]⟩⟩ ∧
    updateAddress ⟨"kc-1", false⟩
        ⟨[⟨1, "kc-1"⟩], [⟨1, 1, .shipping, true⟩, ⟨2, 1, .billing, true⟩]⟩ 2
        { addressType := some .shipping }
      = ⟨.json 200 ⟨2, 1, .shipping, true⟩,
          ⟨[⟨1, "kc-1"⟩], [⟨1, 1, .shipping, true⟩, ⟨2, 1, .shipping, true⟩]⟩⟩ ∧
    ¬ OnlyDefaultOfType [⟨1, 1, .shipping, true⟩, ⟨2, 1, .shipping, true⟩]
        ⟨2, 1, .shipping, true⟩ := by
  refine ⟨by decide, ?_, by decide, by decide, ?_⟩
  · intro h
    have := h ⟨1, 1, .shipping, true⟩ (List.mem_cons_self _ _) rfl rfl
    cases this
  · intro h
    have := h ⟨1, 1, .shipping, true⟩ (List.mem_cons_self _ _) rfl rfl rfl
    cases this

end UserService
